import Mathlib

/-!
# pngtostl: a shallow embedding of `pngtostl.c`

The C program turns a PNG image into an STL mesh with one box per pixel.

Modelling conventions.

* A C `float` is an IEEE binary32 number, modelled by the type `F32`: a finite
  value (a rational), an infinity or a NaN.  Every operation on `float`s
  (sum, product, quotient, conversion from `int`) is the exact operation
  followed by rounding to the nearest binary32 number, halfway cases to even
  (`F32.round`), with gradual underflow and overflow to an infinity; no
  operation is carried out in a wider format (`FLT_EVAL_METHOD` is 0, as on
  x86-64 and AArch64).  The sign of a zero is not modelled: the program
  divides by the image maximum, by `OptLevels` and by 3 only, which are never
  a negative zero, so the sign of a zero shows in the printed text
  `-0.000000` only.  The argument of `round` is a `float` widened to
  `double`, which is exact.
* A C `int` has 32 bits.  Its values are modelled by `Int`; an operation that
  overflows, and a conversion of a `double` that is not a number or lies
  outside the range of `int`, is undefined behaviour and has no value in the
  model (`none`).  The `unsigned` products of `PngLoad` wrap modulo `2^32`.
* Bytes (`unsigned char`) are modelled by `Nat`; the grid handed to the height
  computation is a list of at least `3*w*h` bytes, each at most 255.  The
  buffer a successful `PngLoad` returns always holds that many
  (`PngLoad_length`), so every byte `pngtostl` reads is inside it.
* A store outside the allocated buffer, and a load outside a row of the image,
  is undefined behaviour and has no value in the model.
* The standard output is modelled as the list of `printf` calls, one `Out`
  item per call; a number printed with `%f` is kept as the `float` it is.
* The PNG library and the C library are outside the program: their behaviour
  is a parameter (`LibPng`, `atoi`, `atof`, `fopen`).
-/

namespace PngToStl

/-! ## Single precision numbers -/

/-- Round to the nearest integer, halfway cases to the even one. -/
def roundEven (x : ℚ) : Int :=
  if x - ⌊x⌋ < 1 / 2 then ⌊x⌋
  else if 1 / 2 < x - ⌊x⌋ then ⌊x⌋ + 1
  else if ⌊x⌋ % 2 = 0 then ⌊x⌋ else ⌊x⌋ + 1

/-- The exponent of the step of the binary32 grid around the real number `q`:
below `2^-126` the grid has the step `2^-149` (subnormal numbers), and from
`2^e` to `2^(e+1)` it has the step `2^(e-23)` (24 significant bits). -/
def quantumExp (q : ℚ) : Int :=
  if |q| < 2 ^ (-126 : Int) then -149 else Int.log 2 |q| - 23

/-- The real number `q` rounded to the grid of the binary32 numbers, to
nearest, halfway cases to even.  The result is not bounded above; `F32.round`
turns the results from `2^128` on into an infinity. -/
def fl32 (q : ℚ) : ℚ :=
  (roundEven (q / 2 ^ quantumExp q) : ℚ) * 2 ^ quantumExp q

/-- A value of the C type `float`: a finite number, an infinity with its sign
(`neg = true` for the negative one), or a NaN. -/
inductive F32 where
  | fin (q : ℚ)
  | inf (neg : Bool)
  | nan
deriving DecidableEq

/-- The `float` a real number is rounded to: the nearest binary32 number, or
an infinity when that is `2^128` or more in absolute value. -/
def F32.round (q : ℚ) : F32 :=
  if 2 ^ 128 ≤ |fl32 q| then F32.inf (decide (q < 0)) else F32.fin (fl32 q)

/-- The conversion of an `int` to `float`. -/
def F32.ofInt (n : Int) : F32 :=
  F32.round n

/-- The sum of two `float`s. -/
def F32.add : F32 → F32 → F32
  | F32.fin a, F32.fin b => F32.round (a + b)
  | F32.fin _, F32.inf s => F32.inf s
  | F32.inf s, F32.fin _ => F32.inf s
  | F32.inf s, F32.inf t => if s = t then F32.inf s else F32.nan
  | _, _ => F32.nan

/-- The product of two `float`s. -/
def F32.mul : F32 → F32 → F32
  | F32.fin a, F32.fin b => F32.round (a * b)
  | F32.fin a, F32.inf s => if a = 0 then F32.nan else F32.inf (xor s (decide (a < 0)))
  | F32.inf s, F32.fin b => if b = 0 then F32.nan else F32.inf (xor s (decide (b < 0)))
  | F32.inf s, F32.inf t => F32.inf (xor s t)
  | _, _ => F32.nan

/-- The quotient of two `float`s; a zero divisor counts as positive. -/
def F32.div : F32 → F32 → F32
  | F32.fin a, F32.fin b =>
      if b = 0 then (if a = 0 then F32.nan else F32.inf (decide (a < 0)))
      else F32.round (a / b)
  | F32.fin _, F32.inf _ => F32.fin 0
  | F32.inf s, F32.fin b => F32.inf (xor s (decide (b < 0)))
  | _, _ => F32.nan

/-- The comparison `a < b` of two `float`s: false when one of them is a
NaN. -/
def F32.ltb : F32 → F32 → Bool
  | F32.fin a, F32.fin b => decide (a < b)
  | F32.fin _, F32.inf t => !t
  | F32.inf s, F32.fin _ => s
  | F32.inf s, F32.inf t => s && !t
  | _, _ => false

/-- The comparison `a <= b` of two `float`s: false when one of them is a
NaN. -/
def F32.leb : F32 → F32 → Bool
  | F32.fin a, F32.fin b => decide (a ≤ b)
  | F32.fin _, F32.inf t => !t
  | F32.inf s, F32.fin _ => s
  | F32.inf s, F32.inf t => s || !t
  | _, _ => false

instance : Zero F32 := ⟨F32.fin 0⟩

instance : One F32 := ⟨F32.fin 1⟩

instance : Add F32 := ⟨F32.add⟩

instance : Mul F32 := ⟨F32.mul⟩

instance : Div F32 := ⟨F32.div⟩

instance : LT F32 := ⟨fun a b => F32.ltb a b = true⟩

instance : LE F32 := ⟨fun a b => F32.leb a b = true⟩

instance (a b : F32) : Decidable (a < b) :=
  inferInstanceAs (Decidable (F32.ltb a b = true))

instance (a b : F32) : Decidable (a ≤ b) :=
  inferInstanceAs (Decidable (F32.leb a b = true))

/-- A `float` as the machine holds it: a finite value is a binary32 number
(rounding leaves it as it is). -/
def F32.valid : F32 → Prop
  | F32.fin q => F32.round q = F32.fin q
  | _ => True

/-- The real number a finite `float` stands for (0 for an infinity and for a
NaN, which stand for none). -/
def F32.toRat : F32 → ℚ
  | F32.fin q => q
  | _ => 0

/-! ## Integers -/

/-- The largest and the smallest value of an `int`. -/
def INT_MAX : Int := 2147483647
def INT_MIN : Int := -2147483648

/-- The result of an `int` operation whose mathematical value is `n`:
undefined when `n` is outside the range of `int`. -/
def int32 (n : Int) : Option Int :=
  if INT_MIN ≤ n ∧ n ≤ INT_MAX then some n else none

/-- The C library function `round`: nearest integer, halfway cases away from
zero. -/
def cRound (q : ℚ) : Int :=
  if 0 ≤ q then ⌊q + 1 / 2⌋ else ⌈q - 1 / 2⌉

/-- The conversion `(int) round(x)` of a `float` `x`: undefined when `x` is
not a finite number or the rounded value is outside the range of `int`. -/
def roundToInt : F32 → Option Int
  | F32.fin q => int32 (cRound q)
  | _ => none

/-! ## Global parameters -/

/-- Global parameters set via command line options: the C globals
`OptNegative`, `OptLevels`, `OptReliefHeight` and `OptBaseHeight`. -/
structure Opts where
  OptNegative : Bool
  OptLevels : Int
  OptReliefHeight : F32
  OptBaseHeight : F32
deriving DecidableEq

/-- The initial values of the globals: `1`, `20`, `1` and `.2`, the last one
being the `float` nearest to 0.2, which is `13421773 / 2^26`. -/
def defaultOpts : Opts :=
  { OptNegative := true, OptLevels := 20, OptReliefHeight := 1,
    OptBaseHeight := F32.fin (13421773 / 67108864) }

/-! ## Output stream -/

/-- A point of space, the three numbers of one `vertex` line. -/
structure Vec3 where
  x : F32
  y : F32
  z : F32
deriving DecidableEq

/-- One `printf` call on the standard output: either a constant text, or the
line `"\t\tvertex %f %f %f\n"` with its three arguments. -/
inductive Out where
  | text (s : String)
  | vertex (v : Vec3)
deriving DecidableEq

/-- Emits a triangle in the format of STL files, with a normal set to zero:
the seven `printf` calls of the C function `emitTriangle`. -/
def emitTriangle (x1 y1 z1 x2 y2 z2 x3 y3 z3 : F32) : List Out :=
  [ Out.text "facet normal 0,0,0\n",
    Out.text "\touter loop\n",
    Out.vertex ⟨x1, y1, z1⟩,
    Out.vertex ⟨x2, y2, z2⟩,
    Out.vertex ⟨x3, y3, z3⟩,
    Out.text "\tendloop\n",
    Out.text "endfacet\n" ]

/-- Transforms the box originating at `x,y`, with x-y dimension `xsize,ysize`
and height `zheight`, into the corresponding set of triangles: the twelve
`emitTriangle` calls of the C function `boxToTriangles`, in order.  The sums
are sums of `float`s. -/
def boxToTriangles (x y xsize ysize zheight : F32) : List Out :=
  -- Bottom side.
  emitTriangle x y 0 x (y + ysize) 0 (x + xsize) y 0 ++
  emitTriangle (x + xsize) y 0 x (y + ysize) 0 (x + xsize) (y + ysize) 0 ++
  -- Top side.
  emitTriangle x y zheight (x + xsize) y zheight x (y + ysize) zheight ++
  emitTriangle (x + xsize) y zheight (x + xsize) (y + ysize) zheight x (y + ysize) zheight ++
  -- Left side.
  emitTriangle x y 0 x y zheight x (y + ysize) 0 ++
  emitTriangle x (y + ysize) 0 x y zheight x (y + ysize) zheight ++
  -- Right side.
  (let rx := x + xsize
   emitTriangle rx y 0 rx (y + ysize) 0 rx y zheight ++
   emitTriangle rx (y + ysize) 0 rx (y + ysize) zheight rx y zheight) ++
  -- Front side.
  emitTriangle x y 0 (x + xsize) y zheight x y zheight ++
  emitTriangle x y 0 (x + xsize) y 0 (x + xsize) y zheight ++
  -- Back side.
  (let by_ := y + ysize
   emitTriangle x by_ 0 x by_ zheight (x + xsize) by_ zheight ++
   emitTriangle x by_ 0 (x + xsize) by_ zheight (x + xsize) by_ 0)

/-! ## Height computation of `pngtostl` -/

/-- The channel sum `p[0]+p[1]+p[2]` with `p` at offset `p` of the buffer. -/
def sumAt (rgb : List Nat) (p : Nat) : Nat :=
  rgb.getD p 0 + rgb.getD (p + 1) 0 + rgb.getD (p + 2) 0

/-- The expression `(float)(s)/3` for a channel sum `s`: the sum is converted
to `float` and divided by the `float` 3. -/
def lumOfSum (s : Nat) : F32 :=
  F32.ofInt s / F32.ofInt 3

/-- The expression `(float)(p[0]+p[1]+p[2])/3` with `p` pointing at offset `p`
of the RGB buffer. -/
def lumAt (rgb : List Nat) (p : Nat) : F32 :=
  lumOfSum (sumAt rgb p)

/-- The first loop of `pngtostl` ("calculate the max white level in the
image"): `n` iterations are left, `p` is the offset of the pointer and `max`
the running maximum. -/
def maxLoop (rgb : List Nat) : Nat → Nat → F32 → F32
  | 0, _, max => max
  | n + 1, p, max =>
      let lum := lumAt rgb p
      maxLoop rgb n (p + 3) (if lum > max then lum else max)

/-- The statement `int level = round((OptLevels-1)*lum/max);`: `OptLevels-1`
is an `int`, converted to `float` for the product; the quotient is a `float`;
its rounded value is converted to `int`.  With `max = 0` the quotient is an
infinity or a NaN and the conversion is undefined. -/
def rawLevel (o : Opts) (lum max : F32) : Option Int :=
  match int32 (o.OptLevels - 1) with
  | none => none
  | some c => roundToInt (F32.ofInt c * lum / max)

/-- The statements `int level = round((OptLevels-1)*lum/max);` and
`if (OptNegative) level = OptLevels-level-1;`. -/
def pixelLevel (o : Opts) (lum max : F32) : Option Int :=
  match rawLevel o lum max with
  | none => none
  | some level =>
      if o.OptNegative then
        match int32 (o.OptLevels - level) with
        | none => none
        | some d => int32 (d - 1)
      else some level

/-- The statement `float height = OptBaseHeight+(OptReliefHeight*level/OptLevels);`
for a given `level`: `level` and `OptLevels` are converted to `float`, and the
product, the quotient and the sum are `float` operations. -/
def heightOfLevel (o : Opts) (level : Int) : F32 :=
  o.OptBaseHeight + o.OptReliefHeight * F32.ofInt level / F32.ofInt o.OptLevels

/-- The height computed in the body of the emission loop for a pixel of
luminance `lum`, when the image maximum is `max`. -/
def pixelHeight (o : Opts) (lum max : F32) : Option F32 :=
  match pixelLevel o lum max with
  | none => none
  | some level => some (heightOfLevel o level)

/-- The inner loop `for (x = 0; x < w; x++)` of the emission: `n` iterations
are left, `x` is the column and `p` the pointer offset.  The `int`s `x` and
`y` are converted to `float` for the call of `boxToTriangles`.  Returns the
output of the row and the final pointer offset. -/
def rowLoop (o : Opts) (rgb : List Nat) (max : F32) (y : Nat) :
    Nat → Nat → Nat → Option (List Out × Nat)
  | 0, _, p => some ([], p)
  | n + 1, x, p =>
      match pixelHeight o (lumAt rgb p) max with
      | none => none
      | some height =>
          match rowLoop o rgb max y n (x + 1) (p + 3) with
          | none => none
          | some (rest, q) =>
              some (boxToTriangles (F32.ofInt x) (F32.ofInt y) 1 1 height ++ rest, q)

/-- The outer loop `for (y = 0; y < h; y++)` of the emission: `n` rows are
left, `y` is the row and `p` the pointer offset. -/
def emitLoop (o : Opts) (rgb : List Nat) (max : F32) (w : Nat) :
    Nat → Nat → Nat → Option (List Out)
  | 0, _, _ => some []
  | n + 1, y, p =>
      match rowLoop o rgb max y w 0 p with
      | none => none
      | some (row, q) =>
          match emitLoop o rgb max w n (y + 1) q with
          | none => none
          | some rest => some (row ++ rest)

/-- The part of `pngtostl` that follows a successful `PngLoad`: the maximum
luminance, then the header, the boxes and the trailer.  The result is `none`
when the behaviour is undefined: the product `w*h` of the first loop
overflows, or some pixel has no defined level. -/
def stlOfRgb (o : Opts) (rgb : List Nat) (w h : Nat) : Option (List Out) :=
  match int32 (w * h) with
  | none => none
  | some _ =>
      let max := maxLoop rgb (w * h) 0 0
      match emitLoop o rgb max w h 0 0 with
      | none => none
      | some body => some (Out.text "solid PngToStl\n" :: body ++ [Out.text "endsolidPngToStl\n"])

/-- The height computed for the `k`-th pixel (row-major) of a `w`×`h` image. -/
def heightAt (o : Opts) (rgb : List Nat) (w h k : Nat) : Option F32 :=
  pixelHeight o (lumAt rgb (3 * k)) (maxLoop rgb (w * h) 0 0)

/-! ## Loading the PNG -/

/-- What the PNG library reports once `png_read_png` has read an image with
`PNG_TRANSFORM_IDENTITY`: the values of `png_get_image_width`,
`png_get_image_height`, `png_get_color_type`, `png_get_bit_depth`,
`png_get_rowbytes` and the rows of `png_get_rows`, each a list of bytes. -/
structure PngImage where
  width : Nat
  height : Nat
  color_type : Nat
  bit_depth : Nat
  rowbytes : Nat
  rows : List (List Nat)
deriving DecidableEq

/-- The constants of `png.h`. -/
def PNG_COLOR_TYPE_GRAY : Nat := 0
def PNG_COLOR_TYPE_RGB : Nat := 2
def PNG_COLOR_TYPE_PALETTE : Nat := 3
def PNG_COLOR_TYPE_GRAY_ALPHA : Nat := 4
def PNG_COLOR_TYPE_RGB_ALPHA : Nat := 6
def PNG_BYTES_TO_CHECK : Nat := 8

/-- The eight bytes every PNG file starts with; `png_sig_cmp` compares the
start of the file with them. -/
def pngSignature : List Nat := [137, 80, 78, 71, 13, 10, 26, 10]

/-- The behaviour of the libraries `PngLoad` calls: whether
`png_create_read_struct` and `png_create_info_struct` succeed, the result of
`png_read_png` on the bytes that follow the signature (`none` when the library
reports an error through `longjmp`), and the result of `malloc` for a given
size: `none` for `NULL`, otherwise the bytes the fresh block holds, by
offset. -/
structure LibPng where
  create_read_struct : Bool
  create_info_struct : Bool
  read_png : List Nat → Option PngImage
  malloc : Nat → Option (Nat → Nat)

/-- The result of `PngLoad`: `NULL`, undefined behaviour, or the buffer with
the width, the height and the alpha flag. -/
inductive Loaded where
  | null
  | undefined
  | ok (rgb : List Nat) (w h : Nat) (alpha : Bool)

/-- The assignment `dst[k] = b` in the buffer `buf`: undefined outside the
buffer. -/
def store (buf : List Nat) (k b : Nat) : Option (List Nat) :=
  if k < buf.length then some (buf.set k b) else none

/-- The inner copy loop of `PngLoad` over one row `src`: `n` pixels are left,
`d` is the offset of `dst` in the buffer and `s` the offset of `src` in the
row.  Three bytes are copied for each pixel, `dst` advances by 3 and `src` by
4 for `PNG_COLOR_TYPE_RGB_ALPHA`, by 3 otherwise. -/
def copyRow (color_type : Nat) (src : List Nat) : Nat → Nat → Nat → List Nat → Option (List Nat)
  | 0, _, _, buf => some buf
  | n + 1, d, s, buf =>
      match src[s]?, src[s + 1]?, src[s + 2]? with
      | some b0, some b1, some b2 =>
          match store buf d b0 with
          | none => none
          | some buf0 =>
              match store buf0 (d + 1) b1 with
              | none => none
              | some buf1 =>
                  match store buf1 (d + 2) b2 with
                  | none => none
                  | some buf2 =>
                      copyRow color_type src n (d + 3)
                        (s + (if color_type = PNG_COLOR_TYPE_RGB_ALPHA then 4 else 3)) buf2
      | _, _, _ => none

/-- The outer copy loop of `PngLoad`: `n` rows are left, `j` is the row.  Row
`j` is written from the offset `j*width*3`, a product of `png_uint_32`
numbers, which wraps modulo `2^32`. -/
def copyRows (img : PngImage) : Nat → Nat → List Nat → Option (List Nat)
  | 0, _, buf => some buf
  | n + 1, j, buf =>
      match img.rows[j]? with
      | none => none
      | some src =>
          match copyRow img.color_type src img.width (j * img.width * 3 % 2 ^ 32) 0 buf with
          | none => none
          | some buf1 => copyRows img n (j + 1) buf1

/-- Load a PNG and return it as a raw RGB representation, with the width, the
height and the alpha flag.  The argument `fp` is the content of the file.  The
size `row_bytes*height` handed to `malloc` is a product of 32-bit numbers and
wraps modulo `2^32`.  A width or a height of `2^31` or more, which the library
never reports, does not fit the `int` it is stored in. -/
def PngLoad (lib : LibPng) (fp : List Nat) : Loaded :=
  -- Check signature
  if (fp.take PNG_BYTES_TO_CHECK).length ≠ PNG_BYTES_TO_CHECK then Loaded.null
  else if fp.take PNG_BYTES_TO_CHECK ≠ pngSignature then Loaded.null
  -- Initialize data structures
  else if lib.create_read_struct = false then Loaded.null
  else if lib.create_info_struct = false then Loaded.null
  else
    -- Read the PNG in memory at once
    match lib.read_png (fp.drop PNG_BYTES_TO_CHECK) with
    | none => Loaded.null
    | some img =>
        if img.color_type ≠ PNG_COLOR_TYPE_RGB ∧ img.color_type ≠ PNG_COLOR_TYPE_RGB_ALPHA then
          Loaded.null
        else
          -- Get the image data
          match lib.malloc (img.rowbytes * img.height % 2 ^ 32) with
          | none => Loaded.null
          | some block =>
              match copyRows img img.height 0
                  ((List.range (img.rowbytes * img.height % 2 ^ 32)).map block) with
              | none => Loaded.undefined
              | some rgb =>
                  if 2 ^ 31 ≤ img.width ∨ 2 ^ 31 ≤ img.height then Loaded.undefined
                  else Loaded.ok rgb img.width img.height
                    (decide (img.color_type = PNG_COLOR_TYPE_RGB_ALPHA))

/-! ## The program -/

/-- What a run of the program leaves behind: the `printf` calls on the
standard output, the messages on the standard error, and the exit status. -/
structure Proc where
  stdout : List Out
  stderr : List String
  status : Int
deriving DecidableEq

/-- The outside world of one run: the C library functions `atoi` and `atof`
(the latter with the conversion of its `double` result to the `float` it is
stored in), the content of the file `fopen` opens for each name (`none` when
it fails) and the PNG library. -/
structure Env where
  atoi : String → Int
  atof : String → F32
  fopen : String → Option (List Nat)
  lib : LibPng

/-- Convert the specified PNG file into an STL, followed by the `return 0` of
`main`.  The two error paths call `exit(1)`: after `perror` on the standard
error when the file cannot be opened (the message is kept up to the colon),
after a `printf` on the standard output when `PngLoad` returns `NULL`.  The
result is `none` when the behaviour of the C code is undefined. -/
def pngtostl (env : Env) (o : Opts) (filename : String) : Option Proc :=
  match env.fopen filename with
  | none => some { stdout := [], stderr := ["Opening the PNG file"], status := 1 }
  | some fp =>
      -- Load the PNG file in memory as RGB raw data.
      match PngLoad env.lib fp with
      | Loaded.null =>
          some { stdout := [Out.text "Error parsing the PNG file.\n"], stderr := [], status := 1 }
      | Loaded.undefined => none
      | Loaded.ok rgb w h _ =>
          match stlOfRgb o rgb w h with
          | none => none
          | some out => some { stdout := out, stderr := [], status := 0 }

/-- Show help on wrong call or if --help is given: the single `printf` of
`showHelp`. -/
def showHelp : List Out :=
  [Out.text ("png2stl image.png [... options ...]\n" ++
    "  --relief-height <mm> | Relief height.      Default: 1 mm\n" ++
    "  --base-height <mm>   | Fixed base height.  Default: .2 mm\n" ++
    "  --levels             | Number of different levels (heights/greys). Default: 20\n" ++
    "  --negative           | Use thicker plastic for black (default).\n" ++
    "  --positive           | Use thicker plastic for white.\n")]

/-- The result of the option loop of `main`: either the process has exited, or
the loop is over with the options and the filename found (if any). -/
inductive Parsed where
  | exited (p : Proc)
  | done (o : Opts) (filename : Option String)
deriving DecidableEq

/-- The loop `for (j = 1; j < argc; j++)` of `main` over the arguments
`argv[j], ..., argv[argc-1]` that are left; `moreargs` holds when at least two
are left. -/
def parseArgs (env : Env) : List String → Opts → Option String → Parsed
  | [], o, filename => Parsed.done o filename
  | [arg], o, filename =>
      if arg = "--positive" then Parsed.done { o with OptNegative := false } filename
      else if arg = "--negative" then Parsed.done { o with OptNegative := true } filename
      else if arg = "--help" then
        Parsed.exited { stdout := showHelp, stderr := [], status := 0 }
      else if arg.data.head? ≠ some '-' ∧ filename = none then Parsed.done o (some arg)
      else Parsed.exited { stdout := showHelp, stderr := ["Invalid options."], status := 1 }
  | arg :: next :: rest, o, filename =>
      if arg = "--relief-height" then
        parseArgs env rest { o with OptReliefHeight := env.atof next } filename
      else if arg = "--base-height" then
        parseArgs env rest { o with OptBaseHeight := env.atof next } filename
      else if arg = "--levels" then
        let levels := env.atoi next
        parseArgs env rest { o with OptLevels := if levels < 2 then 2 else levels } filename
      else if arg = "--positive" then
        parseArgs env (next :: rest) { o with OptNegative := false } filename
      else if arg = "--negative" then
        parseArgs env (next :: rest) { o with OptNegative := true } filename
      else if arg = "--help" then
        Parsed.exited { stdout := showHelp, stderr := [], status := 0 }
      else if arg.data.head? ≠ some '-' ∧ filename = none then
        parseArgs env (next :: rest) o (some arg)
      else Parsed.exited { stdout := showHelp, stderr := ["Invalid options."], status := 1 }

/-- The C function `main` on the argument vector `argv` (`argv[0]` included),
started with the globals at their initial values. -/
def main (env : Env) (argv : List String) : Option Proc :=
  -- Check arity and parse additional args if any.
  if argv.length < 2 then some { stdout := showHelp, stderr := [], status := 0 }
  else
    match parseArgs env (argv.drop 1) defaultOpts none with
    | Parsed.exited p => some p
    | Parsed.done _ none =>
        some { stdout := [Out.text "No PNG filename given\n"], stderr := [], status := 1 }
    | Parsed.done o (some filename) => pngtostl env o filename

/-! ## Reading the mesh back -/

/-- A triangle: three vertices, in emission order. -/
structure Tri (α : Type) where
  v1 : α
  v2 : α
  v3 : α
deriving DecidableEq

/-- The facets of an output stream: each block of two text lines, three
`vertex` lines and two text lines gives one triangle. -/
def facets : List Out → List (Tri Vec3)
  | Out.text _ :: Out.text _ :: Out.vertex a :: Out.vertex b :: Out.vertex c ::
      Out.text _ :: Out.text _ :: rest => ⟨a, b, c⟩ :: facets rest
  | _ => []

/-- The block `emitTriangle` writes for a triangle. -/
def emitTri (t : Tri Vec3) : List Out :=
  emitTriangle t.v1.x t.v1.y t.v1.z t.v2.x t.v2.y t.v2.z t.v3.x t.v3.y t.v3.z

/-- Image of a triangle under a map of its vertices. -/
def Tri.map {α β : Type} (f : α → β) (t : Tri α) : Tri β :=
  ⟨f t.v1, f t.v2, f t.v3⟩

/-- The three directed edges of a triangle, in emission order. -/
def Tri.edges {α : Type} (t : Tri α) : List (α × α) :=
  [(t.v1, t.v2), (t.v2, t.v3), (t.v3, t.v1)]

/-- The three vertices of a triangle. -/
def Tri.vertices {α : Type} (t : Tri α) : List α :=
  [t.v1, t.v2, t.v3]

/-- A vector of space with real coordinates. -/
structure RVec where
  x : ℚ
  y : ℚ
  z : ℚ
deriving DecidableEq

/-- The point of space a vertex with finite coordinates stands for. -/
def Vec3.toRVec (v : Vec3) : RVec :=
  ⟨v.x.toRat, v.y.toRat, v.z.toRat⟩

/-- A vertex whose three coordinates are finite numbers. -/
def Vec3.finite (v : Vec3) : Prop :=
  (∃ a, v.x = F32.fin a) ∧ (∃ b, v.y = F32.fin b) ∧ ∃ c, v.z = F32.fin c

/-- Difference of two points. -/
def RVec.sub (a b : RVec) : RVec :=
  ⟨a.x - b.x, a.y - b.y, a.z - b.z⟩

/-- Cross product. -/
def RVec.cross (u v : RVec) : RVec :=
  ⟨u.y * v.z - u.z * v.y, u.z * v.x - u.x * v.z, u.x * v.y - u.y * v.x⟩

/-- Multiple of a vector. -/
def RVec.scale (c : ℚ) (v : RVec) : RVec :=
  ⟨c * v.x, c * v.y, c * v.z⟩

/-- The vector `(v2 - v1) × (v3 - v1)` of a triangle, which points to the side
from which the vertices are seen in counter-clockwise order. -/
def windingNormal (t : Tri Vec3) : RVec :=
  RVec.cross (t.v2.toRVec.sub t.v1.toRVec) (t.v3.toRVec.sub t.v1.toRVec)

/-- The outward unit normal of the six faces of a box, in the order in which
`boxToTriangles` handles them: bottom, top, left, right, front, back. -/
def outwardNormal : Nat → RVec
  | 0 => ⟨0, 0, -1⟩
  | 1 => ⟨0, 0, 1⟩
  | 2 => ⟨-1, 0, 0⟩
  | 3 => ⟨1, 0, 0⟩
  | 4 => ⟨0, -1, 0⟩
  | _ => ⟨0, 1, 0⟩

/-- The plane that carries each of the six faces of the box that
`boxToTriangles` emits, from `x` to the `float` sum `x+xsize`, from `y` to the
`float` sum `y+ysize` and from 0 to `zheight`, as a predicate on points, in
the same order. -/
def onFace (x y xsize ysize zheight : F32) : Nat → Vec3 → Prop
  | 0 => fun v => v.z = 0
  | 1 => fun v => v.z = zheight
  | 2 => fun v => v.x = x
  | 3 => fun v => v.x = x + xsize
  | 4 => fun v => v.y = y
  | _ => fun v => v.y = y + ysize

/-- The corner of the box with the given choice of the far side along each
axis. -/
def corner (x y xsize ysize zheight : F32) (c : Bool × Bool × Bool) : Vec3 :=
  ⟨if c.1 then x + xsize else x, if c.2.1 then y + ysize else y, if c.2.2 then zheight else 0⟩

/-- The eight corners of the box. -/
def corners (x y xsize ysize zheight : F32) : List Vec3 :=
  [(false, false, false), (false, false, true), (false, true, false), (false, true, true),
   (true, false, false), (true, false, true), (true, true, false), (true, true, true)].map
    (corner x y xsize ysize zheight)

/-- A list of triangles is a closed surface when every directed edge of a
triangle occurs in that triangle only, and its reverse occurs in exactly one
triangle, a different one. -/
def closedSurface {α : Type} [DecidableEq α] (T : List (Tri α)) : Prop :=
  ∀ t ∈ T, ∀ e ∈ t.edges,
    T.filter (fun s => decide (e ∈ s.edges)) = [t] ∧
    ∃ s ∈ T, s ≠ t ∧ T.filter (fun s => decide (e.swap ∈ s.edges)) = [s]

instance {α : Type} [DecidableEq α] (T : List (Tri α)) : Decidable (closedSurface T) :=
  inferInstanceAs (Decidable (∀ t ∈ T, ∀ e ∈ t.edges,
    T.filter (fun s => decide (e ∈ s.edges)) = [t] ∧
    ∃ s ∈ T, s ≠ t ∧ T.filter (fun s => decide (e.swap ∈ s.edges)) = [s]))

/-- The twelve triangles of `boxToTriangles` with each vertex named by the
corner of the box it is. -/
def cornerTris : List (Tri (Bool × Bool × Bool)) :=
  [ ⟨(false, false, false), (false, true, false), (true, false, false)⟩,
    ⟨(true, false, false), (false, true, false), (true, true, false)⟩,
    ⟨(false, false, true), (true, false, true), (false, true, true)⟩,
    ⟨(true, false, true), (true, true, true), (false, true, true)⟩,
    ⟨(false, false, false), (false, false, true), (false, true, false)⟩,
    ⟨(false, true, false), (false, false, true), (false, true, true)⟩,
    ⟨(true, false, false), (true, true, false), (true, false, true)⟩,
    ⟨(true, true, false), (true, true, true), (true, false, true)⟩,
    ⟨(false, false, false), (true, false, true), (false, false, true)⟩,
    ⟨(false, false, false), (true, false, false), (true, false, true)⟩,
    ⟨(false, true, false), (false, true, true), (true, true, true)⟩,
    ⟨(false, true, false), (true, true, true), (true, true, false)⟩ ]

/-- The arguments of the `vertex` lines of an output stream, in order. -/
def vertexLines : List Out → List Vec3
  | [] => []
  | Out.vertex v :: rest => v :: vertexLines rest
  | Out.text _ :: rest => vertexLines rest

/-! ## Example environments -/

/-- Reads a string of decimal digits: stands for `atoi` in examples. -/
def decimal (s : String) : Int :=
  s.data.foldl (fun acc c => 10 * acc + ((c.toNat : Int) - 48)) 0

/-- An environment with a decimal `atoi` in which no file can be opened. -/
def noFileEnv : Env :=
  { atoi := decimal, atof := fun _ => 0, fopen := fun _ => none,
    lib := { create_read_struct := true, create_info_struct := true,
             read_png := fun _ => none, malloc := fun _ => some (fun _ => 0) } }

/-- An environment in which every file is empty. -/
def emptyFileEnv : Env :=
  { atoi := fun _ => 0, atof := fun _ => 0, fopen := fun _ => some [],
    lib := { create_read_struct := true, create_info_struct := true,
             read_png := fun _ => none, malloc := fun _ => some (fun _ => 0) } }

/-- A 2x1 image with 16 bits per channel, colour type RGB: the first pixel
has the three samples `0x00FF`, the second the three samples `0xFFFF`; the row
holds 12 bytes. -/
def rgb16Image : PngImage :=
  { width := 2, height := 1, color_type := PNG_COLOR_TYPE_RGB, bit_depth := 16, rowbytes := 12,
    rows := [[0, 255, 0, 255, 0, 255, 255, 255, 255, 255, 255, 255]] }

/-- A PNG library that decodes every file to `rgb16Image` and whose `malloc`
gives blocks filled with the byte 170. -/
def rgb16Lib : LibPng :=
  { create_read_struct := true, create_info_struct := true,
    read_png := fun _ => some rgb16Image, malloc := fun _ => some (fun _ => 170) }

/-- The process that `--help` and a call without arguments end in: the usage
text on the standard output, status 0. -/
def helpProc : Proc :=
  { stdout := showHelp, stderr := [], status := 0 }

/-- The process that an argument the option loop cannot accept ends in:
"Invalid options." on the standard error, the usage text on the standard
output, status 1. -/
def invalidProc : Proc :=
  { stdout := showHelp, stderr := ["Invalid options."], status := 1 }

/-- The process that a missing filename ends in: one line on the standard
output, status 1. -/
def noFilenameProc : Proc :=
  { stdout := [Out.text "No PNG filename given\n"], stderr := [], status := 1 }

/-- The options that take a value. -/
def valueOptions : List String :=
  ["--relief-height", "--base-height", "--levels"]

/-- The options that take no value, `--help` apart. -/
def flagOptions : List String :=
  ["--positive", "--negative"]

/-- Sequences of complete options: flags, and value-taking options each
followed by its value (any string). -/
inductive Options : List String → Prop where
  | nil : Options []
  | flag (a : String) (l : List String) : a ∈ flagOptions → Options l → Options (a :: l)
  | value (a v : String) (l : List String) : a ∈ valueOptions → Options l →
      Options (a :: v :: l)

/-- An argument that can be the filename: it does not start with `-`. -/
def isFilename (a : String) : Prop :=
  a.data.head? ≠ some '-'

instance (a : String) : Decidable (isFilename a) :=
  inferInstanceAs (Decidable (a.data.head? ≠ some '-'))

/-- Sequences of complete options with exactly one filename among them. -/
def OptionsWithFile (args : List String) : Prop :=
  ∃ l1 f l2, args = l1 ++ f :: l2 ∧ Options l1 ∧ isFilename f ∧ Options l2

/-- An unknown flag: it starts with `-` and is none of the six options. -/
def unknownFlag (a : String) : Prop :=
  a.data.head? = some '-' ∧ a ∉ valueOptions ∧ a ∉ flagOptions ∧ a ≠ "--help"

/-- The value of `(float)(p[0]+p[1]+p[2])/3` for the channel sum `s`, when it
is finite: the sum and the quotient by 3, each rounded to single precision. -/
def lumF32 (s : Nat) : ℚ :=
  fl32 (fl32 (s : ℚ) / 3)

/-- The value of `(OptLevels-1)*lum/max` for `c = OptLevels-1` and for the
luminances of the channel sums `s` and `smax`, when it is finite: the
conversion of `c`, the product and the quotient, each rounded to single
precision. -/
def quotF32 (c s smax : Nat) : ℚ :=
  fl32 (fl32 (fl32 (c : ℚ) * lumF32 s) / lumF32 smax)

/-- The largest channel sum of the first `n` pixels. -/
def maxSum (rgb : List Nat) (n : Nat) : Nat :=
  ((List.range n).map (fun k => sumAt rgb (3 * k))).foldl max 0

/-- A buffer that holds a grid of `w`×`h` pixels: at least `3*w*h` bytes, each
at most 255. -/
def isGrid (rgb : List Nat) (w h : Nat) : Prop :=
  3 * (w * h) ≤ rgb.length ∧ ∀ b ∈ rgb, b ≤ 255

/-- Luminance of the spec: `L = (R+G+B)/3` as a real number, not rounded, for
the `k`-th pixel of the buffer. -/
def specLuminance (rgb : List Nat) (k : Nat) : ℚ :=
  ((rgb.getD (3 * k) 0 : ℚ) + rgb.getD (3 * k + 1) 0 + rgb.getD (3 * k + 2) 0) / 3

/-- Maximum of the spec: the largest luminance of the first `n` pixels. -/
def specLmax (rgb : List Nat) (n : Nat) : ℚ :=
  ((List.range n).map (specLuminance rgb)).foldl max 0

/-- Rounding of the spec: to the nearest integer, ties rounded up. -/
def specRound (x : ℚ) : Int :=
  ⌊x + 1 / 2⌋

/-- Level of the spec before the inversion: `round((levels-1) * L / Lmax)`. -/
def specRawLevel (o : Opts) (L Lmax : ℚ) : Int :=
  specRound ((o.OptLevels - 1) * L / Lmax)

/-- Level of the spec: `round((levels-1) * L / Lmax)`, inverted to
`levels-1-level` when `negative` is true. -/
def specLevel (o : Opts) (L Lmax : ℚ) : Int :=
  if o.OptNegative then o.OptLevels - 1 - specRawLevel o L Lmax else specRawLevel o L Lmax

/-- A number half-way between two integers. -/
def isTie (x : ℚ) : Prop :=
  ∃ n : Int, x = n + 1 / 2

/-! ## Example inputs -/

/-- The default options with two levels (`--levels 2`). -/
def twoLevelsOpts : Opts :=
  { defaultOpts with OptLevels := 2 }

/-- The default options with `--levels 4211009`. -/
def overLevelsOpts : Opts :=
  { defaultOpts with OptLevels := 4211009 }

/-- The default options with `--levels 8388603`, in the polarity given. -/
def manyLevelsOpts (neg : Bool) : Opts :=
  { defaultOpts with OptLevels := 8388603, OptNegative := neg }

/-- The default options with `--levels 4316`. -/
def offTieLevelsOpts : Opts :=
  { defaultOpts with OptLevels := 4316 }

/-- The default options with `--levels 2147483647`, the largest `int`. -/
def maxLevelsOpts : Opts :=
  { defaultOpts with OptLevels := 2147483647 }

/-- The options of `--positive --relief-height -1`. -/
def sunkReliefOpts : Opts :=
  { defaultOpts with OptNegative := false, OptReliefHeight := F32.fin (-1) }

/-- The options of `--positive --base-height 16777216`. -/
def highBaseOpts : Opts :=
  { defaultOpts with OptNegative := false, OptBaseHeight := F32.fin 16777216 }

theorem cRound_intCast (n : Int) : cRound (n : ℚ) = n := by
  unfold cRound
  split
  · rw [Int.floor_eq_iff]
    constructor <;> norm_num
  · rw [Int.ceil_eq_iff]
    constructor <;> norm_num

theorem cRound_mono {a b : ℚ} (h : a ≤ b) : cRound a ≤ cRound b := by
  unfold cRound
  by_cases ha : 0 ≤ a
  · have hb : 0 ≤ b := le_trans ha h
    rw [if_pos ha, if_pos hb]
    exact Int.floor_mono (by linarith)
  · rw [if_neg ha]
    by_cases hb : 0 ≤ b
    · rw [if_pos hb]
      have h1 : ⌈a - 1 / 2⌉ ≤ 0 := by
        rw [Int.ceil_le]
        push_neg at ha
        norm_num
        linarith
      have h2 : (0 : Int) ≤ ⌊b + 1 / 2⌋ := by
        rw [Int.le_floor]
        norm_num
        linarith
      exact le_trans h1 h2
    · rw [if_neg hb]
      exact Int.ceil_mono (by linarith)

theorem cRound_nonneg {a : ℚ} (h : 0 ≤ a) : 0 ≤ cRound a := by
  have := cRound_mono h
  rwa [show ((0 : ℚ)) = ((0 : Int) : ℚ) by norm_num, cRound_intCast] at this

theorem cRound_le_of_le {a : ℚ} {n : Int} (h : a ≤ n) : cRound a ≤ n := by
  have := cRound_mono h
  rwa [cRound_intCast] at this

theorem roundEven_err (x : ℚ) : |(roundEven x : ℚ) - x| ≤ 1 / 2 := by
  have h1 : (⌊x⌋ : ℚ) ≤ x := Int.floor_le x
  have h2 : x < (⌊x⌋ : ℚ) + 1 := Int.lt_floor_add_one x
  unfold roundEven
  rw [abs_le]
  split_ifs with ha hb hc
  · constructor <;> linarith
  · push_cast
    constructor <;> linarith
  · constructor <;> linarith
  · push_cast
    constructor <;> linarith

/-- A number less than one half away from an integer rounds to it. -/
theorem roundEven_of_lt (x : ℚ) (m : Int) (h : |x - m| < 1 / 2) : roundEven x = m := by
  rw [abs_lt] at h
  obtain ⟨h1, h2⟩ := h
  by_cases hx : (m : ℚ) ≤ x
  · have hf : ⌊x⌋ = m := by
      rw [Int.floor_eq_iff]
      constructor <;> linarith
    unfold roundEven
    rw [hf, if_pos (by linarith)]
  · push_neg at hx
    have hf : ⌊x⌋ = m - 1 := by
      rw [Int.floor_eq_iff]
      push_cast
      constructor <;> linarith
    unfold roundEven
    rw [hf]
    push_cast
    rw [if_neg (by linarith), if_pos (by linarith)]
    ring

theorem roundEven_intCast (n : Int) : roundEven (n : ℚ) = n :=
  roundEven_of_lt _ n (by simp)

theorem roundEven_mono {x y : ℚ} (h : x ≤ y) : roundEven x ≤ roundEven y := by
  by_contra hlt
  push_neg at hlt
  have hx := roundEven_err x
  have hy := roundEven_err y
  rw [abs_le] at hx hy
  have hab : (roundEven y : ℚ) + 1 ≤ (roundEven x : ℚ) := by exact_mod_cast hlt
  have hxy : x = y := by linarith [hx.2, hy.1]
  rw [hxy] at hlt
  exact lt_irrefl _ hlt

theorem roundEven_neg (x : ℚ) : roundEven (-x) = -roundEven x := by
  have h1 : (⌊x⌋ : ℚ) ≤ x := Int.floor_le x
  have h2 : x < (⌊x⌋ : ℚ) + 1 := Int.lt_floor_add_one x
  rcases lt_trichotomy (x - ⌊x⌋) (1 / 2) with hlt | heq | hgt
  · have e : roundEven x = ⌊x⌋ := by
      unfold roundEven
      rw [if_pos hlt]
    rw [e]
    apply roundEven_of_lt
    rw [abs_lt]
    push_cast
    constructor <;> linarith
  · have hf : ⌊-x⌋ = -⌊x⌋ - 1 := by
      rw [Int.floor_eq_iff]
      push_cast
      constructor <;> linarith
    have e1 : -x - ((-⌊x⌋ - 1 : Int) : ℚ) = 1 / 2 := by
      push_cast
      linarith
    unfold roundEven
    rw [hf, e1, heq]
    simp only [lt_self_iff_false, if_false]
    split_ifs <;> omega
  · have e : roundEven x = ⌊x⌋ + 1 := by
      unfold roundEven
      rw [if_neg (by linarith), if_pos hgt]
    rw [e]
    apply roundEven_of_lt
    rw [abs_lt]
    push_cast
    constructor <;> linarith

/-! ## Lemmas on `fl32` -/

theorem two_zpow_pos (e : Int) : (0 : ℚ) < 2 ^ e := by positivity

theorem quantumExp_neg (q : ℚ) : quantumExp (-q) = quantumExp q := by
  simp only [quantumExp, abs_neg]

theorem fl32_neg (q : ℚ) : fl32 (-q) = -fl32 q := by
  simp only [fl32, quantumExp_neg, neg_div, roundEven_neg]
  push_cast
  ring

theorem fl32_zero : fl32 0 = 0 := by
  simp [fl32, roundEven_intCast 0, show roundEven 0 = 0 from by
    simpa using roundEven_intCast 0]

/-- The step of the grid at a number of the normal range. -/
theorem quantumExp_of_normal (q : ℚ) (e : Int) (he : -126 ≤ e) (h1 : (2 : ℚ) ^ e ≤ |q|)
    (h2 : |q| < (2 : ℚ) ^ (e + 1)) : quantumExp q = e - 23 := by
  have hpos : 0 < |q| := lt_of_lt_of_le (by positivity) h1
  have hlog : Int.log 2 |q| = e := by
    apply le_antisymm
    · have := (Int.lt_zpow_iff_log_lt (R := ℚ) (b := 2) (by norm_num) hpos (x := e + 1)).1
        (by simpa using h2)
      omega
    · exact (Int.zpow_le_iff_le_log (R := ℚ) (b := 2) (by norm_num) hpos).1 (by simpa using h1)
  have hn : ¬ |q| < 2 ^ (-126 : Int) := by
    push_neg
    exact le_trans (zpow_le_zpow_right₀ (by norm_num) he) h1
  rw [quantumExp, if_neg hn, hlog]

/-- The value of `fl32` at a number whose binary exponent and rounded
significand are known. -/
theorem fl32_eq (q : ℚ) (e m : Int) (he : -126 ≤ e) (h1 : (2 : ℚ) ^ e ≤ |q|)
    (h2 : |q| < (2 : ℚ) ^ (e + 1))
    (hm : |q / 2 ^ (e - 23) - m| < 1 / 2) : fl32 q = m * 2 ^ (e - 23) := by
  rw [fl32, quantumExp_of_normal q e he h1 h2, roundEven_of_lt _ m hm]

theorem fl32_val (q v : ℚ) (e m : Int) (he : -126 ≤ e) (h1 : (2 : ℚ) ^ e ≤ |q|)
    (h2 : |q| < (2 : ℚ) ^ (e + 1)) (hm : |q / 2 ^ (e - 23) - m| < 1 / 2)
    (hv : (m : ℚ) * 2 ^ (e - 23) = v) : fl32 q = v := by
  rw [fl32_eq q e m he h1 h2 hm, hv]

/-- A multiple of the step of the grid is left as it is. -/
theorem fl32_of_grid (q : ℚ) (m : Int) (h : q = m * 2 ^ quantumExp q) : fl32 q = q := by
  have hq : q / 2 ^ quantumExp q = m := by
    rw [div_eq_iff (ne_of_gt (two_zpow_pos _))]
    exact h
  rw [fl32, hq, roundEven_intCast]
  exact h.symm

theorem quantumExp_mono {a b : ℚ} (ha : 0 ≤ a) (hab : a ≤ b) : quantumExp a ≤ quantumExp b := by
  have hb : 0 ≤ b := le_trans ha hab
  unfold quantumExp
  rw [abs_of_nonneg ha, abs_of_nonneg hb]
  by_cases h1 : b < 2 ^ (-126 : Int)
  · rw [if_pos h1, if_pos (lt_of_le_of_lt hab h1)]
  · rw [if_neg h1]
    push_neg at h1
    have hbpos : 0 < b := lt_of_lt_of_le (by positivity) h1
    have hlb : -126 ≤ Int.log 2 b :=
      (Int.zpow_le_iff_le_log (R := ℚ) (b := 2) (by norm_num) hbpos).1 (by simpa using h1)
    by_cases h2 : a < 2 ^ (-126 : Int)
    · rw [if_pos h2]
      omega
    · rw [if_neg h2]
      push_neg at h2
      have hapos : 0 < a := lt_of_lt_of_le (by positivity) h2
      have := Int.log_mono_right (b := 2) hapos hab
      omega

/-- A non-negative number lies below `2^24` steps of the grid at it. -/
theorem lt_quantum_top (a : ℚ) (ha : 0 ≤ a) : a < 2 ^ (quantumExp a + 24) := by
  unfold quantumExp
  rw [abs_of_nonneg ha]
  by_cases h : a < 2 ^ (-126 : Int)
  · rw [if_pos h]
    refine lt_trans h ?_
    exact zpow_lt_zpow_right₀ (by norm_num) (by norm_num)
  · rw [if_neg h]
    have := Int.lt_zpow_succ_log_self (R := ℚ) (b := 2) (by norm_num) a
    rw [show Int.log 2 a - 23 + 24 = Int.log 2 a + 1 by ring]
    simpa using this

/-- A number of the normal range lies above `2^23` steps of the grid at it. -/
theorem quantum_bot_le (b : ℚ) (hb : 0 ≤ b) (h : -149 < quantumExp b) :
    (2 : ℚ) ^ (quantumExp b + 23) ≤ b := by
  unfold quantumExp at h ⊢
  rw [abs_of_nonneg hb] at h ⊢
  by_cases h1 : b < 2 ^ (-126 : Int)
  · rw [if_pos h1] at h
    exact absurd h (lt_irrefl _)
  · rw [if_neg h1]
    push_neg at h1
    have hbpos : 0 < b := lt_of_lt_of_le (by positivity) h1
    have := Int.zpow_log_le_self (R := ℚ) (b := 2) (by norm_num) hbpos
    rw [show Int.log 2 b - 23 + 23 = Int.log 2 b by ring]
    simpa using this

theorem quantumExp_ge (q : ℚ) : -149 ≤ quantumExp q := by
  unfold quantumExp
  split
  · exact le_refl _
  · rename_i h
    push_neg at h
    have hpos : 0 < |q| := lt_of_lt_of_le (by positivity) h
    have := (Int.zpow_le_iff_le_log (R := ℚ) (b := 2) (by norm_num) hpos (x := -126)).1
      (by simpa using h)
    omega

theorem fl32_mono_nonneg {a b : ℚ} (ha : 0 ≤ a) (hab : a ≤ b) : fl32 a ≤ fl32 b := by
  have hb : 0 ≤ b := le_trans ha hab
  have hE := quantumExp_mono ha hab
  rcases eq_or_lt_of_le hE with heq | hlt
  · unfold fl32
    rw [heq]
    apply mul_le_mul_of_nonneg_right _ (le_of_lt (two_zpow_pos _))
    have : roundEven (a / 2 ^ quantumExp b) ≤ roundEven (b / 2 ^ quantumExp b) :=
      roundEven_mono (div_le_div_of_nonneg_right hab (le_of_lt (two_zpow_pos _)))
    exact_mod_cast this
  · -- `a` lies below a power of two, `b` above it
    have h1 : fl32 a ≤ 2 ^ (quantumExp a + 24) := by
      have hlt' := lt_quantum_top a ha
      have hx : a / 2 ^ quantumExp a ≤ ((2 ^ 24 : Int) : ℚ) := by
        rw [div_le_iff₀ (two_zpow_pos _)]
        rw [zpow_add₀ (by norm_num : (2 : ℚ) ≠ 0)] at hlt'
        push_cast
        have e : (2 : ℚ) ^ (24 : Int) = 2 ^ 24 := by norm_num
        rw [e] at hlt'
        linarith
      have hr := roundEven_mono hx
      rw [roundEven_intCast] at hr
      have hr' : (roundEven (a / 2 ^ quantumExp a) : ℚ) ≤ 2 ^ 24 := by exact_mod_cast hr
      unfold fl32
      rw [zpow_add₀ (by norm_num : (2 : ℚ) ≠ 0)]
      have e : (2 : ℚ) ^ (24 : Int) = 2 ^ 24 := by norm_num
      rw [e, mul_comm ((2 : ℚ) ^ quantumExp a)]
      exact mul_le_mul_of_nonneg_right hr' (le_of_lt (two_zpow_pos _))
    have h2 : (2 : ℚ) ^ (quantumExp b + 23) ≤ fl32 b := by
      have hge := quantum_bot_le b hb (lt_of_le_of_lt (quantumExp_ge a) hlt)
      have hx : ((2 ^ 23 : Int) : ℚ) ≤ b / 2 ^ quantumExp b := by
        rw [le_div_iff₀ (two_zpow_pos _)]
        rw [zpow_add₀ (by norm_num : (2 : ℚ) ≠ 0)] at hge
        push_cast
        have e : (2 : ℚ) ^ (23 : Int) = 2 ^ 23 := by norm_num
        rw [e] at hge
        linarith
      have hr := roundEven_mono hx
      rw [roundEven_intCast] at hr
      have hr' : (2 : ℚ) ^ 23 ≤ (roundEven (b / 2 ^ quantumExp b) : ℚ) := by exact_mod_cast hr
      unfold fl32
      rw [zpow_add₀ (by norm_num : (2 : ℚ) ≠ 0)]
      have e : (2 : ℚ) ^ (23 : Int) = 2 ^ 23 := by norm_num
      rw [e, mul_comm ((2 : ℚ) ^ quantumExp b)]
      exact mul_le_mul_of_nonneg_right hr' (le_of_lt (two_zpow_pos _))
    have h3 : (2 : ℚ) ^ (quantumExp a + 24) ≤ 2 ^ (quantumExp b + 23) :=
      zpow_le_zpow_right₀ (by norm_num) (by omega)
    linarith

theorem fl32_nonneg (q : ℚ) (hq : 0 ≤ q) : 0 ≤ fl32 q := by
  have := fl32_mono_nonneg (le_refl 0) hq
  rwa [fl32_zero] at this

theorem fl32_nonpos (q : ℚ) (hq : q ≤ 0) : fl32 q ≤ 0 := by
  have := fl32_nonneg (-q) (by linarith)
  rw [fl32_neg] at this
  linarith

/-- Rounding to single precision keeps the order. -/
theorem fl32_mono {a b : ℚ} (hab : a ≤ b) : fl32 a ≤ fl32 b := by
  rcases le_total 0 a with ha | ha
  · exact fl32_mono_nonneg ha hab
  · rcases le_total 0 b with hb | hb
    · exact le_trans (fl32_nonpos a ha) (fl32_nonneg b hb)
    · have := fl32_mono_nonneg (a := -b) (b := -a) (by linarith) (by linarith)
      rw [fl32_neg, fl32_neg] at this
      linarith

/-- An integer of less than 24 bits is a binary32 number. -/
theorem fl32_intCast (n : Int) (h : |n| ≤ 2 ^ 24) : fl32 (n : ℚ) = n := by
  rcases eq_or_ne n 0 with h0 | h0
  · rw [h0]
    simpa using fl32_zero
  · have hq : (1 : ℚ) ≤ |(n : ℚ)| := by
      have : (1 : Int) ≤ |n| := Int.one_le_abs h0
      exact_mod_cast this
    have hq2 : |(n : ℚ)| ≤ 2 ^ 24 := by exact_mod_cast h
    have hpos : 0 < |(n : ℚ)| := lt_of_lt_of_le one_pos hq
    have hn : ¬ |(n : ℚ)| < 2 ^ (-126 : Int) := by
      push_neg
      refine le_trans ?_ hq
      exact zpow_le_one_of_nonpos₀ (by norm_num) (by norm_num)
    have hl0 : 0 ≤ Int.log 2 |(n : ℚ)| :=
      (Int.zpow_le_iff_le_log (R := ℚ) (b := 2) (by norm_num) hpos).1 (by simpa using hq)
    rcases eq_or_lt_of_le hq2 with he | hlt
    · -- `|n| = 2^24`
      have hlog : Int.log 2 |(n : ℚ)| = 24 := by
        rw [he]
        have := Int.log_zpow (R := ℚ) (b := 2) (by norm_num) 24
        rw [Nat.cast_ofNat, zpow_ofNat] at this
        exact this
      have hE : quantumExp (n : ℚ) = 1 := by
        rw [quantumExp, if_neg hn, hlog]
        norm_num
      have h2 : (2 : Int) ∣ n := by
        have h24 : |n| = 2 ^ 24 := by exact_mod_cast he
        have : (2 : Int) ∣ |n| := by
          rw [h24]
          exact Dvd.intro_left (2 ^ 23) (by norm_num)
        exact (dvd_abs 2 n).1 this
      obtain ⟨k, hk⟩ := h2
      apply fl32_of_grid _ k
      rw [hE, hk]
      push_cast
      ring
    · have hl1 : Int.log 2 |(n : ℚ)| < 24 :=
        (Int.lt_zpow_iff_log_lt (R := ℚ) (b := 2) (by norm_num) hpos (x := 24)).1
          (by rw [Nat.cast_ofNat, zpow_ofNat]; exact hlt)
      have hE : quantumExp (n : ℚ) = Int.log 2 |(n : ℚ)| - 23 := by
        rw [quantumExp, if_neg hn]
      obtain ⟨k, hk⟩ : ∃ k : Nat, (k : Int) = 23 - Int.log 2 |(n : ℚ)| :=
        ⟨(23 - Int.log 2 |(n : ℚ)|).toNat, Int.toNat_of_nonneg (by omega)⟩
      apply fl32_of_grid _ (n * 2 ^ k)
      rw [hE, show Int.log 2 |(n : ℚ)| - 23 = -(k : Int) by omega, zpow_neg, zpow_natCast]
      push_cast
      field_simp

/-- Rounding to single precision changes a positive number of the normal range
by a relative error of at most `2^-24`. -/
theorem fl32_err (q : ℚ) (hq : 2 ^ (-126 : Int) ≤ q) :
    (1 - 1 / 2 ^ 24) * q ≤ fl32 q ∧ fl32 q ≤ (1 + 1 / 2 ^ 24) * q := by
  have hpos : 0 < q := lt_of_lt_of_le (by positivity) hq
  have habs : |q| = q := abs_of_pos hpos
  have hn : ¬ |q| < 2 ^ (-126 : Int) := by
    rw [habs]
    exact not_lt.2 hq
  have hE : quantumExp q = Int.log 2 q - 23 := by
    rw [quantumExp, if_neg hn, habs]
  have hlog : ((2 : ℕ) : ℚ) ^ Int.log 2 q ≤ q := Int.zpow_log_le_self (by norm_num) hpos
  have hlog' : (2 : ℚ) ^ Int.log 2 q ≤ q := by simpa using hlog
  have hulp : (0 : ℚ) < 2 ^ (Int.log 2 q - 23) := by positivity
  have hsplit : (2 : ℚ) ^ (Int.log 2 q - 23) = 2 ^ Int.log 2 q / 2 ^ 23 := by
    rw [zpow_sub₀ (by norm_num : (2 : ℚ) ≠ 0)]
    norm_num
  have herr := roundEven_err (q / 2 ^ (Int.log 2 q - 23))
  rw [abs_le] at herr
  obtain ⟨e1, e2⟩ := herr
  have hval : fl32 q = (roundEven (q / 2 ^ (Int.log 2 q - 23)) : ℚ) *
      2 ^ (Int.log 2 q - 23) := by
    rw [fl32, hE]
  have hmul : q / 2 ^ (Int.log 2 q - 23) * 2 ^ (Int.log 2 q - 23) = q :=
    div_mul_cancel₀ q (ne_of_gt hulp)
  have b1 : q - 2 ^ (Int.log 2 q - 23) / 2 ≤ fl32 q := by
    rw [hval]
    have := mul_le_mul_of_nonneg_right e1 (le_of_lt hulp)
    nlinarith
  have b2 : fl32 q ≤ q + 2 ^ (Int.log 2 q - 23) / 2 := by
    rw [hval]
    have := mul_le_mul_of_nonneg_right e2 (le_of_lt hulp)
    nlinarith
  have b3 : (2 : ℚ) ^ (Int.log 2 q - 23) / 2 ≤ 1 / 2 ^ 24 * q := by
    rw [hsplit]
    have : (2 : ℚ) ^ Int.log 2 q / 2 ^ 23 / 2 = 1 / 2 ^ 24 * 2 ^ Int.log 2 q := by
      norm_num
      ring
    rw [this]
    exact mul_le_mul_of_nonneg_left hlog' (by norm_num)
  constructor <;> linarith

/-- The relative error bound for a number that is zero or at least `2^-126`. -/
theorem fl32_err_of (q : ℚ) (hq : q = 0 ∨ 2 ^ (-126 : Int) ≤ q) :
    (1 - 1 / 2 ^ 24) * q ≤ fl32 q ∧ fl32 q ≤ (1 + 1 / 2 ^ 24) * q := by
  rcases hq with h0 | h
  · rw [h0, fl32_zero]
    constructor <;> norm_num
  · exact fl32_err q h

/-! ## Lemmas on `float` operations -/

theorem F32.fin_add_fin (a b : ℚ) : F32.fin a + F32.fin b = F32.round (a + b) := rfl

theorem F32.fin_mul_fin (a b : ℚ) : F32.fin a * F32.fin b = F32.round (a * b) := rfl

theorem F32.fin_div_fin (a b : ℚ) (hb : b ≠ 0) : F32.fin a / F32.fin b = F32.round (a / b) := by
  show F32.div _ _ = _
  simp only [F32.div, if_neg hb]

theorem F32.zero_def : (0 : F32) = F32.fin 0 := rfl

theorem F32.one_def : (1 : F32) = F32.fin 1 := rfl

theorem F32.fin_le_fin (a b : ℚ) : F32.fin a ≤ F32.fin b ↔ a ≤ b := by
  show F32.leb _ _ = true ↔ _
  simp [F32.leb]

theorem F32.fin_lt_fin (a b : ℚ) : F32.fin a < F32.fin b ↔ a < b := by
  show F32.ltb _ _ = true ↔ _
  simp [F32.ltb]

theorem fl32_pow127 : fl32 (2 ^ 127) = 2 ^ 127 :=
  fl32_val _ _ 127 (2 ^ 23) (by norm_num) (by norm_num [abs_of_pos])
    (by norm_num [abs_of_pos]) (by norm_num [abs_lt]) (by norm_num)

theorem fl32_abs_le (q : ℚ) (h : |q| ≤ 2 ^ 127) : |fl32 q| ≤ 2 ^ 127 := by
  rw [abs_le] at h ⊢
  constructor
  · have := fl32_mono h.1
    rwa [fl32_neg, fl32_pow127] at this
  · have := fl32_mono h.2
    rwa [fl32_pow127] at this

/-- A rounded value below `2^128` is a finite `float`. -/
theorem F32.round_of_lt (q : ℚ) (h : |fl32 q| < 2 ^ 128) : F32.round q = F32.fin (fl32 q) := by
  rw [F32.round, if_neg (not_le.2 h)]

theorem F32.round_eq_fin (q : ℚ) (h : |q| ≤ 2 ^ 127) : F32.round q = F32.fin (fl32 q) :=
  F32.round_of_lt q (lt_of_le_of_lt (fl32_abs_le q h) (by norm_num))

theorem F32.round_val (q v : ℚ) (h : fl32 q = v) (hv : |v| < 2 ^ 128) :
    F32.round q = F32.fin v := by
  rw [F32.round_of_lt q (by rw [h]; exact hv), h]

theorem F32.round_zero : F32.round 0 = F32.fin 0 :=
  F32.round_val 0 0 fl32_zero (by norm_num)

/-- The conversion of an `int` of at most 24 bits is exact. -/
theorem F32.ofInt_eq (n : Int) (h : |n| ≤ 2 ^ 24) : F32.ofInt n = F32.fin n := by
  have hq : |(n : ℚ)| ≤ 2 ^ 24 := by exact_mod_cast h
  rw [F32.ofInt, F32.round_eq_fin _ (le_trans hq (by norm_num)), fl32_intCast n h]

/-- The conversion of an `int` is finite. -/
theorem F32.ofInt_fin (n : Int) (h : |n| ≤ 2 ^ 31) : F32.ofInt n = F32.fin (fl32 n) := by
  have hq : |(n : ℚ)| ≤ 2 ^ 31 := by exact_mod_cast h
  rw [F32.ofInt, F32.round_eq_fin _ (le_trans hq (by norm_num))]

theorem F32.round_le_pinf (q : ℚ) : F32.round q ≤ F32.inf false := by
  show F32.leb _ _ = true
  unfold F32.round
  split <;> simp [F32.leb]

theorem F32.ninf_le_round (q : ℚ) : F32.inf true ≤ F32.round q := by
  show F32.leb _ _ = true
  unfold F32.round
  split <;> simp [F32.leb]

/-- Rounding to a `float` keeps the order. -/
theorem F32.round_mono {a b : ℚ} (h : a ≤ b) : F32.round a ≤ F32.round b := by
  have hm := fl32_mono h
  show F32.leb _ _ = true
  unfold F32.round
  by_cases ha : (2 : ℚ) ^ 128 ≤ |fl32 a|
  · rw [if_pos ha]
    by_cases ha0 : a < 0
    · simp only [ha0, decide_True]
      split <;> simp [F32.leb]
    · push_neg at ha0
      have h1 : 0 ≤ fl32 a := fl32_nonneg a ha0
      rw [abs_of_nonneg h1] at ha
      have h2 : (2 : ℚ) ^ 128 ≤ |fl32 b| := by
        rw [abs_of_nonneg (le_trans h1 hm)]
        linarith
      have hb0 : ¬ b < 0 := not_lt.2 (le_trans ha0 h)
      rw [if_pos h2]
      simp [F32.leb, hb0, not_lt.2 ha0]
  · rw [if_neg ha]
    by_cases hb : (2 : ℚ) ^ 128 ≤ |fl32 b|
    · rw [if_pos hb]
      by_cases hb0 : b < 0
      · exfalso
        have h1 : fl32 b ≤ 0 := fl32_nonpos b (le_of_lt hb0)
        rw [abs_of_nonpos h1] at hb
        apply ha
        rw [abs_of_nonpos (le_trans hm h1)]
        linarith
      · simp [F32.leb, hb0]
    · rw [if_neg hb]
      simp [F32.leb, hm]

/-- Adding a finite `float` on the left keeps the order. -/
theorem F32.add_fin_mono (b : ℚ) {x y : F32} (h : x ≤ y) :
    F32.fin b + x ≤ F32.fin b + y := by
  cases x with
  | fin a =>
    cases y with
    | fin c =>
      rw [F32.fin_add_fin, F32.fin_add_fin]
      exact F32.round_mono (by have := (F32.fin_le_fin a c).1 h; linarith)
    | inf t =>
      have ht : t = false := by
        have h' : F32.leb (F32.fin a) (F32.inf t) = true := h
        simpa [F32.leb] using h'
      subst ht
      rw [F32.fin_add_fin]
      exact F32.round_le_pinf _
    | nan => exact absurd (show F32.leb (F32.fin a) F32.nan = true from h) (by simp [F32.leb])
  | inf s =>
    cases y with
    | fin c =>
      have hs : s = true := by
        have h' : F32.leb (F32.inf s) (F32.fin c) = true := h
        simpa [F32.leb] using h'
      subst hs
      rw [F32.fin_add_fin]
      exact F32.ninf_le_round _
    | inf t => exact h
    | nan => exact absurd (show F32.leb (F32.inf s) F32.nan = true from h) (by simp [F32.leb])
  | nan => exact absurd (show F32.leb F32.nan y = true from h) (by cases y <;> simp [F32.leb])

/-- Dividing by a positive finite `float` keeps the order. -/
theorem F32.div_fin_mono (d : ℚ) (hd : 0 < d) {x y : F32} (h : x ≤ y) :
    x / F32.fin d ≤ y / F32.fin d := by
  have hd0 : d ≠ 0 := ne_of_gt hd
  have hneg : decide (d < 0) = false := by simp [le_of_lt hd]
  have hinf : ∀ s, F32.inf s / F32.fin d = F32.inf s := by
    intro s
    show F32.div _ _ = _
    simp [F32.div, hneg]
  cases x with
  | fin a =>
    cases y with
    | fin c =>
      rw [F32.fin_div_fin _ _ hd0, F32.fin_div_fin _ _ hd0]
      exact F32.round_mono (div_le_div_of_nonneg_right ((F32.fin_le_fin a c).1 h) (le_of_lt hd))
    | inf t =>
      have ht : t = false := by
        have h' : F32.leb (F32.fin a) (F32.inf t) = true := h
        simpa [F32.leb] using h'
      subst ht
      rw [F32.fin_div_fin _ _ hd0, hinf]
      exact F32.round_le_pinf _
    | nan => exact absurd (show F32.leb (F32.fin a) F32.nan = true from h) (by simp [F32.leb])
  | inf s =>
    cases y with
    | fin c =>
      have hs : s = true := by
        have h' : F32.leb (F32.inf s) (F32.fin c) = true := h
        simpa [F32.leb] using h'
      subst hs
      rw [F32.fin_div_fin _ _ hd0, hinf]
      exact F32.ninf_le_round _
    | inf t =>
      rw [hinf, hinf]
      exact h
    | nan => exact absurd (show F32.leb (F32.inf s) F32.nan = true from h) (by simp [F32.leb])
  | nan => exact absurd (show F32.leb F32.nan y = true from h) (by cases y <;> simp [F32.leb])

/-- The product of a non-negative finite `float` with the conversion of an
`int` grows with the `int`. -/
theorem F32.fin_mul_ofInt_mono (r : ℚ) (hr : 0 ≤ r) {l1 l2 : Int} (h : l1 ≤ l2)
    (h1 : |l1| ≤ 2 ^ 31) (h2 : |l2| ≤ 2 ^ 31) :
    F32.fin r * F32.ofInt l1 ≤ F32.fin r * F32.ofInt l2 := by
  rw [F32.ofInt_fin l1 h1, F32.ofInt_fin l2 h2, F32.fin_mul_fin, F32.fin_mul_fin]
  apply F32.round_mono
  apply mul_le_mul_of_nonneg_left _ hr
  apply fl32_mono
  exact_mod_cast h

theorem fl32_one : fl32 1 = 1 := by
  have := fl32_intCast 1 (by norm_num)
  simpa using this

theorem fl32_pos_of_one_le (q : ℚ) (h : 1 ≤ q) : 0 < fl32 q := by
  have := fl32_mono h
  rw [fl32_one] at this
  linarith

/-- With a finite base height, a non-negative finite relief height and a
positive number of levels, the height grows with the level. -/
theorem heightOfLevel_mono (o : Opts) (b r : ℚ) (hb : o.OptBaseHeight = F32.fin b)
    (hrel : o.OptReliefHeight = F32.fin r) (hr : 0 ≤ r) (hl : 1 ≤ o.OptLevels)
    (hl2 : o.OptLevels ≤ 2 ^ 31) {l1 l2 : Int} (h : l1 ≤ l2)
    (h1 : |l1| ≤ 2 ^ 31) (h2 : |l2| ≤ 2 ^ 31) :
    heightOfLevel o l1 ≤ heightOfLevel o l2 := by
  have hn : |o.OptLevels| ≤ 2 ^ 31 := by
    rw [abs_le]
    constructor <;> omega
  have hpos : 0 < fl32 (o.OptLevels : ℚ) := fl32_pos_of_one_le _ (by exact_mod_cast hl)
  unfold heightOfLevel
  rw [hb, hrel, F32.ofInt_fin _ hn]
  exact F32.add_fin_mono b (F32.div_fin_mono _ hpos (F32.fin_mul_ofInt_mono r hr h h1 h2))

/-- The height of level 0 is the base height, for every base height the
machine can hold and every finite relief height. -/
theorem heightOfLevel_zero (o : Opts) (r : ℚ) (hb : o.OptBaseHeight.valid)
    (hrel : o.OptReliefHeight = F32.fin r) (hl : 1 ≤ o.OptLevels) (hl2 : o.OptLevels ≤ 2 ^ 31) :
    heightOfLevel o 0 = o.OptBaseHeight := by
  have hn : |o.OptLevels| ≤ 2 ^ 31 := by
    rw [abs_le]
    constructor <;> omega
  have hpos : 0 < fl32 (o.OptLevels : ℚ) := fl32_pos_of_one_le _ (by exact_mod_cast hl)
  unfold heightOfLevel
  rw [hrel, F32.ofInt_fin _ hn, F32.ofInt_eq 0 (by norm_num), F32.fin_mul_fin]
  simp only [Int.cast_zero, mul_zero, F32.round_zero]
  rw [F32.fin_div_fin _ _ (ne_of_gt hpos), zero_div, F32.round_zero]
  cases hbase : o.OptBaseHeight with
  | fin q =>
    rw [hbase] at hb
    rw [F32.fin_add_fin, add_zero]
    exact hb
  | inf s => rfl
  | nan => rfl

/-! ## The level computation in single precision -/

theorem fl32_two_zpow (e : Int) (he : -126 ≤ e) : fl32 (2 ^ e) = 2 ^ e := by
  have hpos : (0 : ℚ) < 2 ^ e := two_zpow_pos e
  have h := fl32_eq (2 ^ e) e (2 ^ 23) he (by rw [abs_of_pos hpos])
    (by rw [abs_of_pos hpos]; exact zpow_lt_zpow_right₀ (by norm_num) (by omega))
    (by
      rw [zpow_sub₀ (by norm_num : (2 : ℚ) ≠ 0)]
      have : (2 : ℚ) ^ e / (2 ^ e / 2 ^ (23 : Int)) - ((2 ^ 23 : Int) : ℚ) = 0 := by
        field_simp
        norm_num
      rw [this]
      norm_num)
  rw [h, zpow_sub₀ (by norm_num : (2 : ℚ) ≠ 0)]
  push_cast
  field_simp
  ring

theorem lumF32_zero : lumF32 0 = 0 := by
  simp [lumF32, fl32_zero]

/-- The single-precision luminance grows with the channel sum. -/
theorem lumF32_mono {a b : Nat} (h : a ≤ b) : lumF32 a ≤ lumF32 b := by
  unfold lumF32
  apply fl32_mono
  apply div_le_div_of_nonneg_right _ (by norm_num)
  apply fl32_mono
  exact_mod_cast h

theorem fl32_natCast_of_le (s : Nat) (hs : s ≤ 2 ^ 24) : fl32 (s : ℚ) = s := by
  have := fl32_intCast (s : Int) (by
    rw [abs_of_nonneg (by positivity)]
    exact_mod_cast hs)
  exact_mod_cast this

theorem lumF32_765 : lumF32 765 = 255 := by
  unfold lumF32
  rw [fl32_natCast_of_le 765 (by norm_num)]
  have := fl32_natCast_of_le 255 (by norm_num)
  norm_num at this ⊢
  exact this

theorem lumF32_le_255 (s : Nat) (hs : s ≤ 765) : lumF32 s ≤ 255 := by
  have := lumF32_mono hs
  rwa [lumF32_765] at this

theorem natCast_zero_or_normal (s : Nat) : (s : ℚ) = 0 ∨ (2 : ℚ) ^ (-126 : Int) ≤ (s : ℚ) := by
  rcases Nat.eq_zero_or_pos s with h | h
  · left
    exact_mod_cast h
  · right
    have h1 : (1 : ℚ) ≤ (s : ℚ) := by exact_mod_cast h
    refine le_trans ?_ h1
    exact zpow_le_one_of_nonpos₀ (by norm_num) (by norm_num)

theorem one_le_fl32_natCast (s : Nat) (hs : 0 < s) : 1 ≤ fl32 (s : ℚ) := by
  have h1 : (1 : ℚ) ≤ (s : ℚ) := by exact_mod_cast hs
  have := fl32_mono h1
  rwa [fl32_one] at this

theorem lumF32_bounds (s : Nat) :
    (1 - 1 / 2 ^ 24) ^ 2 * ((s : ℚ) / 3) ≤ lumF32 s ∧
      lumF32 s ≤ (1 + 1 / 2 ^ 24) ^ 2 * ((s : ℚ) / 3) := by
  have hs : (0 : ℚ) ≤ (s : ℚ) := Nat.cast_nonneg s
  obtain ⟨a1, a2⟩ := fl32_err_of (s : ℚ) (natCast_zero_or_normal s)
  have h0 : 0 ≤ fl32 (s : ℚ) := fl32_nonneg _ hs
  have hn : fl32 (s : ℚ) / 3 = 0 ∨ (2 : ℚ) ^ (-126 : Int) ≤ fl32 (s : ℚ) / 3 := by
    rcases Nat.eq_zero_or_pos s with h | h
    · left
      rw [h]
      simp [fl32_zero]
    · right
      have h1 := one_le_fl32_natCast s h
      have h2 : (2 : ℚ) ^ (-126 : Int) ≤ 1 / 3 := by norm_num
      refine le_trans h2 ?_
      linarith
  obtain ⟨b1, b2⟩ := fl32_err_of (fl32 (s : ℚ) / 3) hn
  unfold lumF32
  constructor
  · calc (1 - 1 / 2 ^ 24) ^ 2 * ((s : ℚ) / 3)
        = (1 - 1 / 2 ^ 24) * (((1 - 1 / 2 ^ 24) * s) / 3) := by ring
      _ ≤ (1 - 1 / 2 ^ 24) * (fl32 (s : ℚ) / 3) := by
          apply mul_le_mul_of_nonneg_left _ (by norm_num)
          linarith
      _ ≤ _ := b1
  · calc fl32 (fl32 (s : ℚ) / 3) ≤ (1 + 1 / 2 ^ 24) * (fl32 (s : ℚ) / 3) := b2
      _ ≤ (1 + 1 / 2 ^ 24) * (((1 + 1 / 2 ^ 24) * s) / 3) := by
          apply mul_le_mul_of_nonneg_left _ (by norm_num)
          linarith
      _ = _ := by ring

theorem lumF32_pos (s : Nat) (hs : 0 < s) : 0 < lumF32 s := by
  have h := (lumF32_bounds s).1
  have hs' : (0 : ℚ) < (s : ℚ) := by exact_mod_cast hs
  have : (0 : ℚ) < (1 - 1 / 2 ^ 24) ^ 2 * ((s : ℚ) / 3) := by positivity
  linarith

theorem lumF32_nonneg (s : Nat) : 0 ≤ lumF32 s := by
  have h := (lumF32_bounds s).1
  have : (0 : ℚ) ≤ (1 - 1 / 2 ^ 24) ^ 2 * ((s : ℚ) / 3) := by positivity
  linarith

theorem quarter_le_lumF32 (s : Nat) (hs : 0 < s) : 1 / 4 ≤ lumF32 s := by
  have h := (lumF32_bounds s).1
  have hs' : (1 : ℚ) ≤ (s : ℚ) := by exact_mod_cast hs
  have : (1 - 1 / 2 ^ 24 : ℚ) ^ 2 * (1 / 3) ≤ (1 - 1 / 2 ^ 24) ^ 2 * ((s : ℚ) / 3) := by
    apply mul_le_mul_of_nonneg_left _ (by norm_num)
    linarith
  norm_num at this h ⊢
  linarith

/-- The product `(OptLevels-1)*lum` is zero or lies in the normal range. -/
theorem product_zero_or_normal (c s : Nat) :
    fl32 (c : ℚ) * lumF32 s = 0 ∨ (1 : ℚ) / 4 ≤ fl32 (c : ℚ) * lumF32 s := by
  rcases Nat.eq_zero_or_pos c with hc | hc
  · left
    rw [hc]
    simp [fl32_zero]
  · rcases Nat.eq_zero_or_pos s with hs | hs
    · left
      rw [hs, lumF32_zero, mul_zero]
    · right
      have h1 := one_le_fl32_natCast c hc
      have h2 := quarter_le_lumF32 s hs
      nlinarith

/-- The single-precision quotient is within a relative error of `8 * 2^-24` of
the exact quotient `c * s / smax`. -/
theorem quotientF32_bounds (c s smax : Nat) (hmax : 0 < smax) (hM : smax ≤ 765) :
    (1 - 8 / 2 ^ 24) * ((c : ℚ) * s / smax) ≤ quotF32 c s smax ∧
      quotF32 c s smax ≤ (1 + 8 / 2 ^ 24) * ((c : ℚ) * s / smax) := by
  unfold quotF32
  have hc : (0 : ℚ) ≤ (c : ℚ) := Nat.cast_nonneg c
  have hs : (0 : ℚ) ≤ (s : ℚ) := Nat.cast_nonneg s
  have hM' : (0 : ℚ) < (smax : ℚ) := by exact_mod_cast hmax
  obtain ⟨c1, c2⟩ := fl32_err_of (c : ℚ) (natCast_zero_or_normal c)
  have hC : 0 ≤ fl32 (c : ℚ) := fl32_nonneg _ hc
  obtain ⟨l1, l2⟩ := lumF32_bounds s
  have hL : 0 ≤ lumF32 s := lumF32_nonneg s
  obtain ⟨m1, m2⟩ := lumF32_bounds smax
  have hMx : 0 < lumF32 smax := lumF32_pos smax hmax
  have hMu : lumF32 smax ≤ 255 := lumF32_le_255 smax hM
  have hCL : 0 ≤ fl32 (c : ℚ) * lumF32 s := mul_nonneg hC hL
  have hpn : fl32 (c : ℚ) * lumF32 s = 0 ∨
      (2 : ℚ) ^ (-126 : Int) ≤ fl32 (c : ℚ) * lumF32 s := by
    rcases product_zero_or_normal c s with h | h
    · exact Or.inl h
    · right
      have : (2 : ℚ) ^ (-126 : Int) ≤ 1 / 4 := by norm_num
      exact le_trans this h
  obtain ⟨p1, p2⟩ := fl32_err_of _ hpn
  have hP : 0 ≤ fl32 (fl32 (c : ℚ) * lumF32 s) := fl32_nonneg _ hCL
  have hQ : 0 ≤ fl32 (fl32 (c : ℚ) * lumF32 s) / lumF32 smax := div_nonneg hP (le_of_lt hMx)
  have hqn : fl32 (fl32 (c : ℚ) * lumF32 s) / lumF32 smax = 0 ∨
      (2 : ℚ) ^ (-126 : Int) ≤ fl32 (fl32 (c : ℚ) * lumF32 s) / lumF32 smax := by
    rcases product_zero_or_normal c s with h | h
    · left
      rw [h, fl32_zero, zero_div]
    · right
      have h1 : (1 : ℚ) / 8 ≤ fl32 (fl32 (c : ℚ) * lumF32 s) := by
        have : (1 - 1 / 2 ^ 24 : ℚ) * (1 / 4) ≤ (1 - 1 / 2 ^ 24) * (fl32 (c : ℚ) * lumF32 s) :=
          mul_le_mul_of_nonneg_left h (by norm_num)
        norm_num at this p1 ⊢
        linarith
      rw [le_div_iff₀ hMx]
      have h2 : (2 : ℚ) ^ (-126 : Int) * lumF32 smax ≤ 2 ^ (-126 : Int) * 255 :=
        mul_le_mul_of_nonneg_left hMu (le_of_lt (two_zpow_pos _))
      have h3 : (2 : ℚ) ^ (-126 : Int) * 255 ≤ 1 / 8 := by norm_num
      exact le_trans h2 (le_trans h3 h1)
  obtain ⟨v1, v2⟩ := fl32_err_of _ hqn
  -- bounds of the product
  have hCLu : fl32 (c : ℚ) * lumF32 s ≤
      ((1 + 1 / 2 ^ 24) * c) * ((1 + 1 / 2 ^ 24) ^ 2 * ((s : ℚ) / 3)) :=
    mul_le_mul c2 l2 hL (by positivity)
  have hCLl : ((1 - 1 / 2 ^ 24) * c) * ((1 - 1 / 2 ^ 24) ^ 2 * ((s : ℚ) / 3)) ≤
      fl32 (c : ℚ) * lumF32 s :=
    mul_le_mul c1 l1 (by positivity) hC
  have hPu : fl32 (fl32 (c : ℚ) * lumF32 s) ≤ (1 + 1 / 2 ^ 24) ^ 4 * ((c : ℚ) * s / 3) := by
    calc fl32 (fl32 (c : ℚ) * lumF32 s) ≤ (1 + 1 / 2 ^ 24) * (fl32 (c : ℚ) * lumF32 s) := p2
      _ ≤ (1 + 1 / 2 ^ 24) *
          (((1 + 1 / 2 ^ 24) * c) * ((1 + 1 / 2 ^ 24) ^ 2 * ((s : ℚ) / 3))) :=
          mul_le_mul_of_nonneg_left hCLu (by norm_num)
      _ = _ := by ring
  have hPl : (1 - 1 / 2 ^ 24) ^ 4 * ((c : ℚ) * s / 3) ≤ fl32 (fl32 (c : ℚ) * lumF32 s) := by
    calc (1 - 1 / 2 ^ 24) ^ 4 * ((c : ℚ) * s / 3)
        = (1 - 1 / 2 ^ 24) *
          (((1 - 1 / 2 ^ 24) * c) * ((1 - 1 / 2 ^ 24) ^ 2 * ((s : ℚ) / 3))) := by ring
      _ ≤ (1 - 1 / 2 ^ 24) * (fl32 (c : ℚ) * lumF32 s) :=
          mul_le_mul_of_nonneg_left hCLl (by norm_num)
      _ ≤ _ := p1
  -- bounds of the quotient
  have hlow : (0 : ℚ) < (1 - 1 / 2 ^ 24) ^ 2 * ((smax : ℚ) / 3) := by positivity
  have hQu : fl32 (fl32 (c : ℚ) * lumF32 s) / lumF32 smax ≤
      ((1 + 1 / 2 ^ 24) ^ 4 * ((c : ℚ) * s / 3)) / ((1 - 1 / 2 ^ 24) ^ 2 * ((smax : ℚ) / 3)) :=
    div_le_div₀ (by positivity) hPu hlow m1
  have hQl : ((1 - 1 / 2 ^ 24) ^ 4 * ((c : ℚ) * s / 3)) /
      ((1 + 1 / 2 ^ 24) ^ 2 * ((smax : ℚ) / 3)) ≤
      fl32 (fl32 (c : ℚ) * lumF32 s) / lumF32 smax :=
    div_le_div₀ hP hPl hMx m2
  have hq : (0 : ℚ) ≤ (c : ℚ) * s / smax := by positivity
  constructor
  · calc (1 - 8 / 2 ^ 24) * ((c : ℚ) * s / smax)
        ≤ ((1 - 1 / 2 ^ 24) ^ 5 / (1 + 1 / 2 ^ 24) ^ 2) * ((c : ℚ) * s / smax) :=
          mul_le_mul_of_nonneg_right (by norm_num) hq
      _ = (1 - 1 / 2 ^ 24) * (((1 - 1 / 2 ^ 24) ^ 4 * ((c : ℚ) * s / 3)) /
          ((1 + 1 / 2 ^ 24) ^ 2 * ((smax : ℚ) / 3))) := by
          field_simp
          ring
      _ ≤ (1 - 1 / 2 ^ 24) * (fl32 (fl32 (c : ℚ) * lumF32 s) / lumF32 smax) :=
          mul_le_mul_of_nonneg_left hQl (by norm_num)
      _ ≤ _ := v1
  · calc fl32 (fl32 (fl32 (c : ℚ) * lumF32 s) / lumF32 smax)
        ≤ (1 + 1 / 2 ^ 24) * (fl32 (fl32 (c : ℚ) * lumF32 s) / lumF32 smax) := v2
      _ ≤ (1 + 1 / 2 ^ 24) * (((1 + 1 / 2 ^ 24) ^ 4 * ((c : ℚ) * s / 3)) /
          ((1 - 1 / 2 ^ 24) ^ 2 * ((smax : ℚ) / 3))) :=
          mul_le_mul_of_nonneg_left hQu (by norm_num)
      _ = ((1 + 1 / 2 ^ 24) ^ 5 / (1 - 1 / 2 ^ 24) ^ 2) * ((c : ℚ) * s / smax) := by
          field_simp
          ring
      _ ≤ (1 + 8 / 2 ^ 24) * ((c : ℚ) * s / smax) :=
          mul_le_mul_of_nonneg_right (by norm_num) hq

theorem quotF32_nonneg (c s smax : Nat) (hmax : 0 < smax) (hM : smax ≤ 765) :
    0 ≤ quotF32 c s smax := by
  have h := (quotientF32_bounds c s smax hmax hM).1
  have : (0 : ℚ) ≤ (1 - 8 / 2 ^ 24) * ((c : ℚ) * s / smax) :=
    mul_nonneg (by norm_num) (by positivity)
  linarith

/-- The single-precision quotient grows with the channel sum of the pixel. -/
theorem quotF32_mono (c smax : Nat) (hmax : 0 < smax) {s1 s2 : Nat} (h : s1 ≤ s2) :
    quotF32 c s1 smax ≤ quotF32 c s2 smax := by
  unfold quotF32
  apply fl32_mono
  apply div_le_div_of_nonneg_right _ (le_of_lt (lumF32_pos smax hmax))
  apply fl32_mono
  exact mul_le_mul_of_nonneg_left (lumF32_mono h) (fl32_nonneg _ (Nat.cast_nonneg c))

/-- On non-negative numbers the C function `round` rounds ties up. -/
theorem cRound_eq_specRound (x : ℚ) (hx : 0 ≤ x) : cRound x = specRound x := by
  simp only [cRound, specRound, if_pos hx]

/-- The level of the single-precision quotient against the reference level of
the exact quotient `c * s / smax`: they agree unless the exact quotient is
half-way between two integers, where the single-precision level is the
reference or one less. -/
theorem roundF32_vs_spec (c s smax : Nat) (hmax : 0 < smax) (hM : smax ≤ 765) (hs : s ≤ smax)
    (hsmall : 16 * c * smax < 2 ^ 24) :
    (¬ 2 * smax ∣ 2 * c * s + smax →
      cRound (quotF32 c s smax) = specRound ((c : ℚ) * s / smax)) ∧
    (2 * smax ∣ 2 * c * s + smax →
      cRound (quotF32 c s smax) = specRound ((c : ℚ) * s / smax) ∨
        cRound (quotF32 c s smax) = specRound ((c : ℚ) * s / smax) - 1) := by
  obtain ⟨v1, v2⟩ := quotientF32_bounds c s smax hmax hM
  set v := quotF32 c s smax with hv
  set q : ℚ := (c : ℚ) * s / smax with hq
  have hM' : (0 : ℚ) < (smax : ℚ) := by exact_mod_cast hmax
  have hc : (0 : ℚ) ≤ (c : ℚ) := Nat.cast_nonneg c
  have hq0 : 0 ≤ q := by positivity
  have hqc : q ≤ c := by
    rw [hq, div_le_iff₀ hM']
    have : (s : ℚ) ≤ (smax : ℚ) := by exact_mod_cast hs
    exact mul_le_mul_of_nonneg_left this hc
  -- the error is less than the distance 1/(2*smax) between two possible quotients
  have hd : 8 / 2 ^ 24 * q < 1 / (2 * smax) := by
    have h1 : 8 / 2 ^ 24 * q ≤ 8 / 2 ^ 24 * c := mul_le_mul_of_nonneg_left hqc (by norm_num)
    have h2 : (8 : ℚ) / 2 ^ 24 * c < 1 / (2 * smax) := by
      rw [lt_div_iff₀ (by positivity)]
      have : ((16 * c * smax : Nat) : ℚ) < ((2 ^ 24 : Nat) : ℚ) := by exact_mod_cast hsmall
      push_cast at this
      linarith
    linarith
  have hvq1 : q - 1 / (2 * smax) < v := by linarith
  have hvq2 : v < q + 1 / (2 * smax) := by linarith
  have hv0 : 0 ≤ v := by
    have : (0 : ℚ) ≤ (1 - 8 / 2 ^ 24) * q := mul_nonneg (by norm_num) hq0
    linarith
  rw [cRound_eq_specRound v hv0]
  -- the exact quotient plus one half, as a fraction of denominator 2*smax
  have hA : q + 1 / 2 = ((2 * c * s + smax : Nat) : ℚ) / (2 * smax) := by
    rw [hq]
    push_cast
    field_simp
    ring
  have hk1 : ((specRound q : Int) : ℚ) ≤ q + 1 / 2 := Int.floor_le _
  have hk2 : q + 1 / 2 < (specRound q : Int) + 1 := Int.lt_floor_add_one _
  set k := specRound q with hk
  have h2M : (0 : ℚ) < 2 * smax := by positivity
  have hdle : (1 : ℚ) / (2 * smax) ≤ 1 / 2 := by
    rw [div_le_div_iff₀ h2M (by norm_num)]
    have : (1 : ℚ) ≤ (smax : ℚ) := by exact_mod_cast hmax
    linarith
  have hkA1 : k * (2 * smax : Int) ≤ ((2 * c * s + smax : Nat) : Int) := by
    have : (k : ℚ) * (2 * smax) ≤ ((2 * c * s + smax : Nat) : ℚ) := by
      rw [hA, le_div_iff₀ h2M] at hk1
      exact hk1
    exact_mod_cast this
  have hkA2 : ((2 * c * s + smax : Nat) : Int) < (k + 1) * (2 * smax : Int) := by
    have : ((2 * c * s + smax : Nat) : ℚ) < ((k : ℚ) + 1) * (2 * smax) := by
      rw [hA, div_lt_iff₀ h2M] at hk2
      exact hk2
    exact_mod_cast this
  constructor
  · intro hnt
    have hne : ((2 * c * s + smax : Nat) : Int) ≠ k * (2 * smax : Int) := by
      intro heq
      apply hnt
      have hdvd : ((2 * smax : Nat) : Int) ∣ ((2 * c * s + smax : Nat) : Int) := by
        rw [heq]
        push_cast
        exact Dvd.intro_left _ rfl
      exact Int.natCast_dvd_natCast.1 hdvd
    have hA1 : k * (2 * smax : Int) + 1 ≤ ((2 * c * s + smax : Nat) : Int) := by omega
    have hA2 : ((2 * c * s + smax : Nat) : Int) + 1 ≤ (k + 1) * (2 * smax : Int) := by omega
    have hA1' : (k : ℚ) + 1 / (2 * smax) ≤ q + 1 / 2 := by
      rw [hA, le_div_iff₀ h2M]
      have : (k : ℚ) * (2 * smax) + 1 ≤ ((2 * c * s + smax : Nat) : ℚ) := by exact_mod_cast hA1
      have e : ((k : ℚ) + 1 / (2 * smax)) * (2 * smax) = k * (2 * smax) + 1 := by
        field_simp
      linarith
    have hA2' : q + 1 / 2 ≤ (k : ℚ) + 1 - 1 / (2 * smax) := by
      rw [hA, div_le_iff₀ h2M]
      have : ((2 * c * s + smax : Nat) : ℚ) + 1 ≤ ((k : ℚ) + 1) * (2 * smax) := by
        exact_mod_cast hA2
      have e : ((k : ℚ) + 1 - 1 / (2 * smax)) * (2 * smax) = (k + 1) * (2 * smax) - 1 := by
        field_simp
      linarith
    show ⌊v + 1 / 2⌋ = k
    rw [Int.floor_eq_iff]
    constructor <;> linarith
  · rintro ⟨j, hj⟩
    have hqj : q + 1 / 2 = ((j : Nat) : Int) := by
      rw [hA, hj]
      push_cast
      field_simp
    have hqk : q + 1 / 2 = k := by
      have : k = ((j : Nat) : Int) := by
        rw [hk, specRound, hqj]
        exact Int.floor_intCast _
      rw [this]
      exact hqj
    by_cases hvk : (k : ℚ) ≤ v + 1 / 2
    · left
      show ⌊v + 1 / 2⌋ = k
      rw [Int.floor_eq_iff]
      constructor <;> linarith
    · right
      push_neg at hvk
      show ⌊v + 1 / 2⌋ = k - 1
      rw [Int.floor_eq_iff]
      push_cast
      constructor <;> linarith

/-- For a pixel as bright as the maximum the single-precision quotient is
within two roundings of `c`: the conversion of `c` is exact, the product and
the quotient are rounded once each. -/
theorem quotF32_at_max (c smax : Nat) (hmax : 0 < smax) (hM : smax ≤ 765) (hc : c ≤ 2 ^ 24) :
    (1 - 1 / 2 ^ 24) ^ 2 * (c : ℚ) ≤ quotF32 c smax smax ∧
      quotF32 c smax smax ≤ (1 + 1 / 2 ^ 24) ^ 2 * (c : ℚ) := by
  unfold quotF32
  have hc0 : (0 : ℚ) ≤ (c : ℚ) := Nat.cast_nonneg c
  have hMx : 0 < lumF32 smax := lumF32_pos smax hmax
  have hMu : lumF32 smax ≤ 255 := lumF32_le_255 smax hM
  have hfc : fl32 (c : ℚ) = c := fl32_natCast_of_le c hc
  have hpn0 := product_zero_or_normal c smax
  rw [hfc] at hpn0 ⊢
  have hpn : (c : ℚ) * lumF32 smax = 0 ∨ (2 : ℚ) ^ (-126 : Int) ≤ (c : ℚ) * lumF32 smax := by
    rcases hpn0 with h | h
    · exact Or.inl h
    · right
      have : (2 : ℚ) ^ (-126 : Int) ≤ 1 / 4 := by norm_num
      exact le_trans this h
  obtain ⟨p1, p2⟩ := fl32_err_of _ hpn
  have hP : 0 ≤ fl32 ((c : ℚ) * lumF32 smax) :=
    fl32_nonneg _ (mul_nonneg hc0 (le_of_lt hMx))
  have hqn : fl32 ((c : ℚ) * lumF32 smax) / lumF32 smax = 0 ∨
      (2 : ℚ) ^ (-126 : Int) ≤ fl32 ((c : ℚ) * lumF32 smax) / lumF32 smax := by
    rcases hpn0 with h | h
    · left
      rw [h, fl32_zero, zero_div]
    · right
      have h1 : (1 : ℚ) / 8 ≤ fl32 ((c : ℚ) * lumF32 smax) := by
        have : (1 - 1 / 2 ^ 24 : ℚ) * (1 / 4) ≤ (1 - 1 / 2 ^ 24) * ((c : ℚ) * lumF32 smax) :=
          mul_le_mul_of_nonneg_left h (by norm_num)
        norm_num at this p1 ⊢
        linarith
      rw [le_div_iff₀ hMx]
      have h2 : (2 : ℚ) ^ (-126 : Int) * lumF32 smax ≤ 2 ^ (-126 : Int) * 255 :=
        mul_le_mul_of_nonneg_left hMu (le_of_lt (two_zpow_pos _))
      have h3 : (2 : ℚ) ^ (-126 : Int) * 255 ≤ 1 / 8 := by norm_num
      exact le_trans h2 (le_trans h3 h1)
  obtain ⟨v1, v2⟩ := fl32_err_of _ hqn
  have hQu : fl32 ((c : ℚ) * lumF32 smax) / lumF32 smax ≤ (1 + 1 / 2 ^ 24) * (c : ℚ) := by
    rw [div_le_iff₀ hMx]
    calc fl32 ((c : ℚ) * lumF32 smax) ≤ (1 + 1 / 2 ^ 24) * ((c : ℚ) * lumF32 smax) := p2
      _ = (1 + 1 / 2 ^ 24) * (c : ℚ) * lumF32 smax := by ring
  have hQl : (1 - 1 / 2 ^ 24) * (c : ℚ) ≤ fl32 ((c : ℚ) * lumF32 smax) / lumF32 smax := by
    rw [le_div_iff₀ hMx]
    calc (1 - 1 / 2 ^ 24) * (c : ℚ) * lumF32 smax
        = (1 - 1 / 2 ^ 24) * ((c : ℚ) * lumF32 smax) := by ring
      _ ≤ fl32 ((c : ℚ) * lumF32 smax) := p1
  constructor
  · calc (1 - 1 / 2 ^ 24) ^ 2 * (c : ℚ) = (1 - 1 / 2 ^ 24) * ((1 - 1 / 2 ^ 24) * (c : ℚ)) := by
          ring
      _ ≤ (1 - 1 / 2 ^ 24) * (fl32 ((c : ℚ) * lumF32 smax) / lumF32 smax) :=
          mul_le_mul_of_nonneg_left hQl (by norm_num)
      _ ≤ _ := v1
  · calc fl32 (fl32 ((c : ℚ) * lumF32 smax) / lumF32 smax)
        ≤ (1 + 1 / 2 ^ 24) * (fl32 ((c : ℚ) * lumF32 smax) / lumF32 smax) := v2
      _ ≤ (1 + 1 / 2 ^ 24) * ((1 + 1 / 2 ^ 24) * (c : ℚ)) :=
          mul_le_mul_of_nonneg_left hQu (by norm_num)
      _ = _ := by ring

/-- The value of `round` lies in `[0, OptLevels-1]` and is `OptLevels-1` for
the brightest pixel, as long as `OptLevels-1` is below `2^22`: here `c` stands
for `OptLevels-1`, `s` for the channel sum of the pixel and `smax` for the
largest channel sum. -/
theorem levelF32_range (c s smax : Nat) (hmax : 0 < smax) (hM : smax ≤ 765) (hs : s ≤ smax)
    (hc : c < 2 ^ 22) :
    0 ≤ cRound (quotF32 c s smax) ∧ cRound (quotF32 c s smax) ≤ c ∧
    (lumF32 s = lumF32 smax → cRound (quotF32 c s smax) = c) := by
  obtain ⟨w1, w2⟩ := quotF32_at_max c smax hmax hM (by omega)
  have hc1 : (c : ℚ) ≤ 2 ^ 22 - 1 := by
    have : c + 1 ≤ 2 ^ 22 := hc
    have h2 : ((c + 1 : Nat) : ℚ) ≤ ((2 ^ 22 : Nat) : ℚ) := by exact_mod_cast this
    push_cast at h2
    linarith
  have hc0 : (0 : ℚ) ≤ (c : ℚ) := Nat.cast_nonneg c
  have hv0 : 0 ≤ quotF32 c s smax := quotF32_nonneg c s smax hmax hM
  have hmono : quotF32 c s smax ≤ quotF32 c smax smax := quotF32_mono c smax hmax hs
  have hup : quotF32 c smax smax < (c : ℚ) + 1 / 2 := by
    norm_num at w2 ⊢
    linarith
  have hlo : (c : ℚ) - 1 / 2 < quotF32 c smax smax := by
    norm_num at w1 ⊢
    linarith
  refine ⟨cRound_nonneg hv0, ?_, ?_⟩
  · rw [cRound_eq_specRound _ hv0, specRound]
    have : ⌊quotF32 c s smax + 1 / 2⌋ < (c : Int) + 1 := by
      rw [Int.floor_lt]
      push_cast
      linarith
    omega
  · intro hsm
    have hsame : quotF32 c s smax = quotF32 c smax smax := by
      unfold quotF32
      rw [hsm]
    rw [hsame] at hv0 ⊢
    rw [cRound_eq_specRound _ hv0, specRound, Int.floor_eq_iff]
    push_cast
    constructor <;> linarith

/-- The value of `round` stays within the range of `int` as long as
`OptLevels-1` is at most `2^30`. -/
theorem levelF32_int (c s smax : Nat) (hmax : 0 < smax) (hM : smax ≤ 765) (hs : s ≤ smax)
    (hc : c ≤ 2 ^ 30) :
    0 ≤ cRound (quotF32 c s smax) ∧ cRound (quotF32 c s smax) ≤ 2 ^ 30 + 2 ^ 10 := by
  obtain ⟨-, v2⟩ := quotientF32_bounds c s smax hmax hM
  have hM' : (0 : ℚ) < (smax : ℚ) := by exact_mod_cast hmax
  have hc0 : (0 : ℚ) ≤ (c : ℚ) := Nat.cast_nonneg c
  have hc1 : (c : ℚ) ≤ 2 ^ 30 := by exact_mod_cast hc
  have hqc : (c : ℚ) * s / smax ≤ c := by
    rw [div_le_iff₀ hM']
    have : (s : ℚ) ≤ (smax : ℚ) := by exact_mod_cast hs
    exact mul_le_mul_of_nonneg_left this hc0
  refine ⟨cRound_nonneg (quotF32_nonneg c s smax hmax hM), ?_⟩
  have h1 : (1 + 8 / 2 ^ 24) * ((c : ℚ) * s / smax) ≤ (1 + 8 / 2 ^ 24) * c :=
    mul_le_mul_of_nonneg_left hqc (by norm_num)
  have h2 : quotF32 c s smax ≤ ((2 ^ 30 + 2 ^ 10 : Int) : ℚ) := by
    push_cast
    norm_num at h1 v2 ⊢
    linarith
  exact cRound_le_of_le h2

/-! ## The level computation of the code -/

theorem lumOfSum_eq (s : Nat) (hs : s ≤ 765) : lumOfSum s = F32.fin (lumF32 s) := by
  have h3 : F32.ofInt 3 = F32.fin 3 := by
    have := F32.ofInt_eq 3 (by norm_num)
    simpa using this
  have hS : F32.ofInt (s : Int) = F32.fin (s : ℚ) := by
    have := F32.ofInt_eq (s : Int) (by
      rw [abs_of_nonneg (by positivity)]
      have : (s : Int) ≤ 765 := by exact_mod_cast hs
      omega)
    simpa using this
  have hb : |(s : ℚ) / 3| ≤ 2 ^ 127 := by
    rw [abs_of_nonneg (by positivity)]
    have : (s : ℚ) ≤ 765 := by exact_mod_cast hs
    have h2 : (765 : ℚ) / 3 ≤ 2 ^ 127 := by norm_num
    linarith
  rw [lumOfSum, h3, hS, F32.fin_div_fin _ _ (by norm_num), F32.round_eq_fin _ hb, lumF32,
    fl32_natCast_of_le s (by omega)]

theorem lumOfSum_zero : lumOfSum 0 = 0 := by
  rw [lumOfSum_eq 0 (by norm_num), lumF32_zero]
  rfl

theorem sumAt_le (rgb : List Nat) (hb : ∀ b ∈ rgb, b ≤ 255) (p : Nat) : sumAt rgb p ≤ 765 := by
  have key : ∀ i, rgb.getD i 0 ≤ 255 := by
    intro i
    rw [List.getD_eq_getElem?_getD]
    cases hi : rgb[i]? with
    | none => simp
    | some b => exact hb b (List.getElem?_mem hi)
  have h0 := key p
  have h1 := key (p + 1)
  have h2 := key (p + 2)
  unfold sumAt
  omega

theorem lumAt_eq (rgb : List Nat) (hb : ∀ b ∈ rgb, b ≤ 255) (p : Nat) :
    lumAt rgb p = F32.fin (lumF32 (sumAt rgb p)) :=
  lumOfSum_eq _ (sumAt_le rgb hb p)

theorem maxLoop_eq (rgb : List Nat) (hb : ∀ b ∈ rgb, b ≤ 255) (n : Nat) :
    ∀ (p m : Nat), maxLoop rgb n p (F32.fin (lumF32 m)) =
      F32.fin (lumF32 (((List.range n).map (fun k => sumAt rgb (p + 3 * k))).foldl max m)) := by
  induction n with
  | zero => intro p m; rfl
  | succ n ih =>
    intro p m
    rw [List.range_succ_eq_map, List.map_cons, List.map_map, List.foldl_cons]
    simp only [maxLoop, lumAt_eq rgb hb, Nat.mul_zero, Nat.add_zero]
    have e1 : (if F32.fin (lumF32 (sumAt rgb p)) > F32.fin (lumF32 m)
          then F32.fin (lumF32 (sumAt rgb p)) else F32.fin (lumF32 m)) =
        F32.fin (lumF32 (max m (sumAt rgb p))) := by
      by_cases h : lumF32 m < lumF32 (sumAt rgb p)
      · have hlt : m < sumAt rgb p := by
          by_contra hge
          push_neg at hge
          exact absurd (lumF32_mono hge) (not_le.2 h)
        rw [if_pos ((F32.fin_lt_fin _ _).2 h), max_eq_right (le_of_lt hlt)]
      · rw [if_neg (fun hc => h ((F32.fin_lt_fin _ _).1 hc))]
        push_neg at h
        rcases Nat.lt_or_ge m (sumAt rgb p) with hlt | hge
        · rw [max_eq_right (le_of_lt hlt)]
          exact congrArg F32.fin (le_antisymm (lumF32_mono (le_of_lt hlt)) h)
        · rw [max_eq_left hge]
    have e2 : (fun k => sumAt rgb (p + 3 + 3 * k)) =
        (fun k => sumAt rgb (p + 3 * k)) ∘ Nat.succ := by
      funext k
      simp only [Function.comp]
      congr 1
      rw [Nat.mul_succ]
      omega
    rw [e1, ih (p + 3) _, e2]

/-- The maximum the first loop computes is the luminance of the largest
channel sum. -/
theorem maxLoop_eq_maxSum (rgb : List Nat) (hb : ∀ b ∈ rgb, b ≤ 255) (n : Nat) :
    maxLoop rgb n 0 0 = F32.fin (lumF32 (maxSum rgb n)) := by
  have h := maxLoop_eq rgb hb n 0 0
  rw [lumF32_zero] at h
  rw [show (0 : F32) = F32.fin 0 from rfl, h, maxSum]
  congr 4
  funext k
  rw [Nat.zero_add]

theorem foldl_max_le (l : List Nat) (c : Nat) (hl : ∀ x ∈ l, x ≤ c) :
    ∀ m, m ≤ c → l.foldl max m ≤ c := by
  induction l with
  | nil => intro m hm; exact hm
  | cons a l ih =>
    intro m hm
    rw [List.foldl_cons]
    exact ih (fun x hx => hl x (List.mem_cons_of_mem _ hx)) _
      (max_le hm (hl a (List.mem_cons_self _ _)))

theorem le_foldl_max (l : List Nat) :
    ∀ m, m ≤ l.foldl max m ∧ ∀ x ∈ l, x ≤ l.foldl max m := by
  induction l with
  | nil => intro m; exact ⟨le_refl _, fun x hx => absurd hx (List.not_mem_nil _)⟩
  | cons a l ih =>
    intro m
    rw [List.foldl_cons]
    obtain ⟨h1, h2⟩ := ih (max m a)
    refine ⟨le_trans (le_max_left _ _) h1, ?_⟩
    intro x hx
    rcases List.mem_cons.1 hx with rfl | hx'
    · exact le_trans (le_max_right _ _) h1
    · exact h2 x hx'

theorem foldl_max_mem (l : List Nat) : ∀ m, l.foldl max m = m ∨ l.foldl max m ∈ l := by
  induction l with
  | nil => intro m; exact Or.inl rfl
  | cons a l ih =>
    intro m
    rw [List.foldl_cons]
    rcases ih (max m a) with h | h
    · rw [h]
      rcases le_total m a with h1 | h1
      · right
        rw [max_eq_right h1]
        exact List.mem_cons_self _ _
      · left
        exact max_eq_left h1
    · exact Or.inr (List.mem_cons_of_mem _ h)

theorem maxSum_le (rgb : List Nat) (hb : ∀ b ∈ rgb, b ≤ 255) (n : Nat) : maxSum rgb n ≤ 765 := by
  apply foldl_max_le _ 765 _ 0 (by omega)
  intro x hx
  obtain ⟨k, -, rfl⟩ := List.mem_map.1 hx
  exact sumAt_le rgb hb _

theorem sumAt_le_maxSum (rgb : List Nat) (n k : Nat) (hk : k < n) :
    sumAt rgb (3 * k) ≤ maxSum rgb n :=
  (le_foldl_max _ 0).2 _ (List.mem_map.2 ⟨k, List.mem_range.2 hk, rfl⟩)

/-- A positive largest channel sum is the channel sum of some pixel. -/
theorem exists_sumAt_eq_maxSum (rgb : List Nat) (n : Nat) (h : 0 < maxSum rgb n) :
    ∃ k, k < n ∧ sumAt rgb (3 * k) = maxSum rgb n := by
  rcases foldl_max_mem ((List.range n).map (fun k => sumAt rgb (3 * k))) 0 with h0 | hm
  · rw [maxSum, h0] at h
    exact absurd h (lt_irrefl _)
  · obtain ⟨k, hk, e⟩ := List.mem_map.1 hm
    exact ⟨k, List.mem_range.1 hk, e⟩

theorem foldl_max_div (l : List Nat) :
    ∀ m : Nat, (List.map (fun s : Nat => (s : ℚ) / 3) l).foldl max ((m : ℚ) / 3) =
      ((l.foldl max m : Nat) : ℚ) / 3 := by
  induction l with
  | nil => intro m; rfl
  | cons a l ih =>
    intro m
    rw [List.map_cons, List.foldl_cons, List.foldl_cons, ← ih (max m a)]
    congr 1
    rw [Nat.cast_max, max_div_div_right (by norm_num : (0 : ℚ) ≤ 3)]

theorem specLuminance_eq_sumAt (rgb : List Nat) (k : Nat) :
    specLuminance rgb k = (sumAt rgb (3 * k) : ℚ) / 3 := by
  simp only [specLuminance, sumAt]
  push_cast
  ring

theorem specLmax_eq_maxSum (rgb : List Nat) (n : Nat) :
    specLmax rgb n = (maxSum rgb n : ℚ) / 3 := by
  have h := foldl_max_div ((List.range n).map (fun k => sumAt rgb (3 * k))) 0
  rw [List.map_map] at h
  have e1 : (List.range n).map (specLuminance rgb) =
      (List.range n).map ((fun s : Nat => (s : ℚ) / 3) ∘ fun k => sumAt rgb (3 * k)) := by
    apply List.map_congr_left
    intro k _
    simp only [Function.comp, specLuminance_eq_sumAt]
  have e2 : (0 : ℚ) = ((0 : Nat) : ℚ) / 3 := by norm_num
  rw [specLmax, maxSum, ← h, e1, ← e2]

/-- A positive maximum luminance of the spec is a positive largest channel
sum. -/
theorem maxSum_pos_of_specLmax (rgb : List Nat) (n : Nat) (h : 0 < specLmax rgb n) :
    0 < maxSum rgb n := by
  rw [specLmax_eq_maxSum] at h
  have : (0 : ℚ) < (maxSum rgb n : ℚ) := by linarith
  exact_mod_cast this

theorem fl32_two_pow (k : Nat) : fl32 ((2 : ℚ) ^ k) = 2 ^ k := by
  have := fl32_two_zpow (k : Int) (by omega)
  rwa [zpow_natCast] at this

theorem int32_of_range (n : Int) (h1 : -2 ^ 31 ≤ n) (h2 : n < 2 ^ 31) : int32 n = some n := by
  unfold int32 INT_MIN INT_MAX
  rw [if_pos ⟨by omega, by omega⟩]

/-- The level before the inversion, for the luminances of two channel sums
`s ≤ smax` and `c = OptLevels-1` up to `2^30`. -/
theorem rawLevel_eq (o : Opts) (c s smax : Nat) (hc : o.OptLevels - 1 = (c : Int))
    (hc2 : c ≤ 2 ^ 30) (hmax : 0 < smax) (hM : smax ≤ 765) (hs : s ≤ smax) :
    rawLevel o (F32.fin (lumF32 s)) (F32.fin (lumF32 smax)) =
      some (cRound (quotF32 c s smax)) := by
  have hci : ((c : Nat) : Int) ≤ 2 ^ 30 := by exact_mod_cast hc2
  have hcq : (c : ℚ) ≤ 2 ^ 30 := by exact_mod_cast hc2
  have hC0 : 0 ≤ fl32 (c : ℚ) := fl32_nonneg _ (Nat.cast_nonneg c)
  have hC1 : fl32 (c : ℚ) ≤ 2 ^ 30 := by
    have := fl32_mono hcq
    rwa [fl32_two_pow 30] at this
  have hL0 : 0 ≤ lumF32 s := lumF32_nonneg s
  have hL1 : lumF32 s ≤ 255 := lumF32_le_255 s (le_trans hs hM)
  have hprod : |fl32 (c : ℚ) * lumF32 s| ≤ 2 ^ 127 := by
    rw [abs_of_nonneg (mul_nonneg hC0 hL0)]
    have : fl32 (c : ℚ) * lumF32 s ≤ 2 ^ 30 * 255 := mul_le_mul hC1 hL1 hL0 (by norm_num)
    have h2 : (2 : ℚ) ^ 30 * 255 ≤ 2 ^ 127 := by norm_num
    linarith
  have hMx : lumF32 smax ≠ 0 := ne_of_gt (lumF32_pos smax hmax)
  obtain ⟨hv0, hv1⟩ := levelF32_int c s smax hmax hM hs hc2
  have hq0 := quotF32_nonneg c s smax hmax hM
  have hq1 : quotF32 c s smax < 2 ^ 128 := by
    obtain ⟨-, v2⟩ := quotientF32_bounds c s smax hmax hM
    have hM' : (0 : ℚ) < (smax : ℚ) := by exact_mod_cast hmax
    have hqc : (c : ℚ) * s / smax ≤ c := by
      rw [div_le_iff₀ hM']
      have : (s : ℚ) ≤ (smax : ℚ) := by exact_mod_cast hs
      exact mul_le_mul_of_nonneg_left this (Nat.cast_nonneg c)
    have h1 : (1 + 8 / 2 ^ 24) * ((c : ℚ) * s / smax) ≤ (1 + 8 / 2 ^ 24) * c :=
      mul_le_mul_of_nonneg_left hqc (by norm_num)
    have h2 : (1 + 8 / 2 ^ 24 : ℚ) * c ≤ (1 + 8 / 2 ^ 24) * 2 ^ 30 :=
      mul_le_mul_of_nonneg_left hcq (by norm_num)
    have h3 : (1 + 8 / 2 ^ 24 : ℚ) * 2 ^ 30 < 2 ^ 128 := by norm_num
    exact lt_of_le_of_lt (le_trans v2 (le_trans h1 h2)) h3
  have hI : int32 ((c : Nat) : Int) = some ((c : Nat) : Int) :=
    int32_of_range _ (by omega) (by omega)
  have hO : F32.ofInt ((c : Nat) : Int) = F32.fin (fl32 (c : ℚ)) := by
    have := F32.ofInt_fin ((c : Nat) : Int) (by
      rw [abs_of_nonneg (by positivity)]
      omega)
    simpa using this
  have hR : F32.round (fl32 (fl32 (c : ℚ) * lumF32 s) / lumF32 smax) =
      F32.fin (quotF32 c s smax) :=
    F32.round_of_lt _ (by
      show |quotF32 c s smax| < 2 ^ 128
      rw [abs_of_nonneg hq0]
      exact hq1)
  unfold rawLevel
  rw [hc, hI]
  simp only [hO, F32.fin_mul_fin, F32.round_eq_fin _ hprod, F32.fin_div_fin _ _ hMx, hR,
    roundToInt]
  exact int32_of_range _ (by omega) (by omega)

/-- The level after the inversion, from the level before it. -/
theorem pixelLevel_eq (o : Opts) (lum max : F32) (raw : Int)
    (h : rawLevel o lum max = some raw) (hl1 : 1 ≤ o.OptLevels) (hl2 : o.OptLevels ≤ 2 ^ 30 + 1)
    (hr1 : 0 ≤ raw) (hr2 : raw ≤ 2 ^ 30 + 2 ^ 10) :
    pixelLevel o lum max = some (if o.OptNegative then o.OptLevels - raw - 1 else raw) := by
  unfold pixelLevel
  rw [h]
  by_cases hn : o.OptNegative = true
  · simp only [hn, if_true]
    rw [int32_of_range _ (by omega) (by omega)]
    exact int32_of_range _ (by omega) (by omega)
  · simp only [hn]
    rfl

/-- The level before the inversion of the `k`-th pixel of a grid with a
positive largest channel sum, for `c = OptLevels-1` up to `2^30`. -/
theorem rawLevel_pixel (o : Opts) (rgb : List Nat) (w h k : Nat) (hb : ∀ b ∈ rgb, b ≤ 255)
    (hk : k < w * h) (c : Nat) (hc : o.OptLevels - 1 = (c : Int)) (hc2 : c ≤ 2 ^ 30)
    (hmax : 0 < maxSum rgb (w * h)) :
    rawLevel o (lumAt rgb (3 * k)) (maxLoop rgb (w * h) 0 0) =
      some (cRound (quotF32 c (sumAt rgb (3 * k)) (maxSum rgb (w * h)))) := by
  rw [lumAt_eq rgb hb, maxLoop_eq_maxSum rgb hb]
  exact rawLevel_eq o c _ _ hc hc2 hmax (maxSum_le rgb hb _) (sumAt_le_maxSum rgb _ k hk)

/-- The level and the height of the `k`-th pixel of a grid with a positive
largest channel sum, for `OptLevels` from 1 to `2^30 + 1`. -/
theorem heightAt_pixel (o : Opts) (rgb : List Nat) (w h k : Nat) (hb : ∀ b ∈ rgb, b ≤ 255)
    (hk : k < w * h) (c : Nat) (hc : o.OptLevels - 1 = (c : Int)) (hc2 : c ≤ 2 ^ 30)
    (hmax : 0 < maxSum rgb (w * h)) :
    pixelLevel o (lumAt rgb (3 * k)) (maxLoop rgb (w * h) 0 0) =
      some (if o.OptNegative then
        o.OptLevels - cRound (quotF32 c (sumAt rgb (3 * k)) (maxSum rgb (w * h))) - 1
        else cRound (quotF32 c (sumAt rgb (3 * k)) (maxSum rgb (w * h)))) ∧
    heightAt o rgb w h k =
      some (heightOfLevel o (if o.OptNegative then
        o.OptLevels - cRound (quotF32 c (sumAt rgb (3 * k)) (maxSum rgb (w * h))) - 1
        else cRound (quotF32 c (sumAt rgb (3 * k)) (maxSum rgb (w * h))))) := by
  have hraw := rawLevel_pixel o rgb w h k hb hk c hc hc2 hmax
  obtain ⟨h0, h1⟩ := levelF32_int c (sumAt rgb (3 * k)) (maxSum rgb (w * h)) hmax
    (maxSum_le rgb hb _) (sumAt_le_maxSum rgb _ k hk) hc2
  have hci : ((c : Nat) : Int) ≤ 2 ^ 30 := by exact_mod_cast hc2
  have hlev := pixelLevel_eq o _ _ _ hraw (by omega) (by omega) h0 h1
  refine ⟨hlev, ?_⟩
  rw [heightAt, pixelHeight, hlev]

/-- Every pixel of a grid with a positive largest channel sum has a height,
for `OptLevels` from 1 to `2^30 + 1`. -/
theorem heightAt_defined (o : Opts) (rgb : List Nat) (w h k : Nat) (hb : ∀ b ∈ rgb, b ≤ 255)
    (hk : k < w * h) (hl : 1 ≤ o.OptLevels) (hl2 : o.OptLevels ≤ 2 ^ 30 + 1)
    (hmax : 0 < maxSum rgb (w * h)) :
    ∃ ht, heightAt o rgb w h k = some ht := by
  obtain ⟨c, hc⟩ : ∃ c : Nat, o.OptLevels - 1 = (c : Int) :=
    ⟨(o.OptLevels - 1).toNat, (Int.toNat_of_nonneg (by omega)).symm⟩
  have hc2 : c ≤ 2 ^ 30 := by
    have : (c : Int) ≤ 2 ^ 30 := by omega
    exact_mod_cast this
  exact ⟨_, (heightAt_pixel o rgb w h k hb hk c hc hc2 hmax).2⟩

/-! ## The all-black image -/

theorem sumAt_zero (rgb : List Nat) (hz : ∀ b ∈ rgb, b = 0) (p : Nat) : sumAt rgb p = 0 := by
  have key : ∀ i, rgb.getD i 0 = 0 := by
    intro i
    rw [List.getD_eq_getElem?_getD]
    cases hi : rgb[i]? with
    | none => rfl
    | some b => exact hz b (List.getElem?_mem hi)
  simp only [sumAt, key]

theorem lumAt_zero (rgb : List Nat) (hz : ∀ b ∈ rgb, b = 0) (p : Nat) : lumAt rgb p = 0 := by
  rw [lumAt, sumAt_zero rgb hz, lumOfSum_zero]

theorem F32.not_zero_lt_zero : ¬ ((0 : F32) > 0) := by
  intro h
  have h' : (0 : ℚ) < 0 := (F32.fin_lt_fin 0 0).1 h
  exact lt_irrefl _ h'

theorem maxLoop_zero (rgb : List Nat) (hz : ∀ b ∈ rgb, b = 0) (n p : Nat) :
    maxLoop rgb n p 0 = 0 := by
  induction n generalizing p with
  | zero => rfl
  | succ n ih => simp only [maxLoop, lumAt_zero rgb hz, if_neg F32.not_zero_lt_zero, ih]

/-- The conversion to `int` of a quotient by the `float` zero is undefined. -/
theorem roundToInt_div_zero (x : F32) : roundToInt (x / 0) = none := by
  show roundToInt (F32.div x (F32.fin 0)) = none
  cases x with
  | fin a =>
    by_cases ha : a = 0
    · simp [F32.div, ha, roundToInt]
    · simp [F32.div, ha, roundToInt]
  | inf s => simp [F32.div, roundToInt]
  | nan => simp [F32.div, roundToInt]

theorem rawLevel_zero_max (o : Opts) (lum : F32) : rawLevel o lum 0 = none := by
  unfold rawLevel
  cases int32 (o.OptLevels - 1) with
  | none => rfl
  | some c => exact roundToInt_div_zero _

theorem pixelLevel_zero_max (o : Opts) (lum : F32) : pixelLevel o lum 0 = none := by
  simp only [pixelLevel, rawLevel_zero_max]

theorem pixelHeight_zero_max (o : Opts) (lum : F32) : pixelHeight o lum 0 = none := by
  simp only [pixelHeight, pixelLevel_zero_max]

theorem emitLoop_zero_max (o : Opts) (rgb : List Nat) (w n y p : Nat) (hw : 0 < w)
    (hn : 0 < n) : emitLoop o rgb 0 w n y p = none := by
  obtain ⟨w, rfl⟩ := Nat.exists_eq_succ_of_ne_zero (Nat.pos_iff_ne_zero.1 hw)
  obtain ⟨n, rfl⟩ := Nat.exists_eq_succ_of_ne_zero (Nat.pos_iff_ne_zero.1 hn)
  simp only [emitLoop, rowLoop, pixelHeight_zero_max]

theorem stlOfRgb_zero_max (o : Opts) (rgb : List Nat) (w h : Nat) (hw : 0 < w) (hh : 0 < h)
    (hmax : maxLoop rgb (w * h) 0 0 = 0) : stlOfRgb o rgb w h = none := by
  simp only [stlOfRgb, hmax, emitLoop_zero_max o rgb w h 0 0 hw hh]
  cases int32 ((w : Int) * (h : Int)) <;> rfl

/-- C3 (code defect): for every all-black image (every byte of the RGB buffer
is 0) with positive width and height, the maximum luminance is 0, the level
and the height of every pixel are undefined (the quotient by the maximum is
not a number), and so is the output: no pixel gets level 0 and no box of
height `OptBaseHeight` is emitted. -/
theorem all_black_undefined (o : Opts) (rgb : List Nat) (w h k : Nat)
    (hz : ∀ b ∈ rgb, b = 0) (hw : 0 < w) (hh : 0 < h) :
    maxLoop rgb (w * h) 0 0 = 0 ∧
      pixelLevel o (lumAt rgb (3 * k)) (maxLoop rgb (w * h) 0 0) = none ∧
      heightAt o rgb w h k = none ∧ stlOfRgb o rgb w h = none := by
  have hmax := maxLoop_zero rgb hz (w * h) 0
  refine ⟨hmax, ?_, ?_, stlOfRgb_zero_max o rgb w h hw hh hmax⟩
  · rw [hmax, pixelLevel_zero_max]
  · rw [heightAt, hmax, pixelHeight_zero_max]

/-- C3 at a concrete input: the all-black 1x1 image with the default options
has no defined height and no defined output. -/
theorem all_black_undefined_witness :
    (∀ b ∈ [0, 0, 0], b = 0) ∧ 0 < 1 ∧
      heightAt defaultOpts [0, 0, 0] 1 1 0 = none ∧ stlOfRgb defaultOpts [0, 0, 0] 1 1 = none :=
  ⟨by simp, by decide,
    (all_black_undefined defaultOpts [0, 0, 0] 1 1 0 (by simp) (by decide) (by decide)).2.2⟩

/-- C1 (code defect): on the all-black 2x2 image with the default relief and
base heights and 20 levels, in either polarity, the maximum luminance is 0 and
no pixel has a defined height, so no height lies in
`[OptBaseHeight, OptBaseHeight + OptReliefHeight]`. -/
theorem all_black_2x2_no_height :
    maxLoop [0, 0, 0, 0, 0, 0, 0, 0, 0, 0, 0, 0] (2 * 2) 0 0 = 0 ∧
    ∀ neg k, ¬ ∃ height,
      heightAt { defaultOpts with OptNegative := neg } [0, 0, 0, 0, 0, 0, 0, 0, 0, 0, 0, 0] 2 2 k
        = some height ∧
      defaultOpts.OptBaseHeight ≤ height ∧
      height ≤ defaultOpts.OptBaseHeight + defaultOpts.OptReliefHeight := by
  have hz : ∀ b ∈ [0, 0, 0, 0, 0, 0, 0, 0, 0, 0, 0, 0], b = 0 := by simp
  have hmax := maxLoop_zero _ hz (2 * 2) 0
  refine ⟨hmax, ?_⟩
  rintro neg k ⟨height, h, -⟩
  rw [heightAt, hmax, pixelHeight_zero_max] at h
  exact absurd h (by simp)

/-! ## Range of the levels and of the heights -/

/-- A number of levels from 2 on, less one, as a natural number. -/
theorem exists_levels_pred (o : Opts) (hl : 1 ≤ o.OptLevels) :
    ∃ c : Nat, o.OptLevels - 1 = (c : Int) :=
  ⟨(o.OptLevels - 1).toNat, (Int.toNat_of_nonneg (by omega)).symm⟩

/-- C17 (amended): for every grid with a positive maximum and every
`OptLevels` from 2 to `2^22`, the level of each pixel is defined and is an
integer of `[0, OptLevels-1]`, both before the polarity inversion (the value
of `round`) and after it (the level the height is computed from). -/
theorem level_in_range (o : Opts) (rgb : List Nat) (w h k : Nat) (hg : isGrid rgb w h)
    (hk : k < w * h) (hl : 2 ≤ o.OptLevels) (hl2 : o.OptLevels ≤ 2 ^ 22)
    (hmax : 0 < specLmax rgb (w * h)) :
    ∃ raw level, rawLevel o (lumAt rgb (3 * k)) (maxLoop rgb (w * h) 0 0) = some raw ∧
      0 ≤ raw ∧ raw ≤ o.OptLevels - 1 ∧
      pixelLevel o (lumAt rgb (3 * k)) (maxLoop rgb (w * h) 0 0) = some level ∧
      level = (if o.OptNegative then o.OptLevels - raw - 1 else raw) ∧
      0 ≤ level ∧ level ≤ o.OptLevels - 1 := by
  obtain ⟨c, hc⟩ := exists_levels_pred o (by omega)
  have hci : (c : Int) < 2 ^ 22 := by omega
  have hc1 : c < 2 ^ 22 := by exact_mod_cast hci
  have hms := maxSum_pos_of_specLmax rgb _ hmax
  have hraw := rawLevel_pixel o rgb w h k hg.2 hk c hc (by omega) hms
  obtain ⟨hlev, -⟩ := heightAt_pixel o rgb w h k hg.2 hk c hc (by omega) hms
  obtain ⟨r0, r1, -⟩ := levelF32_range c (sumAt rgb (3 * k)) (maxSum rgb (w * h)) hms
    (maxSum_le rgb hg.2 _) (sumAt_le_maxSum rgb _ k hk) hc1
  refine ⟨_, _, hraw, r0, by omega, hlev, rfl, ?_, ?_⟩
  · split <;> omega
  · split <;> omega

/-- C17 (amended) at a concrete input: the second pixel of the 2x1 image with
luminances 255 and 85, with the default options. -/
theorem level_in_range_witness :
    ∃ raw level, rawLevel defaultOpts (lumAt [255, 255, 255, 85, 85, 85] (3 * 1))
        (maxLoop [255, 255, 255, 85, 85, 85] (2 * 1) 0 0) = some raw ∧
      0 ≤ raw ∧ raw ≤ defaultOpts.OptLevels - 1 ∧
      pixelLevel defaultOpts (lumAt [255, 255, 255, 85, 85, 85] (3 * 1))
        (maxLoop [255, 255, 255, 85, 85, 85] (2 * 1) 0 0) = some level ∧
      level = (if defaultOpts.OptNegative then defaultOpts.OptLevels - raw - 1 else raw) ∧
      0 ≤ level ∧ level ≤ defaultOpts.OptLevels - 1 :=
  level_in_range defaultOpts [255, 255, 255, 85, 85, 85] 2 1 1 ⟨by decide, by decide⟩
    (by decide) (by decide) (by norm_num [defaultOpts])
    (by norm_num [specLmax, specLuminance, List.range, List.range.loop])

/-! ## Lemmas on the heights -/

theorem fl32_of_round_eq {r : ℚ} (h : F32.round r = F32.fin r) : fl32 r = r := by
  unfold F32.round at h
  split at h
  · exact absurd h (by simp)
  · exact F32.fin.inj h

/-- A multiple of a binary32 number that lies below `2^-126` is a binary32
number. -/
theorem fl32_mul_nat_of_small (r : ℚ) (hrv : fl32 r = r) (c : Nat)
    (hsmall : |r * c| < 2 ^ (-126 : Int)) : fl32 (r * c) = r * c := by
  have hE := quantumExp_ge r
  obtain ⟨j, hj⟩ : ∃ j : Nat, (j : Int) = quantumExp r + 149 :=
    ⟨(quantumExp r + 149).toNat, Int.toNat_of_nonneg (by omega)⟩
  have hq : quantumExp (r * c) = -149 := by
    rw [quantumExp, if_pos hsmall]
  have hgrid : r = (roundEven (r / 2 ^ quantumExp r) : ℚ) * 2 ^ quantumExp r := by
    conv_lhs => rw [← hrv]
    rfl
  apply fl32_of_grid _ (roundEven (r / 2 ^ quantumExp r) * c * 2 ^ j)
  rw [hq]
  conv_lhs => rw [hgrid]
  have e : (2 : ℚ) ^ quantumExp r = 2 ^ j * 2 ^ (-149 : Int) := by
    rw [← zpow_natCast, ← zpow_add₀ (by norm_num : (2 : ℚ) ≠ 0), hj]
    congr 1
    ring
  rw [e]
  push_cast
  ring

/-- The rounded product of a binary32 number `r ≥ 0` with `c` is at most
`r * n`, for `c < n ≤ 2^24`. -/
theorem fl32_mul_nat_le (r : ℚ) (hr : 0 ≤ r) (hrv : fl32 r = r) (c n : Nat) (hcn : c < n)
    (hn : n ≤ 2 ^ 24) : fl32 (r * c) ≤ r * n := by
  have hc0 : (0 : ℚ) ≤ (c : ℚ) := Nat.cast_nonneg c
  have hcn' : (c : ℚ) + 1 ≤ (n : ℚ) := by exact_mod_cast hcn
  have hn' : (n : ℚ) ≤ 2 ^ 24 := by exact_mod_cast hn
  by_cases hsub : r * c < 2 ^ (-126 : Int)
  · rw [fl32_mul_nat_of_small r hrv c (by rw [abs_of_nonneg (mul_nonneg hr hc0)]; exact hsub)]
    exact mul_le_mul_of_nonneg_left (by linarith) hr
  · push_neg at hsub
    have h1 := (fl32_err (r * c) hsub).2
    have h2 : (1 + 1 / 2 ^ 24) * (r * c) ≤ r * n := by
      have : (1 + 1 / 2 ^ 24 : ℚ) * c ≤ n := by
        have : (c : ℚ) / 2 ^ 24 ≤ 1 := by
          rw [div_le_one (by norm_num)]
          linarith
        have e : (1 + 1 / 2 ^ 24 : ℚ) * c = c + c / 2 ^ 24 := by ring
        rw [e]
        linarith
      calc (1 + 1 / 2 ^ 24) * (r * c) = r * ((1 + 1 / 2 ^ 24) * c) := by ring
        _ ≤ r * n := mul_le_mul_of_nonneg_left this hr
    linarith

/-- The relief term `OptReliefHeight*level/OptLevels` of a level below
`OptLevels` is at most the relief height, as long as the product does not
overflow. -/
theorem relief_term_le (r : ℚ) (hr : 0 ≤ r) (hrv : F32.round r = F32.fin r) (c n : Nat)
    (hcn : c < n) (hn : n ≤ 2 ^ 24) (hov : r * c ≤ 2 ^ 127) :
    F32.fin r * F32.ofInt c / F32.ofInt n ≤ F32.fin r := by
  have hc0 : (0 : ℚ) ≤ (c : ℚ) := Nat.cast_nonneg c
  have hOc : F32.ofInt (c : Int) = F32.fin (c : ℚ) := by
    have := F32.ofInt_eq (c : Int) (by
      rw [abs_of_nonneg (by positivity)]
      have : ((c : Nat) : Int) < n := by exact_mod_cast hcn
      have : ((n : Nat) : Int) ≤ 2 ^ 24 := by exact_mod_cast hn
      omega)
    simpa using this
  have hOn : F32.ofInt (n : Int) = F32.fin (n : ℚ) := by
    have := F32.ofInt_eq (n : Int) (by
      rw [abs_of_nonneg (by positivity)]
      exact_mod_cast hn)
    simpa using this
  have hn0 : (0 : ℚ) < (n : ℚ) := by
    have : 0 < n := by omega
    exact_mod_cast this
  rw [hOc, hOn, F32.fin_mul_fin, F32.round_eq_fin _ (by
    rw [abs_of_nonneg (mul_nonneg hr hc0)]
    exact hov), F32.fin_div_fin _ _ (ne_of_gt hn0)]
  conv_rhs => rw [← hrv]
  apply F32.round_mono
  rw [div_le_iff₀ hn0]
  exact fl32_mul_nat_le r hr (fl32_of_round_eq hrv) c n hcn hn

/-- The height of a pixel from the level before the inversion, for the
luminances of two channel sums `s ≤ smax`. -/
theorem pixelHeight_eq (o : Opts) (c s smax : Nat) (hc : o.OptLevels - 1 = (c : Int))
    (hc2 : c ≤ 2 ^ 30) (hmax : 0 < smax) (hM : smax ≤ 765) (hs : s ≤ smax) :
    pixelHeight o (F32.fin (lumF32 s)) (F32.fin (lumF32 smax)) =
      some (heightOfLevel o (if o.OptNegative then o.OptLevels - cRound (quotF32 c s smax) - 1
        else cRound (quotF32 c s smax))) := by
  have hraw := rawLevel_eq o c s smax hc hc2 hmax hM hs
  obtain ⟨h0, h1⟩ := levelF32_int c s smax hmax hM hs hc2
  have hci : ((c : Nat) : Int) ≤ 2 ^ 30 := by exact_mod_cast hc2
  rw [pixelHeight, pixelLevel_eq o _ _ _ hraw (by omega) (by omega) h0 h1]

theorem quotF32_of_lum_zero (c s smax : Nat) (h : lumF32 s = 0) : quotF32 c s smax = 0 := by
  unfold quotF32
  rw [h, mul_zero, fl32_zero, zero_div, fl32_zero]

theorem cRound_zero : cRound 0 = 0 := by
  have := cRound_intCast 0
  simpa using this

/-- The facts on the pixels of a grid with a positive maximum luminance that
the claims on levels and heights rest on, for `OptLevels` from 2 to `2^22`:
the level `raw` before the inversion lies in `[0, OptLevels-1]`, it is
`OptLevels-1` for a pixel as bright as the maximum and 0 for a pixel of
luminance 0, and the height is the height of the inverted level. -/
theorem pixel_facts (o : Opts) (rgb : List Nat) (w h k : Nat) (hg : isGrid rgb w h)
    (hk : k < w * h) (hl : 2 ≤ o.OptLevels) (hl2 : o.OptLevels ≤ 2 ^ 22)
    (hmax : 0 < specLmax rgb (w * h)) :
    ∃ raw, rawLevel o (lumAt rgb (3 * k)) (maxLoop rgb (w * h) 0 0) = some raw ∧
      0 ≤ raw ∧ raw ≤ o.OptLevels - 1 ∧
      (lumAt rgb (3 * k) = maxLoop rgb (w * h) 0 0 → raw = o.OptLevels - 1) ∧
      (lumAt rgb (3 * k) = 0 → raw = 0) ∧
      pixelLevel o (lumAt rgb (3 * k)) (maxLoop rgb (w * h) 0 0) =
        some (if o.OptNegative then o.OptLevels - raw - 1 else raw) ∧
      heightAt o rgb w h k =
        some (heightOfLevel o (if o.OptNegative then o.OptLevels - raw - 1 else raw)) := by
  obtain ⟨c, hc⟩ := exists_levels_pred o (by omega)
  have hci : (c : Int) < 2 ^ 22 := by omega
  have hc1 : c < 2 ^ 22 := by exact_mod_cast hci
  have hms := maxSum_pos_of_specLmax rgb _ hmax
  have hraw := rawLevel_pixel o rgb w h k hg.2 hk c hc (by omega) hms
  obtain ⟨hlev, hht⟩ := heightAt_pixel o rgb w h k hg.2 hk c hc (by omega) hms
  obtain ⟨r0, r1, r2⟩ := levelF32_range c (sumAt rgb (3 * k)) (maxSum rgb (w * h)) hms
    (maxSum_le rgb hg.2 _) (sumAt_le_maxSum rgb _ k hk) hc1
  refine ⟨_, hraw, r0, by omega, ?_, ?_, hlev, hht⟩
  · intro he
    rw [lumAt_eq rgb hg.2, maxLoop_eq_maxSum rgb hg.2] at he
    rw [r2 (F32.fin.inj he)]
    omega
  · intro he
    rw [lumAt_eq rgb hg.2] at he
    have h0 : lumF32 (sumAt rgb (3 * k)) = 0 := F32.fin.inj he
    rw [quotF32_of_lum_zero _ _ _ h0, cRound_zero]

/-- Some pixel of a grid with a positive maximum luminance is as bright as the
maximum the first loop computes. -/
theorem exists_pixel_at_max (rgb : List Nat) (w h : Nat) (hg : isGrid rgb w h)
    (hmax : 0 < specLmax rgb (w * h)) :
    ∃ k, k < w * h ∧ lumAt rgb (3 * k) = maxLoop rgb (w * h) 0 0 := by
  obtain ⟨k, hk, e⟩ := exists_sumAt_eq_maxSum rgb _ (maxSum_pos_of_specLmax rgb _ hmax)
  exact ⟨k, hk, by rw [lumAt_eq rgb hg.2, maxLoop_eq_maxSum rgb hg.2, e]⟩

/-- C18 (amended): for every grid with a positive maximum, `OptLevels` from 2
to `2^22`, a finite base height and a finite relief height `r > 0` (a
binary32 number) with `r * (OptLevels-1)` at most `2^127`, the height of each
pixel is at most the height of level `OptLevels-1`, the single-precision value
of `OptBaseHeight + OptReliefHeight*(OptLevels-1)/OptLevels`, which is at most
the single-precision sum `OptBaseHeight + OptReliefHeight`, in either
polarity. -/
theorem height_below_full_relief (o : Opts) (rgb : List Nat) (w h k : Nat) (b r : ℚ)
    (hg : isGrid rgb w h) (hk : k < w * h) (hl : 2 ≤ o.OptLevels) (hl2 : o.OptLevels ≤ 2 ^ 22)
    (hmax : 0 < specLmax rgb (w * h)) (hb : o.OptBaseHeight = F32.fin b)
    (hrel : o.OptReliefHeight = F32.fin r) (hrv : o.OptReliefHeight.valid) (hr : 0 < r)
    (hov : r * (o.OptLevels - 1) ≤ 2 ^ 127) :
    ∃ height, heightAt o rgb w h k = some height ∧
      height ≤ o.OptBaseHeight + o.OptReliefHeight * F32.ofInt (o.OptLevels - 1) /
        F32.ofInt o.OptLevels ∧
      o.OptBaseHeight + o.OptReliefHeight * F32.ofInt (o.OptLevels - 1) /
        F32.ofInt o.OptLevels ≤ o.OptBaseHeight + o.OptReliefHeight := by
  obtain ⟨raw, -, r0, r1, -, -, -, hht⟩ := pixel_facts o rgb w h k hg hk hl hl2 hmax
  refine ⟨_, hht, ?_, ?_⟩
  · apply heightOfLevel_mono o b r hb hrel (le_of_lt hr) (by omega) (by omega)
    · split <;> omega
    · rw [abs_le]
      constructor <;> split <;> omega
    · rw [abs_le]
      constructor <;> omega
  · obtain ⟨c, hc⟩ := exists_levels_pred o (by omega)
    obtain ⟨n, hn⟩ : ∃ n : Nat, o.OptLevels = (n : Int) :=
      ⟨o.OptLevels.toNat, (Int.toNat_of_nonneg (by omega)).symm⟩
    have hcn : c < n := by
      have : (c : Int) < n := by omega
      exact_mod_cast this
    have hn2 : n ≤ 2 ^ 24 := by
      have : (n : Int) ≤ 2 ^ 24 := by omega
      exact_mod_cast this
    have hrv' : F32.round r = F32.fin r := by
      rw [hrel] at hrv
      exact hrv
    have hov' : r * (c : ℚ) ≤ 2 ^ 127 := by
      have e : ((c : Nat) : ℚ) = (o.OptLevels : ℚ) - 1 := by
        have : ((c : Int) : ℚ) = ((o.OptLevels - 1 : Int) : ℚ) := by rw [hc]
        push_cast at this
        exact this
      rw [e]
      exact hov
    have ht := relief_term_le r (le_of_lt hr) hrv' c n hcn hn2 hov'
    rw [hc]
    conv_lhs => rw [hn]
    rw [hb, hrel]
    exact F32.add_fin_mono b ht

/-- C19 (amended): for every grid with a positive maximum and every
`OptLevels` from 2 to `2^22`, some pixel is as bright as the maximum, and every
such pixel gets the level `OptLevels-1` before the inversion.  With a finite
base height (a binary32 number) and a finite relief height `r ≥ 0`: with
`negative = false` its height is the height of level `OptLevels-1`, the
single-precision value of
`OptBaseHeight + OptReliefHeight*(OptLevels-1)/OptLevels`, and no pixel is
higher; with `negative = true` its height is exactly `OptBaseHeight` and no
pixel is lower. -/
theorem brightest_pixel (o : Opts) (rgb : List Nat) (w h : Nat) (b r : ℚ)
    (hg : isGrid rgb w h) (hl : 2 ≤ o.OptLevels) (hl2 : o.OptLevels ≤ 2 ^ 22)
    (hmax : 0 < specLmax rgb (w * h)) (hb : o.OptBaseHeight = F32.fin b)
    (hbv : o.OptBaseHeight.valid) (hrel : o.OptReliefHeight = F32.fin r) (hr : 0 ≤ r) :
    (∃ k, k < w * h ∧ lumAt rgb (3 * k) = maxLoop rgb (w * h) 0 0) ∧
    ∀ k, k < w * h → lumAt rgb (3 * k) = maxLoop rgb (w * h) 0 0 →
      rawLevel o (lumAt rgb (3 * k)) (maxLoop rgb (w * h) 0 0) = some (o.OptLevels - 1) ∧
      (o.OptNegative = false →
        heightAt o rgb w h k =
          some (o.OptBaseHeight + o.OptReliefHeight * F32.ofInt (o.OptLevels - 1) /
            F32.ofInt o.OptLevels) ∧
        ∀ j, j < w * h → ∃ height, heightAt o rgb w h j = some height ∧
          height ≤ o.OptBaseHeight + o.OptReliefHeight * F32.ofInt (o.OptLevels - 1) /
            F32.ofInt o.OptLevels) ∧
      (o.OptNegative = true →
        heightAt o rgb w h k = some o.OptBaseHeight ∧
        ∀ j, j < w * h → ∃ height, heightAt o rgb w h j = some height ∧
          o.OptBaseHeight ≤ height) := by
  refine ⟨exists_pixel_at_max rgb w h hg hmax, ?_⟩
  intro k hk hbright
  obtain ⟨raw, hraw, -, -, rmax, -, -, hht⟩ := pixel_facts o rgb w h k hg hk hl hl2 hmax
  have hraw' := rmax hbright
  subst hraw'
  refine ⟨hraw, ?_, ?_⟩
  · intro hneg
    constructor
    · rw [hht]
      simp only [hneg]
      rfl
    · intro j hj
      obtain ⟨rj, -, j0, j1, -, -, -, hj2⟩ := pixel_facts o rgb w h j hg hj hl hl2 hmax
      refine ⟨_, hj2, ?_⟩
      simp only [hneg]
      apply heightOfLevel_mono o b r hb hrel hr (by omega) (by omega) j1
      · rw [abs_le]
        constructor <;> omega
      · rw [abs_le]
        constructor <;> omega
  · intro hneg
    have hzero := heightOfLevel_zero o r hbv hrel (by omega) (by omega)
    constructor
    · rw [hht]
      simp only [hneg, if_true]
      rw [show o.OptLevels - (o.OptLevels - 1) - 1 = 0 by ring, hzero]
    · intro j hj
      obtain ⟨rj, -, j0, j1, -, -, -, hj2⟩ := pixel_facts o rgb w h j hg hj hl hl2 hmax
      refine ⟨_, hj2, ?_⟩
      simp only [hneg, if_true]
      conv_lhs => rw [← hzero]
      apply heightOfLevel_mono o b r hb hrel hr (by omega) (by omega) (by omega)
      · norm_num
      · rw [abs_le]
        constructor <;> omega

/-- C2 (amended): with `negative = true`, `OptLevels` from 2 to `2^22`, a grid
with a positive maximum, a base height that is a `float` (a binary32 number,
an infinity or a NaN) and a finite relief height, a pixel as bright as the
maximum gets level 0 and height exactly `OptBaseHeight`, and a pixel of
luminance 0 gets level `OptLevels-1` and the height of that level, the
single-precision value of `OptBaseHeight + OptReliefHeight*(OptLevels-1)/OptLevels`. -/
theorem negative_extremes (o : Opts) (rgb : List Nat) (w h k : Nat) (r : ℚ)
    (hg : isGrid rgb w h) (hk : k < w * h) (hneg : o.OptNegative = true) (hl : 2 ≤ o.OptLevels)
    (hl2 : o.OptLevels ≤ 2 ^ 22) (hmax : 0 < specLmax rgb (w * h))
    (hbv : o.OptBaseHeight.valid) (hrel : o.OptReliefHeight = F32.fin r) :
    (lumAt rgb (3 * k) = maxLoop rgb (w * h) 0 0 →
      pixelLevel o (lumAt rgb (3 * k)) (maxLoop rgb (w * h) 0 0) = some 0 ∧
      heightAt o rgb w h k = some o.OptBaseHeight) ∧
    (lumAt rgb (3 * k) = 0 →
      pixelLevel o (lumAt rgb (3 * k)) (maxLoop rgb (w * h) 0 0) = some (o.OptLevels - 1) ∧
      heightAt o rgb w h k =
        some (o.OptBaseHeight + o.OptReliefHeight * F32.ofInt (o.OptLevels - 1) /
          F32.ofInt o.OptLevels)) := by
  obtain ⟨raw, -, -, -, rmax, rzero, hlev, hht⟩ := pixel_facts o rgb w h k hg hk hl hl2 hmax
  simp only [hneg, if_true] at hlev hht
  constructor
  · intro he
    have e : o.OptLevels - raw - 1 = 0 := by rw [rmax he]; ring
    rw [e] at hlev hht
    exact ⟨hlev, by rw [hht, heightOfLevel_zero o r hbv hrel (by omega) (by omega)]⟩
  · intro he
    have e : o.OptLevels - raw - 1 = o.OptLevels - 1 := by rw [rzero he]; ring
    rw [e] at hlev hht
    exact ⟨hlev, hht⟩

/-- C4 (amended): for a fixed maximum, the luminance of a channel sum
`smax > 0`, `OptLevels` from 2 to `2^30`, a finite base height and a finite
relief height `r > 0`, and the luminances of two channel sums
`s1 ≤ s2 ≤ smax`, both heights are defined; with `negative = true` the height
of the first is at least the height of the second, and with `negative = false`
it is at most the height of the second. -/
theorem height_monotone (o : Opts) (b r : ℚ) (s1 s2 smax : Nat)
    (hb : o.OptBaseHeight = F32.fin b) (hrel : o.OptReliefHeight = F32.fin r) (hr : 0 < r)
    (hl : 2 ≤ o.OptLevels) (hl2 : o.OptLevels ≤ 2 ^ 30) (hmax : 0 < smax) (hM : smax ≤ 765)
    (h12 : s1 ≤ s2) (h2 : s2 ≤ smax) :
    ∃ height1 height2, pixelHeight o (lumOfSum s1) (lumOfSum smax) = some height1 ∧
      pixelHeight o (lumOfSum s2) (lumOfSum smax) = some height2 ∧
      (o.OptNegative = true → height2 ≤ height1) ∧
      (o.OptNegative = false → height1 ≤ height2) := by
  obtain ⟨c, hc⟩ := exists_levels_pred o (by omega)
  have hci : (c : Int) ≤ 2 ^ 30 := by omega
  have hc2 : c ≤ 2 ^ 30 := by exact_mod_cast hci
  have e1 := pixelHeight_eq o c s1 smax hc hc2 hmax hM (le_trans h12 h2)
  have e2 := pixelHeight_eq o c s2 smax hc hc2 hmax hM h2
  obtain ⟨a0, a1⟩ := levelF32_int c s1 smax hmax hM (le_trans h12 h2) hc2
  obtain ⟨b0, b1⟩ := levelF32_int c s2 smax hmax hM h2 hc2
  have hraw : cRound (quotF32 c s1 smax) ≤ cRound (quotF32 c s2 smax) :=
    cRound_mono (quotF32_mono c smax hmax h12)
  rw [lumOfSum_eq s1 (by omega), lumOfSum_eq s2 (by omega), lumOfSum_eq smax hM]
  refine ⟨_, _, e1, e2, ?_, ?_⟩
  · intro hneg
    simp only [hneg, if_true]
    apply heightOfLevel_mono o b r hb hrel (le_of_lt hr) (by omega) (by omega) (by omega)
    · rw [abs_le]
      constructor <;> omega
    · rw [abs_le]
      constructor <;> omega
  · intro hneg
    simp only [hneg]
    apply heightOfLevel_mono o b r hb hrel (le_of_lt hr) (by omega) (by omega)
    · simpa using hraw
    · rw [abs_le]
      constructor <;> simp <;> omega
    · rw [abs_le]
      constructor <;> simp <;> omega

/-! ## The code against the reference of the spec -/

/-- C11 (amended): for every grid with a positive maximum, every pixel `k` and
every `OptLevels` from 2 to 1024, the level `raw` the code computes before the
inversion is the reference `round((levels-1)*L/Lmax)` (ties up) or one less,
and it is the reference whenever `(levels-1)*L/Lmax` is not half-way between
two integers; the height passed to `boxToTriangles` is the single-precision
value of `OptBaseHeight + OptReliefHeight*level/OptLevels` for the inverted
level, each operation rounded, which off the ties is the single-precision
value of the reference formula at the reference level. -/
theorem height_vs_reference (o : Opts) (rgb : List Nat) (w h k : Nat) (hg : isGrid rgb w h)
    (hk : k < w * h) (hl : 2 ≤ o.OptLevels) (hl2 : o.OptLevels ≤ 1024)
    (hmax : 0 < specLmax rgb (w * h)) :
    ∃ raw : Int, rawLevel o (lumAt rgb (3 * k)) (maxLoop rgb (w * h) 0 0) = some raw ∧
      (raw = specRawLevel o (specLuminance rgb k) (specLmax rgb (w * h)) ∨
        raw = specRawLevel o (specLuminance rgb k) (specLmax rgb (w * h)) - 1) ∧
      (¬ isTie ((o.OptLevels - 1) * specLuminance rgb k / specLmax rgb (w * h)) →
        raw = specRawLevel o (specLuminance rgb k) (specLmax rgb (w * h))) ∧
      heightAt o rgb w h k = some (o.OptBaseHeight + o.OptReliefHeight *
        F32.ofInt (if o.OptNegative then o.OptLevels - raw - 1 else raw) /
          F32.ofInt o.OptLevels) ∧
      (¬ isTie ((o.OptLevels - 1) * specLuminance rgb k / specLmax rgb (w * h)) →
        heightAt o rgb w h k = some (o.OptBaseHeight + o.OptReliefHeight *
          F32.ofInt (specLevel o (specLuminance rgb k) (specLmax rgb (w * h))) /
            F32.ofInt o.OptLevels)) := by
  -- the channel sums and the number of steps as natural numbers
  obtain ⟨c, hc⟩ := exists_levels_pred o (by omega)
  have hc' : ((o.OptLevels - 1 : Int) : ℚ) = (c : ℚ) := by rw [hc]; norm_cast
  have hcq : (o.OptLevels : ℚ) - 1 = (c : ℚ) := by rw [← hc']; push_cast; ring
  have hcle : c ≤ 1023 := by omega
  have hMle := maxSum_le rgb hg.2 (w * h)
  have hsM := sumAt_le_maxSum rgb (w * h) k hk
  have hMpos := maxSum_pos_of_specLmax rgb _ hmax
  have hM : (0 : ℚ) < (maxSum rgb (w * h) : ℚ) := by exact_mod_cast hMpos
  have hsmall : 16 * c * maxSum rgb (w * h) < 2 ^ 24 := by
    have : c * maxSum rgb (w * h) ≤ 1023 * 765 := Nat.mul_le_mul hcle hMle
    rw [Nat.mul_assoc]
    omega
  obtain ⟨hnt, htie⟩ := roundF32_vs_spec c (sumAt rgb (3 * k)) (maxSum rgb (w * h)) hMpos hMle
    hsM hsmall
  -- the exact quotient
  have hx : (o.OptLevels - 1) * specLuminance rgb k / specLmax rgb (w * h) =
      (c : ℚ) * (sumAt rgb (3 * k) : ℚ) / (maxSum rgb (w * h) : ℚ) := by
    rw [specLuminance_eq_sumAt, specLmax_eq_maxSum, hcq]
    field_simp
  have hspec : specRawLevel o (specLuminance rgb k) (specLmax rgb (w * h)) =
      specRound ((c : ℚ) * (sumAt rgb (3 * k) : ℚ) / (maxSum rgb (w * h) : ℚ)) := by
    rw [specRawLevel, hx]
  rw [hx, hspec]
  have hdvd : 2 * maxSum rgb (w * h) ∣ 2 * c * sumAt rgb (3 * k) + maxSum rgb (w * h) →
      isTie ((c : ℚ) * (sumAt rgb (3 * k) : ℚ) / (maxSum rgb (w * h) : ℚ)) := by
    rintro ⟨j, hj⟩
    refine ⟨(j : Int) - 1, ?_⟩
    have hj' : (2 : ℚ) * c * (sumAt rgb (3 * k) : ℚ) + (maxSum rgb (w * h) : ℚ) =
        2 * (maxSum rgb (w * h) : ℚ) * j := by exact_mod_cast hj
    rw [div_eq_iff (ne_of_gt hM)]
    push_cast
    linarith
  have hraw := rawLevel_pixel o rgb w h k hg.2 hk c hc (by omega) hMpos
  obtain ⟨-, hht⟩ := heightAt_pixel o rgb w h k hg.2 hk c hc (by omega) hMpos
  have hoff : ¬ isTie ((c : ℚ) * (sumAt rgb (3 * k) : ℚ) / (maxSum rgb (w * h) : ℚ)) →
      cRound (quotF32 c (sumAt rgb (3 * k)) (maxSum rgb (w * h))) =
      specRound ((c : ℚ) * (sumAt rgb (3 * k) : ℚ) / (maxSum rgb (w * h) : ℚ)) :=
    fun h => hnt (fun hd => h (hdvd hd))
  refine ⟨_, hraw, ?_, hoff, hht, ?_⟩
  · by_cases hd : 2 * maxSum rgb (w * h) ∣ 2 * c * sumAt rgb (3 * k) + maxSum rgb (w * h)
    · exact htie hd
    · exact Or.inl (hnt hd)
  · intro h
    rw [hht, hoff h, heightOfLevel, specLevel, hspec]
    congr 5
    split <;> first | rfl | ring1

/-! ## Lemmas on the box mesh -/

theorem facets_boxToTriangles (x y xsize ysize zheight : F32) :
    facets (boxToTriangles x y xsize ysize zheight) =
      cornerTris.map (Tri.map (corner x y xsize ysize zheight)) := by
  rfl

theorem closedSurface_cornerTris : closedSurface cornerTris := by decide

theorem corner_injective (x y xsize ysize zheight : F32) (hx : x + xsize ≠ x)
    (hy : y + ysize ≠ y) (hz : zheight ≠ 0) :
    Function.Injective (corner x y xsize ysize zheight) := by
  rintro ⟨a1, a2, a3⟩ ⟨b1, b2, b3⟩ h
  simp only [corner, Vec3.mk.injEq] at h
  obtain ⟨h1, h2, h3⟩ := h
  have e1 : a1 = b1 := by
    cases a1 <;> cases b1
    · rfl
    · exact absurd h1.symm hx
    · exact absurd h1 hx
    · rfl
  have e2 : a2 = b2 := by
    cases a2 <;> cases b2
    · rfl
    · exact absurd h2.symm hy
    · exact absurd h2 hy
    · rfl
  have e3 : a3 = b3 := by
    cases a3 <;> cases b3
    · rfl
    · exact absurd h3.symm hz
    · exact absurd h3 hz
    · rfl
  rw [e1, e2, e3]

theorem Tri.map_injective {α β : Type} {f : α → β} (hf : Function.Injective f) :
    Function.Injective (Tri.map f) := by
  rintro ⟨a1, a2, a3⟩ ⟨b1, b2, b3⟩ h
  simp only [Tri.map, Tri.mk.injEq] at h
  obtain ⟨h1, h2, h3⟩ := h
  rw [hf h1, hf h2, hf h3]

theorem Tri.mem_edges_map {α β : Type} {f : α → β} (hf : Function.Injective f) (a b : α)
    (s : Tri α) : (f a, f b) ∈ (Tri.map f s).edges ↔ (a, b) ∈ s.edges := by
  simp only [Tri.edges, Tri.map, List.mem_cons, Prod.mk.injEq, List.mem_singleton,
    List.not_mem_nil, or_false, hf.eq_iff]

theorem closedSurface_map {α β : Type} [DecidableEq α] [DecidableEq β] {f : α → β}
    (hf : Function.Injective f) {T : List (Tri α)} (hT : closedSurface T) :
    closedSurface (T.map (Tri.map f)) := by
  intro t' ht' e' he'
  obtain ⟨t, ht, rfl⟩ := List.mem_map.1 ht'
  have hedge : ∃ a b, (a, b) ∈ t.edges ∧ e' = (f a, f b) := by
    simp only [Tri.edges, Tri.map, List.mem_cons, List.mem_singleton, List.not_mem_nil,
      or_false] at he'
    rcases he' with h | h | h
    · exact ⟨t.v1, t.v2, by simp [Tri.edges], h⟩
    · exact ⟨t.v2, t.v3, by simp [Tri.edges], h⟩
    · exact ⟨t.v3, t.v1, by simp [Tri.edges], h⟩
  obtain ⟨a, b, hab, rfl⟩ := hedge
  obtain ⟨h1, s, hs, hne, h2⟩ := hT t ht (a, b) hab
  have key : ∀ (c d : α), (T.map (Tri.map f)).filter (fun s => decide ((f c, f d) ∈ s.edges)) =
      (T.filter (fun s => decide ((c, d) ∈ s.edges))).map (Tri.map f) := by
    intro c d
    rw [List.filter_map]
    congr 1
    apply List.filter_congr
    intro s _
    simp only [Function.comp, Tri.mem_edges_map hf]
  refine ⟨?_, Tri.map f s, List.mem_map_of_mem _ hs, ?_, ?_⟩
  · rw [key, h1]; rfl
  · exact fun h => hne (Tri.map_injective hf h)
  · simp only [Prod.swap] at h2 ⊢
    rw [key, h2]; rfl

/-! ## The box mesh -/

/-- The twelve triangles of a box, read back from the output of
`boxToTriangles`. -/
theorem facets_boxToTriangles_eq (x y xsize ysize zheight : F32) :
    facets (boxToTriangles x y xsize ysize zheight) =
      [ ⟨⟨x, y, 0⟩, ⟨x, y + ysize, 0⟩, ⟨x + xsize, y, 0⟩⟩,
        ⟨⟨x + xsize, y, 0⟩, ⟨x, y + ysize, 0⟩, ⟨x + xsize, y + ysize, 0⟩⟩,
        ⟨⟨x, y, zheight⟩, ⟨x + xsize, y, zheight⟩, ⟨x, y + ysize, zheight⟩⟩,
        ⟨⟨x + xsize, y, zheight⟩, ⟨x + xsize, y + ysize, zheight⟩, ⟨x, y + ysize, zheight⟩⟩,
        ⟨⟨x, y, 0⟩, ⟨x, y, zheight⟩, ⟨x, y + ysize, 0⟩⟩,
        ⟨⟨x, y + ysize, 0⟩, ⟨x, y, zheight⟩, ⟨x, y + ysize, zheight⟩⟩,
        ⟨⟨x + xsize, y, 0⟩, ⟨x + xsize, y + ysize, 0⟩, ⟨x + xsize, y, zheight⟩⟩,
        ⟨⟨x + xsize, y + ysize, 0⟩, ⟨x + xsize, y + ysize, zheight⟩, ⟨x + xsize, y, zheight⟩⟩,
        ⟨⟨x, y, 0⟩, ⟨x + xsize, y, zheight⟩, ⟨x, y, zheight⟩⟩,
        ⟨⟨x, y, 0⟩, ⟨x + xsize, y, 0⟩, ⟨x + xsize, y, zheight⟩⟩,
        ⟨⟨x, y + ysize, 0⟩, ⟨x, y + ysize, zheight⟩, ⟨x + xsize, y + ysize, zheight⟩⟩,
        ⟨⟨x, y + ysize, 0⟩, ⟨x + xsize, y + ysize, zheight⟩, ⟨x + xsize, y + ysize, 0⟩⟩ ] := by
  rfl

/-- C7: for every `x`, `y`, `xsize`, `ysize` and `zheight` (zero and negative
heights included) the output of `boxToTriangles` is exactly twelve
`emitTriangle` blocks, each with exactly three `vertex` lines (its three
vertices, in order), and the blocks come two for each face, in the order
bottom, top, left, right, front, back: all three vertices of block `k` lie in
the plane of face `k / 2`. -/
theorem boxToTriangles_twelve (x y xsize ysize zheight : F32) :
    (facets (boxToTriangles x y xsize ysize zheight)).length = 12 ∧
    boxToTriangles x y xsize ysize zheight =
      (facets (boxToTriangles x y xsize ysize zheight)).flatMap emitTri ∧
    (∀ t ∈ facets (boxToTriangles x y xsize ysize zheight),
      vertexLines (emitTri t) = t.vertices ∧ t.vertices.length = 3) ∧
    (∀ k, k < 12 → ∃ t, (facets (boxToTriangles x y xsize ysize zheight))[k]? = some t ∧
      ∀ v ∈ t.vertices, onFace x y xsize ysize zheight (k / 2) v) := by
  refine ⟨rfl, rfl, ?_, ?_⟩
  · intro t _
    exact ⟨rfl, rfl⟩
  · intro k hk
    rw [facets_boxToTriangles_eq]
    interval_cases k <;> simp [Tri.vertices, onFace]

/-- C5 (amended): for finite `x`, `y`, `xsize`, `ysize` and `zheight > 0` such
that the single-precision sums `rx = x+xsize` and `ry = y+ysize` are finite and
greater than `x` and `y`, `boxToTriangles` emits twelve triangles with finite
vertices, each of them wound counter-clockwise seen from outside: for triangle
`k` (of face `k / 2`, in the order bottom, top, left, right, front, back) the
vector `(v2 - v1) × (v3 - v1)` is a strictly positive multiple of the outward
normal of that face, `-Z`, `+Z`, `-X`, `+X`, `-Y` and `+Y` respectively, and
the three vertices lie in the plane of that face. -/
theorem boxToTriangles_winding (x y xsize ysize zheight rx ry : ℚ)
    (hrx : F32.fin x + F32.fin xsize = F32.fin rx)
    (hry : F32.fin y + F32.fin ysize = F32.fin ry)
    (hx : x < rx) (hy : y < ry) (hz : 0 < zheight) :
    (facets (boxToTriangles (F32.fin x) (F32.fin y) (F32.fin xsize) (F32.fin ysize)
      (F32.fin zheight))).length = 12 ∧
    ∀ k, k < 12 → ∃ t, (facets (boxToTriangles (F32.fin x) (F32.fin y) (F32.fin xsize)
        (F32.fin ysize) (F32.fin zheight)))[k]? = some t ∧
      (∀ v ∈ t.vertices, onFace (F32.fin x) (F32.fin y) (F32.fin xsize) (F32.fin ysize)
        (F32.fin zheight) (k / 2) v ∧ v.finite) ∧
      ∃ c : ℚ, 0 < c ∧ windingNormal t = RVec.scale c (outwardNormal (k / 2)) := by
  have hxy : 0 < (rx - x) * (ry - y) := mul_pos (by linarith) (by linarith)
  have hyz : 0 < (ry - y) * zheight := mul_pos (by linarith) hz
  have hxz : 0 < (rx - x) * zheight := mul_pos (by linarith) hz
  refine ⟨rfl, ?_⟩
  intro k hk
  rw [facets_boxToTriangles_eq, hrx, hry, F32.zero_def]
  interval_cases k
  all_goals simp only [List.getElem?_cons_zero, List.getElem?_cons_succ, Option.some.injEq,
    exists_eq_left']
  all_goals refine ⟨by simp [Tri.vertices, onFace, Vec3.finite, hrx, hry, F32.zero_def], ?_⟩
  all_goals first
    | (refine ⟨(rx - x) * (ry - y), hxy, ?_⟩
       simp only [windingNormal, RVec.cross, RVec.sub, RVec.scale, outwardNormal, RVec.mk.injEq,
         Vec3.toRVec, F32.toRat]
       refine ⟨?_, ?_, ?_⟩ <;> ring1)
    | (refine ⟨(ry - y) * zheight, hyz, ?_⟩
       simp only [windingNormal, RVec.cross, RVec.sub, RVec.scale, outwardNormal, RVec.mk.injEq,
         Vec3.toRVec, F32.toRat]
       refine ⟨?_, ?_, ?_⟩ <;> ring1)
    | (refine ⟨(rx - x) * zheight, hxz, ?_⟩
       simp only [windingNormal, RVec.cross, RVec.sub, RVec.scale, outwardNormal, RVec.mk.injEq,
         Vec3.toRVec, F32.toRat]
       refine ⟨?_, ?_, ?_⟩ <;> ring1)

/-- C6 (amended): for every `x`, `y`, `xsize`, `ysize` and `zheight` such that
the single-precision sums `x+xsize` and `y+ysize` differ from `x` and `y` and
`zheight` is not 0, `boxToTriangles` emits twelve triangles that form a closed
surface: every vertex is one of the eight corners of the box from `x` to
`x+xsize`, from `y` to `y+ysize` and from 0 to `zheight`, the eight corners
are distinct and each is a vertex of some triangle, and every directed edge of
a triangle occurs in that triangle only while its reverse occurs in exactly
one triangle, another one. -/
theorem boxToTriangles_closed (x y xsize ysize zheight : F32) (hx : x + xsize ≠ x)
    (hy : y + ysize ≠ y) (hz : zheight ≠ 0) :
    (facets (boxToTriangles x y xsize ysize zheight)).length = 12 ∧
    (∀ t ∈ facets (boxToTriangles x y xsize ysize zheight),
      ∀ v ∈ t.vertices, v ∈ corners x y xsize ysize zheight) ∧
    (corners x y xsize ysize zheight).length = 8 ∧
    (corners x y xsize ysize zheight).Nodup ∧
    (∀ c ∈ corners x y xsize ysize zheight,
      ∃ t ∈ facets (boxToTriangles x y xsize ysize zheight), c ∈ t.vertices) ∧
    closedSurface (facets (boxToTriangles x y xsize ysize zheight)) := by
  have hinj := corner_injective x y xsize ysize zheight hx hy hz
  refine ⟨rfl, ?_, rfl, ?_, ?_, ?_⟩
  · rw [facets_boxToTriangles]
    intro t ht v hv
    obtain ⟨s, hs, rfl⟩ := List.mem_map.1 ht
    have hv' : ∃ c ∈ s.vertices, corner x y xsize ysize zheight c = v := by
      simpa [Tri.vertices, Tri.map, eq_comm] using hv
    obtain ⟨c, -, rfl⟩ := hv'
    apply List.mem_map_of_mem
    obtain ⟨c1, c2, c3⟩ := c
    cases c1 <;> cases c2 <;> cases c3 <;> simp
  · exact List.Nodup.map hinj (by decide)
  · intro c hc
    obtain ⟨cc, -, rfl⟩ := List.mem_map.1 hc
    have hcov : ∃ s ∈ cornerTris, cc ∈ s.vertices := by
      obtain ⟨c1, c2, c3⟩ := cc
      cases c1 <;> cases c2 <;> cases c3 <;> decide
    obtain ⟨s, hs, hcs⟩ := hcov
    refine ⟨Tri.map (corner x y xsize ysize zheight) s, ?_, ?_⟩
    · rw [facets_boxToTriangles]
      exact List.mem_map_of_mem _ hs
    · simp only [Tri.vertices, Tri.map, List.mem_cons, List.mem_singleton, List.not_mem_nil,
        or_false] at hcs ⊢
      rcases hcs with h | h | h
      · exact Or.inl (congrArg _ h)
      · exact Or.inr (Or.inl (congrArg _ h))
      · exact Or.inr (Or.inr (congrArg _ h))
  · rw [facets_boxToTriangles]
    exact closedSurface_map hinj closedSurface_cornerTris

/-! ## Structure of the output -/

theorem rowLoop_eq (o : Opts) (rgb : List Nat) (max : F32) (y n : Nat) :
    ∀ (x p : Nat), (∀ i, i < n → ∃ ht, pixelHeight o (lumAt rgb (p + 3 * i)) max = some ht) →
    rowLoop o rgb max y n x p =
      some ((List.range n).flatMap (fun i =>
        boxToTriangles (F32.ofInt ((x + i : Nat) : Int)) (F32.ofInt (y : Int)) 1 1
          ((pixelHeight o (lumAt rgb (p + 3 * i)) max).getD 0)), p + 3 * n) := by
  induction n with
  | zero => intro x p _; rfl
  | succ n ih =>
    intro x p hdef
    obtain ⟨ht, hht⟩ := hdef 0 (by omega)
    have hrest : ∀ i, i < n →
        ∃ ht, pixelHeight o (lumAt rgb (p + 3 + 3 * i)) max = some ht := by
      intro i hi
      obtain ⟨ht', h'⟩ := hdef (i + 1) (by omega)
      exact ⟨ht', by rw [← h']; congr 2; ring⟩
    simp only [Nat.mul_zero, Nat.add_zero] at hht
    simp only [rowLoop, hht, ih (x + 1) (p + 3) hrest]
    rw [List.range_succ_eq_map, List.flatMap_cons, List.flatMap_map]
    simp only [Nat.mul_zero, Nat.add_zero, hht, Option.getD_some]
    have hB : ((List.range n).flatMap fun i =>
        boxToTriangles (F32.ofInt ((x + 1 + i : Nat) : Int)) (F32.ofInt (y : Int)) 1 1
          ((pixelHeight o (lumAt rgb (p + 3 + 3 * i)) max).getD 0)) =
        (List.range n).flatMap fun a =>
          boxToTriangles (F32.ofInt ((x + Nat.succ a : Nat) : Int)) (F32.ofInt (y : Int)) 1 1
            ((pixelHeight o (lumAt rgb (p + 3 * Nat.succ a)) max).getD 0) := by
      apply List.flatMap_congr
      intro i _
      have e1 : x + 1 + i = x + Nat.succ i := by omega
      have e2 : p + 3 + 3 * i = p + 3 * Nat.succ i := by omega
      rw [e1, e2]
    rw [hB, show p + 3 + 3 * n = p + 3 * (n + 1) by ring]

theorem emitLoop_eq (o : Opts) (rgb : List Nat) (max : F32) (w n : Nat) :
    ∀ (y p : Nat),
    (∀ k, k < w * n → ∃ ht, pixelHeight o (lumAt rgb (p + 3 * k)) max = some ht) →
    emitLoop o rgb max w n y p =
      some ((List.range (w * n)).flatMap (fun k =>
        boxToTriangles (F32.ofInt ((k % w : Nat) : Int)) (F32.ofInt ((y + k / w : Nat) : Int)) 1 1
          ((pixelHeight o (lumAt rgb (p + 3 * k)) max).getD 0))) := by
  induction n with
  | zero => intro y p _; rfl
  | succ n ih =>
    intro y p hdef
    have hrow : ∀ i, i < w → ∃ ht, pixelHeight o (lumAt rgb (p + 3 * i)) max = some ht := by
      intro i hi
      exact hdef i (by nlinarith)
    have hrest : ∀ k, k < w * n →
        ∃ ht, pixelHeight o (lumAt rgb (p + 3 * w + 3 * k)) max = some ht := by
      intro k hk
      obtain ⟨ht, h'⟩ := hdef (w + k) (by nlinarith)
      exact ⟨ht, by rw [← h']; congr 2; ring⟩
    simp only [emitLoop, rowLoop_eq o rgb max y w 0 p hrow, ih (y + 1) (p + 3 * w) hrest]
    rw [show w * (n + 1) = w + w * n by ring, List.range_add, List.flatMap_append,
      List.flatMap_map]
    congr 2
    · apply List.flatMap_congr
      intro i hi
      have hi' : i < w := List.mem_range.1 hi
      rw [Nat.mod_eq_of_lt hi', Nat.div_eq_of_lt hi', Nat.zero_add, Nat.add_zero]
    · apply List.flatMap_congr
      intro k hk
      have hk' : k < w * n := List.mem_range.1 hk
      have hw : 0 < w := by
        rcases Nat.eq_zero_or_pos w with h0 | h0
        · rw [h0, Nat.zero_mul] at hk'
          exact absurd hk' (Nat.not_lt_zero _)
        · exact h0
      have e1 : (w + k) % w = k % w := by rw [Nat.add_mod_left]
      have e2 : (w + k) / w = k / w + 1 := by
        rw [Nat.add_div_left k hw]
      have e3 : p + 3 * w + 3 * k = p + 3 * (w + k) := by ring
      have e4 : y + 1 + k / w = y + (k / w + 1) := by ring
      simp only [Function.comp, e1, e2, e3, e4]

/-- The output of `pngtostl` after a successful `PngLoad`, when `w*h` is an
`int` and every pixel has a height: the header, one box per pixel in row-major
order, the trailer. -/
theorem stlOfRgb_eq (o : Opts) (rgb : List Nat) (w h : Nat) (hwh : w * h < 2 ^ 31)
    (hdef : ∀ k, k < w * h → ∃ ht, heightAt o rgb w h k = some ht) :
    stlOfRgb o rgb w h = some (Out.text "solid PngToStl\n" ::
      (List.range (w * h)).flatMap (fun k =>
        boxToTriangles (F32.ofInt ((k % w : Nat) : Int)) (F32.ofInt ((k / w : Nat) : Int)) 1 1
          ((heightAt o rgb w h k).getD 0)) ++ [Out.text "endsolidPngToStl\n"]) := by
  have hdef' : ∀ k, k < w * h →
      ∃ ht, pixelHeight o (lumAt rgb (0 + 3 * k)) (maxLoop rgb (w * h) 0 0) = some ht := by
    intro k hk
    obtain ⟨ht, hht⟩ := hdef k hk
    exact ⟨ht, by rw [Nat.zero_add]; exact hht⟩
  have hint : int32 ((w : Int) * (h : Int)) = some ((w : Int) * (h : Int)) := by
    have h1 : ((w * h : Nat) : Int) < 2 ^ 31 := by exact_mod_cast hwh
    have h2 : (0 : Int) ≤ ((w * h : Nat) : Int) := by positivity
    push_cast at h1 h2
    exact int32_of_range _ (by omega) (by omega)
  simp only [stlOfRgb, hint, emitLoop_eq o rgb _ w h 0 0 hdef', Nat.zero_add, heightAt]

/-- The seven lines of a facet: `emitTriangle` writes the `facet normal` line
with commas, then `outer loop`, the three vertices in the order given,
`endloop` and `endfacet`. -/
theorem emitTriangle_lines (x1 y1 z1 x2 y2 z2 x3 y3 z3 : F32) :
    emitTriangle x1 y1 z1 x2 y2 z2 x3 y3 z3 =
      [Out.text "facet normal 0,0,0\n", Out.text "\touter loop\n",
       Out.vertex ⟨x1, y1, z1⟩, Out.vertex ⟨x2, y2, z2⟩, Out.vertex ⟨x3, y3, z3⟩,
       Out.text "\tendloop\n", Out.text "endfacet\n"] :=
  rfl

theorem F32.ofInt_zero : F32.ofInt 0 = 0 := by
  have := F32.ofInt_eq 0 (by norm_num)
  simpa using this

theorem F32.zero_add_one : (0 : F32) + 1 = 1 := by
  show F32.fin 0 + F32.fin 1 = F32.fin 1
  rw [F32.fin_add_fin, zero_add]
  exact F32.round_val _ _ fl32_one (by norm_num)

/-- C13 (code defect): on the 1x1 white image with the default options the
output starts with the header `solid PngToStl`, followed by a facet whose
first line is `facet normal 0,0,0` (with commas), not `facet normal 0 0 0`,
and ends with the line `endsolidPngToStl` (no blank), not
`endsolid PngToStl`; the other lines of a facet are as the STL format has
them. -/
theorem stl_text_not_stl :
    (∃ body, stlOfRgb defaultOpts [255, 255, 255] 1 1 =
        some (Out.text "solid PngToStl\n" :: body ++ [Out.text "endsolidPngToStl\n"]) ∧
      body.take 7 = emitTriangle 0 0 0 0 (0 + 1) 0 (0 + 1) 0 0) ∧
    (emitTriangle 0 0 0 0 (0 + 1) 0 (0 + 1) 0 0).head? = some (Out.text "facet normal 0,0,0\n") ∧
    Out.text "facet normal 0,0,0\n" ≠ Out.text "facet normal 0 0 0\n" ∧
    Out.text "endsolidPngToStl\n" ≠ Out.text "endsolid PngToStl\n" := by
  have hg : isGrid [255, 255, 255] 1 1 := ⟨by decide, by decide⟩
  have hdef : ∀ k, k < 1 * 1 → ∃ ht, heightAt defaultOpts [255, 255, 255] 1 1 k = some ht :=
    fun k hk => heightAt_defined defaultOpts _ 1 1 k hg.2 hk (by decide)
      (by norm_num [defaultOpts]) (by decide)
  refine ⟨⟨_, stlOfRgb_eq defaultOpts [255, 255, 255] 1 1 (by norm_num) hdef, ?_⟩, rfl,
    by decide, by decide⟩
  show List.take 7 (boxToTriangles (F32.ofInt 0) (F32.ofInt 0) 1 1 _ ++ []) = _
  rw [F32.ofInt_zero]
  rfl

/-! ## The buffer of `PngLoad` -/

/-- C8 (refuted as stated): on an empty file `PngLoad` returns `NULL`, and
`pngtostl` exits with status 1 after one `printf` on the standard output, the
line "Error parsing the PNG file.": the standard output is not empty. -/
theorem parse_error_writes_stdout :
    PngLoad emptyFileEnv.lib [] = Loaded.null ∧
    pngtostl emptyFileEnv defaultOpts "image.png" =
      some { stdout := [Out.text "Error parsing the PNG file.\n"], stderr := [], status := 1 } ∧
    ¬ ∃ p, pngtostl emptyFileEnv defaultOpts "image.png" = some p ∧ p.stdout = [] := by
  refine ⟨rfl, rfl, ?_⟩
  rintro ⟨p, hp, hout⟩
  have h : pngtostl emptyFileEnv defaultOpts "image.png" =
      some { stdout := [Out.text "Error parsing the PNG file.\n"], stderr := [], status := 1 } := rfl
  rw [h] at hp
  cases hp
  cases hout

/-- C8 (amended): whenever the file opens and `PngLoad` returns `NULL`,
`pngtostl` exits with status 1 and no mesh is written: the standard output is
the single diagnostic line "Error parsing the PNG file.", with no header line,
no trailer line, no `vertex` line and no facet. -/
theorem parse_error_no_mesh (env : Env) (o : Opts) (filename : String) (fp : List Nat)
    (hopen : env.fopen filename = some fp) (hload : PngLoad env.lib fp = Loaded.null) :
    ∃ p, pngtostl env o filename = some p ∧ p.status = 1 ∧ p.status ≠ 0 ∧
      p.stdout = [Out.text "Error parsing the PNG file.\n"] ∧
      Out.text "solid PngToStl\n" ∉ p.stdout ∧ Out.text "endsolidPngToStl\n" ∉ p.stdout ∧
      vertexLines p.stdout = [] ∧ facets p.stdout = [] := by
  refine ⟨{ stdout := [Out.text "Error parsing the PNG file.\n"], stderr := [], status := 1 },
    ?_, rfl, by decide, rfl, by decide, by decide, rfl, rfl⟩
  simp only [pngtostl, hopen, hload]

/-- C8 (amended) at a concrete input: an empty file. -/
theorem parse_error_no_mesh_witness :
    ∃ p, pngtostl emptyFileEnv defaultOpts "image.png" = some p ∧ p.status = 1 ∧ p.status ≠ 0 ∧
      p.stdout = [Out.text "Error parsing the PNG file.\n"] ∧
      Out.text "solid PngToStl\n" ∉ p.stdout ∧ Out.text "endsolidPngToStl\n" ∉ p.stdout ∧
      vertexLines p.stdout = [] ∧ facets p.stdout = [] :=
  parse_error_no_mesh emptyFileEnv defaultOpts "image.png" [] rfl rfl

/-! ## Colour model check of `PngLoad` -/

/-- `PngLoad` returns `NULL` for every image whose colour type is neither RGB
nor RGB with alpha (grayscale, palette, grayscale with alpha). -/
theorem PngLoad_rejects_color_type (lib : LibPng) (fp : List Nat) (img : PngImage)
    (hread : lib.read_png (fp.drop PNG_BYTES_TO_CHECK) = some img)
    (h1 : img.color_type ≠ PNG_COLOR_TYPE_RGB) (h2 : img.color_type ≠ PNG_COLOR_TYPE_RGB_ALPHA) :
    PngLoad lib fp = Loaded.null := by
  unfold PngLoad
  rw [hread]
  simp [h1, h2]

/-- `PngLoad` never looks at the bit depth: two images that differ in it only
give the same result. -/
theorem PngLoad_ignores_bit_depth (lib : LibPng) (fp : List Nat) (img : PngImage) (d : Nat)
    (lib2 : LibPng) (hc : lib2.create_read_struct = lib.create_read_struct)
    (hi : lib2.create_info_struct = lib.create_info_struct) (hm : lib2.malloc = lib.malloc)
    (hread : lib.read_png (fp.drop PNG_BYTES_TO_CHECK) = some img)
    (hread2 : lib2.read_png (fp.drop PNG_BYTES_TO_CHECK) = some { img with bit_depth := d }) :
    PngLoad lib2 fp = PngLoad lib fp := by
  have hrows : ∀ n j buf, copyRows { img with bit_depth := d } n j buf = copyRows img n j buf := by
    intro n
    induction n with
    | zero => intro j buf; rfl
    | succ n ih => intro j buf; simp only [copyRows, ih]
  unfold PngLoad
  rw [hread, hread2, hc, hi, hm]
  simp only [hrows]

/-! ## The grid of an RGBA image -/

/-- The clamp `if (OptLevels < 2) OptLevels = 2;` is a maximum. -/
theorem clamp_eq_max (n : Int) : (if n < 2 then 2 else n) = max n 2 := by
  split
  · exact (max_eq_right (by omega)).symm
  · exact (max_eq_left (by omega)).symm

theorem parseArgs_levels_aux (env : Env) (n : Nat) :
    ∀ (args : List String), args.length ≤ n →
    ∀ (o : Opts) (filename : Option String) (o' : Opts) (filename' : Option String),
      parseArgs env args o filename = Parsed.done o' filename' →
      (2 ≤ o.OptLevels → 2 ≤ o'.OptLevels) ∧
      (o'.OptLevels = o.OptLevels ∨ ∃ v ∈ args, o'.OptLevels = max (env.atoi v) 2) := by
  induction n with
  | zero =>
    intro args h o filename o' filename' hp
    have : args = [] := List.length_eq_zero.1 (by omega)
    subst this
    simp only [parseArgs, Parsed.done.injEq] at hp
    obtain ⟨rfl, -⟩ := hp
    exact ⟨id, Or.inl rfl⟩
  | succ n ih =>
    intro args h o filename o' filename' hp
    match args, h with
    | [], _ =>
      simp only [parseArgs, Parsed.done.injEq] at hp
      obtain ⟨rfl, -⟩ := hp
      exact ⟨id, Or.inl rfl⟩
    | [arg], _ =>
      simp only [parseArgs] at hp
      split_ifs at hp <;> simp only [Parsed.done.injEq, reduceCtorEq] at hp <;>
        (obtain ⟨rfl, -⟩ := hp; exact ⟨id, Or.inl rfl⟩)
    | arg :: next :: rest, hlen =>
      simp only [List.length_cons] at hlen
      have ih1 := ih rest (by omega)
      have ih2 := ih (next :: rest) (by simp only [List.length_cons]; omega)
      simp only [parseArgs, clamp_eq_max] at hp
      split_ifs at hp
      · obtain ⟨ha, hb⟩ := ih1 _ _ _ _ hp
        refine ⟨ha, ?_⟩
        rcases hb with hb | ⟨v, hv, hb⟩
        · exact Or.inl hb
        · exact Or.inr ⟨v, by simp [hv], hb⟩
      · obtain ⟨ha, hb⟩ := ih1 _ _ _ _ hp
        refine ⟨ha, ?_⟩
        rcases hb with hb | ⟨v, hv, hb⟩
        · exact Or.inl hb
        · exact Or.inr ⟨v, by simp [hv], hb⟩
      · obtain ⟨ha, hb⟩ := ih1 _ _ _ _ hp
        refine ⟨fun _ => ha (le_max_right _ _), Or.inr ?_⟩
        rcases hb with hb | ⟨v, hv, hb⟩
        · exact ⟨next, by simp, hb⟩
        · exact ⟨v, by simp [hv], hb⟩
      all_goals
        obtain ⟨ha, hb⟩ := ih2 _ _ _ _ hp
        refine ⟨ha, ?_⟩
        rcases hb with hb | ⟨v, hv, hb⟩
        · exact Or.inl hb
        · exact Or.inr ⟨v, List.mem_cons_of_mem _ hv, hb⟩

/-- The option loop keeps `OptLevels ≥ 2`, and the final `OptLevels` is either
the initial one or `max n 2` for the `atoi` value `n` of one of the
arguments. -/
theorem parseArgs_levels (env : Env) (args : List String) (o : Opts)
    (filename : Option String) (o' : Opts) (filename' : Option String)
    (hp : parseArgs env args o filename = Parsed.done o' filename') :
    (2 ≤ o.OptLevels → 2 ≤ o'.OptLevels) ∧
      (o'.OptLevels = o.OptLevels ∨ ∃ v ∈ args, o'.OptLevels = max (env.atoi v) 2) :=
  parseArgs_levels_aux env args.length args (le_refl _) o filename o' filename' hp

theorem parseArgs_keeps_levels_aux (env : Env) (n : Nat) :
    ∀ (args : List String), args.length ≤ n → "--levels" ∉ args →
    ∀ (o : Opts) (filename : Option String) (o' : Opts) (filename' : Option String),
      parseArgs env args o filename = Parsed.done o' filename' →
      o'.OptLevels = o.OptLevels := by
  induction n with
  | zero =>
    intro args h _ o filename o' filename' hp
    have : args = [] := List.length_eq_zero.1 (by omega)
    subst this
    simp only [parseArgs, Parsed.done.injEq] at hp
    obtain ⟨rfl, -⟩ := hp
    rfl
  | succ n ih =>
    intro args h hno o filename o' filename' hp
    match args, h, hno with
    | [], _, _ =>
      simp only [parseArgs, Parsed.done.injEq] at hp
      obtain ⟨rfl, -⟩ := hp
      rfl
    | [arg], _, _ =>
      simp only [parseArgs] at hp
      split_ifs at hp <;> simp only [Parsed.done.injEq, reduceCtorEq] at hp <;>
        (obtain ⟨rfl, -⟩ := hp; rfl)
    | arg :: next :: rest, hlen, hno =>
      simp only [List.length_cons] at hlen
      simp only [List.mem_cons, not_or] at hno
      obtain ⟨harg, hnext, hrest⟩ := hno
      have ih1 := ih rest (by omega) hrest
      have ih2 := ih (next :: rest) (by simp only [List.length_cons]; omega)
        (by simp only [List.mem_cons, not_or]; exact ⟨hnext, hrest⟩)
      simp only [parseArgs, clamp_eq_max] at hp
      split_ifs at hp with h1 h2 h3
      · exact (ih1 _ _ _ _ hp).trans rfl
      · exact (ih1 _ _ _ _ hp).trans rfl
      · exact absurd h3.symm harg
      all_goals exact (ih2 _ _ _ _ hp).trans rfl

/-- Arguments without the string `--levels` leave `OptLevels` as it is. -/
theorem parseArgs_keeps_levels (env : Env) (args : List String) (hno : "--levels" ∉ args)
    (o : Opts) (filename : Option String) (o' : Opts) (filename' : Option String)
    (hp : parseArgs env args o filename = Parsed.done o' filename') :
    o'.OptLevels = o.OptLevels :=
  parseArgs_keeps_levels_aux env args.length args (le_refl _) hno o filename o' filename' hp

/-- C10: (1) when the option loop meets `--levels` followed by a value `next`,
it goes on with `OptLevels = max (atoi next) 2`, and when no `--levels`
follows, that is the value the loop ends with; (2) whenever `main` reaches
`pngtostl`, the `OptLevels` it runs with is at least 2, and is either the
default 20 or `max n 2` for the `atoi` value `n` of an argument; (3) with the
arguments `--levels 1 image.png` the loop ends with `OptLevels = 2`. -/
theorem levels_clamped (env : Env) :
    (∀ (next : String) (rest : List String) (o : Opts) (filename : Option String),
      parseArgs env ("--levels" :: next :: rest) o filename =
        parseArgs env rest { o with OptLevels := max (env.atoi next) 2 } filename ∧
      ∀ (o' : Opts) (filename' : Option String), "--levels" ∉ rest →
        parseArgs env ("--levels" :: next :: rest) o filename = Parsed.done o' filename' →
        o'.OptLevels = max (env.atoi next) 2) ∧
    (∀ (argv : List String) (o : Opts) (filename : String),
      2 ≤ argv.length →
      parseArgs env (argv.drop 1) defaultOpts none = Parsed.done o (some filename) →
      main env argv = pngtostl env o filename ∧ 2 ≤ o.OptLevels ∧
        (o.OptLevels = 20 ∨ ∃ v ∈ argv, o.OptLevels = max (env.atoi v) 2)) ∧
    (env.atoi "1" = 1 →
      parseArgs env ["--levels", "1", "image.png"] defaultOpts none =
        Parsed.done { defaultOpts with OptLevels := 2 } (some "image.png")) := by
  have step : ∀ (next : String) (rest : List String) (o : Opts) (filename : Option String),
      parseArgs env ("--levels" :: next :: rest) o filename =
        parseArgs env rest { o with OptLevels := max (env.atoi next) 2 } filename := by
    intro next rest o filename
    simp [parseArgs, clamp_eq_max]
  refine ⟨?_, ?_, ?_⟩
  · intro next rest o filename
    refine ⟨step next rest o filename, ?_⟩
    intro o' filename' hno hp
    rw [step] at hp
    exact parseArgs_keeps_levels env rest hno _ _ _ _ hp
  · intro argv o filename hlen hp
    obtain ⟨ha, hb⟩ := parseArgs_levels env (argv.drop 1) defaultOpts none o (some filename) hp
    refine ⟨?_, ha (by decide), ?_⟩
    · simp only [main, if_neg (not_lt.2 hlen), hp]
    · rcases hb with hb | ⟨v, hv, hb⟩
      · exact Or.inl hb
      · exact Or.inr ⟨v, List.mem_of_mem_drop hv, hb⟩
  · intro h1
    simp [parseArgs, h1]

/-- C10 at a concrete input: `png2stl --levels 1 image.png` reaches `pngtostl`
with `OptLevels = 2`. -/
theorem levels_clamped_witness :
    main noFileEnv ["png2stl", "--levels", "1", "image.png"] =
        pngtostl noFileEnv { defaultOpts with OptLevels := 2 } "image.png" ∧
      (2 : Int) ≤ 2 ∧
      ((2 : Int) = 20 ∨ ∃ v ∈ ["png2stl", "--levels", "1", "image.png"],
        (2 : Int) = max (noFileEnv.atoi v) 2) :=
  (levels_clamped noFileEnv).2.1 ["png2stl", "--levels", "1", "image.png"]
    { defaultOpts with OptLevels := 2 } "image.png" (by decide)
    ((levels_clamped noFileEnv).2.2 rfl)

/-! ## The option loop -/

theorem parseArgs_flag (env : Env) (a : String) (l : List String) (o : Opts)
    (filename : Option String) (ha : a ∈ flagOptions) :
    ∃ o', parseArgs env (a :: l) o filename = parseArgs env l o' filename := by
  simp only [flagOptions, List.mem_cons, List.mem_singleton, List.not_mem_nil, or_false] at ha
  rcases ha with rfl | rfl
  · exact ⟨{ o with OptNegative := false }, by cases l <;> simp [parseArgs]⟩
  · exact ⟨{ o with OptNegative := true }, by cases l <;> simp [parseArgs]⟩

theorem parseArgs_value (env : Env) (a v : String) (l : List String) (o : Opts)
    (filename : Option String) (ha : a ∈ valueOptions) :
    ∃ o', parseArgs env (a :: v :: l) o filename = parseArgs env l o' filename := by
  simp only [valueOptions, List.mem_cons, List.mem_singleton, List.not_mem_nil, or_false] at ha
  rcases ha with rfl | rfl | rfl
  · exact ⟨{ o with OptReliefHeight := env.atof v }, by simp [parseArgs]⟩
  · exact ⟨{ o with OptBaseHeight := env.atof v }, by simp [parseArgs]⟩
  · exact ⟨{ o with OptLevels := if env.atoi v < 2 then 2 else env.atoi v },
      by simp [parseArgs]⟩

theorem parseArgs_help (env : Env) (l : List String) (o : Opts) (filename : Option String) :
    parseArgs env ("--help" :: l) o filename = Parsed.exited helpProc := by
  cases l <;> simp [parseArgs, helpProc]

theorem parseArgs_filename (env : Env) (a : String) (l : List String) (o : Opts)
    (ha : isFilename a) :
    parseArgs env (a :: l) o none = parseArgs env l o (some a) := by
  have h1 : ∀ s : String, s.data.head? = some '-' → a ≠ s := by
    rintro s hs rfl
    exact ha hs
  have e1 := h1 "--relief-height" rfl
  have e2 := h1 "--base-height" rfl
  have e3 := h1 "--levels" rfl
  have e4 := h1 "--positive" rfl
  have e5 := h1 "--negative" rfl
  have e6 := h1 "--help" rfl
  unfold isFilename at ha
  cases l <;> simp [parseArgs, e1, e2, e3, e4, e5, e6, ha]

theorem parseArgs_unknownFlag (env : Env) (a : String) (l : List String) (o : Opts)
    (filename : Option String) (ha : unknownFlag a) :
    parseArgs env (a :: l) o filename = Parsed.exited invalidProc := by
  obtain ⟨h0, hv, hf, hh⟩ := ha
  simp only [valueOptions, flagOptions, List.mem_cons, List.mem_singleton, List.not_mem_nil,
    or_false, not_or] at hv hf
  obtain ⟨e1, e2, e3⟩ := hv
  obtain ⟨e4, e5⟩ := hf
  cases l <;> simp [parseArgs, e1, e2, e3, e4, e5, hh, h0, invalidProc]

theorem parseArgs_value_last (env : Env) (a : String) (o : Opts) (filename : Option String)
    (ha : a ∈ valueOptions) :
    parseArgs env [a] o filename = Parsed.exited invalidProc := by
  simp only [valueOptions, List.mem_cons, List.mem_singleton, List.not_mem_nil, or_false] at ha
  rcases ha with rfl | rfl | rfl <;> simp [parseArgs, invalidProc]

theorem parseArgs_second_filename (env : Env) (a f : String) (l : List String) (o : Opts)
    (ha : isFilename a) :
    parseArgs env (a :: l) o (some f) = Parsed.exited invalidProc := by
  have h1 : ∀ s : String, s.data.head? = some '-' → a ≠ s := by
    rintro s hs rfl
    exact ha hs
  have e1 := h1 "--relief-height" rfl
  have e2 := h1 "--base-height" rfl
  have e3 := h1 "--levels" rfl
  have e4 := h1 "--positive" rfl
  have e5 := h1 "--negative" rfl
  have e6 := h1 "--help" rfl
  cases l <;> simp [parseArgs, e1, e2, e3, e4, e5, e6, invalidProc]

/-- The loop reads a sequence of complete options and goes on with what
follows, the filename unchanged. -/
theorem parseArgs_options (env : Env) (pre : List String) (hpre : Options pre)
    (l : List String) (o : Opts) (filename : Option String) :
    ∃ o', parseArgs env (pre ++ l) o filename = parseArgs env l o' filename := by
  induction hpre generalizing o with
  | nil => exact ⟨o, rfl⟩
  | flag a pre ha _ ih =>
    obtain ⟨o1, h1⟩ := parseArgs_flag env a (pre ++ l) o filename ha
    obtain ⟨o2, h2⟩ := ih o1
    exact ⟨o2, by rw [List.cons_append, h1, h2]⟩
  | value a v pre ha _ ih =>
    obtain ⟨o1, h1⟩ := parseArgs_value env a v (pre ++ l) o filename ha
    obtain ⟨o2, h2⟩ := ih o1
    exact ⟨o2, by rw [List.cons_append, List.cons_append, h1, h2]⟩

/-- The loop reads a sequence of complete options with one filename and goes
on with what follows, the filename set. -/
theorem parseArgs_optionsWithFile (env : Env) (pre : List String) (hpre : OptionsWithFile pre)
    (l : List String) (o : Opts) :
    ∃ o' f, parseArgs env (pre ++ l) o none = parseArgs env l o' (some f) := by
  obtain ⟨l1, f, l2, rfl, h1, hf, h2⟩ := hpre
  obtain ⟨o1, e1⟩ := parseArgs_options env l1 h1 (f :: l2 ++ l) o none
  obtain ⟨o2, e2⟩ := parseArgs_options env l2 h2 l o1 (some f)
  refine ⟨o2, f, ?_⟩
  rw [List.append_assoc, e1, List.cons_append, parseArgs_filename env f _ o1 hf, e2]
/-- Without `--help` among the arguments, the option loop either stops on
"Invalid options." or ends, and a filename it ends with is one of the
arguments that do not start with `-`, or the one it started with. -/
theorem parseArgs_no_help_aux (env : Env) (n : Nat) :
    ∀ (args : List String), args.length ≤ n → "--help" ∉ args →
    ∀ (o : Opts) (filename : Option String),
      parseArgs env args o filename = Parsed.exited invalidProc ∨
      ∃ o' f', parseArgs env args o filename = Parsed.done o' f' ∧
        (f' = filename ∨ ∃ f, f' = some f ∧ f ∈ args ∧ isFilename f) := by
  induction n with
  | zero =>
    intro args h _ o filename
    have : args = [] := List.length_eq_zero.1 (by omega)
    subst this
    exact Or.inr ⟨o, filename, rfl, Or.inl rfl⟩
  | succ n ih =>
    intro args h hno o filename
    match args, h, hno with
    | [], _, _ => exact Or.inr ⟨o, filename, rfl, Or.inl rfl⟩
    | [arg], _, hno =>
      simp only [List.mem_singleton] at hno
      simp only [parseArgs]
      split_ifs with h1 h2 h3 h4
      · exact Or.inr ⟨_, _, rfl, Or.inl rfl⟩
      · exact Or.inr ⟨_, _, rfl, Or.inl rfl⟩
      · exact absurd h3.symm hno
      · exact Or.inr ⟨_, _, rfl, Or.inr ⟨arg, rfl, by simp, h4.1⟩⟩
      · exact Or.inl rfl
    | arg :: next :: rest, hlen, hno =>
      simp only [List.length_cons] at hlen
      simp only [List.mem_cons, not_or] at hno
      obtain ⟨harg, hnext, hrest⟩ := hno
      have ih1 := ih rest (by omega) hrest
      have ih2 := ih (next :: rest) (by simp only [List.length_cons]; omega)
        (by simp only [List.mem_cons, not_or]; exact ⟨hnext, hrest⟩)
      have lift1 : ∀ (o1 : Opts) (f1 : Option String),
          (parseArgs env rest o1 f1 = Parsed.exited invalidProc ∨
            ∃ o' f', parseArgs env rest o1 f1 = Parsed.done o' f' ∧
              (f' = f1 ∨ ∃ f, f' = some f ∧ f ∈ rest ∧ isFilename f)) →
          (parseArgs env rest o1 f1 = Parsed.exited invalidProc ∨
            ∃ o' f', parseArgs env rest o1 f1 = Parsed.done o' f' ∧
              (f' = f1 ∨ ∃ f, f' = some f ∧ f ∈ arg :: next :: rest ∧ isFilename f)) := by
        rintro o1 f1 (h | ⟨o', f', h, hf⟩)
        · exact Or.inl h
        · refine Or.inr ⟨o', f', h, ?_⟩
          rcases hf with hf | ⟨f, e, hm, hfn⟩
          · exact Or.inl hf
          · exact Or.inr ⟨f, e, by simp [hm], hfn⟩
      have lift2 : ∀ (o1 : Opts) (f1 : Option String),
          (parseArgs env (next :: rest) o1 f1 = Parsed.exited invalidProc ∨
            ∃ o' f', parseArgs env (next :: rest) o1 f1 = Parsed.done o' f' ∧
              (f' = f1 ∨ ∃ f, f' = some f ∧ f ∈ next :: rest ∧ isFilename f)) →
          (parseArgs env (next :: rest) o1 f1 = Parsed.exited invalidProc ∨
            ∃ o' f', parseArgs env (next :: rest) o1 f1 = Parsed.done o' f' ∧
              (f' = f1 ∨ ∃ f, f' = some f ∧ f ∈ arg :: next :: rest ∧ isFilename f)) := by
        rintro o1 f1 (h | ⟨o', f', h, hf⟩)
        · exact Or.inl h
        · refine Or.inr ⟨o', f', h, ?_⟩
          rcases hf with hf | ⟨f, e, hm, hfn⟩
          · exact Or.inl hf
          · exact Or.inr ⟨f, e, List.mem_cons_of_mem _ hm, hfn⟩
      simp only [parseArgs, clamp_eq_max]
      split_ifs with h1 h2 h3 h4 h5 h6 h7
      · exact lift1 _ _ (ih1 _ _)
      · exact lift1 _ _ (ih1 _ _)
      · exact lift1 _ _ (ih1 _ _)
      · exact lift2 _ _ (ih2 _ _)
      · exact lift2 _ _ (ih2 _ _)
      · exact absurd h6.symm harg
      · rcases ih2 o (some arg) with h | ⟨o', f', h, hf⟩
        · exact Or.inl h
        · refine Or.inr ⟨o', f', h, Or.inr ?_⟩
          rcases hf with hf | ⟨f, e, hm, hfn⟩
          · exact ⟨arg, hf, by simp, h7.1⟩
          · exact ⟨f, e, List.mem_cons_of_mem _ hm, hfn⟩
      · exact Or.inl rfl

/-- A non-empty sequence of complete options without a filename ends in "No
PNG filename given" and status 1. -/
theorem main_options_only (env : Env) (prog : String) (args : List String) (hne : args ≠ [])
    (hargs : Options args) : main env (prog :: args) = some noFilenameProc := by
  obtain ⟨o', h⟩ := parseArgs_options env args hargs [] defaultOpts none
  rw [List.append_nil] at h
  have hlen : ¬ (prog :: args).length < 2 := by
    cases args with
    | nil => exact absurd rfl hne
    | cons a l => simp
  simp only [main, if_neg hlen, List.drop_succ_cons, List.drop_zero, h, parseArgs, noFilenameProc]

theorem main_cons (env : Env) (prog : String) (args : List String) (hne : args ≠ []) :
    main env (prog :: args) =
      match parseArgs env args defaultOpts none with
      | Parsed.exited p => some p
      | Parsed.done _ none => some noFilenameProc
      | Parsed.done o (some filename) => pngtostl env o filename := by
  have hlen : ¬ (prog :: args).length < 2 := by
    cases args with
    | nil => exact absurd rfl hne
    | cons a l => simp
  simp only [main, if_neg hlen, List.drop_succ_cons, List.drop_zero, noFilenameProc]

/-- C15 (amended): (1) with no argument at all the process prints the usage
text and exits with status 0; (2) so it does when `--help` comes after a
sequence of complete options (flags, and value-taking options each followed by
its value) with at most one filename among them; (3) a non-empty sequence of
complete options without a filename ends with status 1 (after the line
"No PNG filename given").  The usage text holds no mesh. -/
theorem help_and_missing_filename (env : Env) :
    (∀ argv : List String, argv.length < 2 → main env argv = some helpProc) ∧
    (∀ (prog : String) (pre rest : List String), Options pre ∨ OptionsWithFile pre →
      main env (prog :: (pre ++ "--help" :: rest)) = some helpProc) ∧
    (∀ (prog : String) (args : List String), args ≠ [] → Options args →
      main env (prog :: args) = some noFilenameProc) ∧
    helpProc.status = 0 ∧ helpProc.stdout = showHelp ∧ vertexLines showHelp = [] ∧
    Out.text "solid PngToStl\n" ∉ showHelp ∧ noFilenameProc.status = 1 := by
  refine ⟨?_, ?_, main_options_only env, rfl, rfl, rfl, by decide, rfl⟩
  · intro argv h
    simp only [main, if_pos h, helpProc]
  · intro prog pre rest hpre
    rw [main_cons env prog _ (by simp)]
    rcases hpre with h | h
    · obtain ⟨o', e⟩ := parseArgs_options env pre h ("--help" :: rest) defaultOpts none
      rw [e, parseArgs_help]
    · obtain ⟨o', f, e⟩ := parseArgs_optionsWithFile env pre h ("--help" :: rest) defaultOpts
      rw [e, parseArgs_help]

/-- C15 (amended) at concrete inputs: `png2stl`,
`png2stl --levels 5 image.png --help` and `png2stl --positive --levels 5`. -/
theorem help_and_missing_filename_witness :
    main noFileEnv ["png2stl"] = some helpProc ∧
    main noFileEnv ["png2stl", "--levels", "5", "image.png", "--help"] = some helpProc ∧
    main noFileEnv ["png2stl", "--positive", "--levels", "5"] = some noFilenameProc :=
  ⟨(help_and_missing_filename noFileEnv).1 ["png2stl"] (by decide),
   (help_and_missing_filename noFileEnv).2.1 "png2stl" ["--levels", "5", "image.png"] []
     (Or.inr ⟨["--levels", "5"], "image.png", [], rfl,
       Options.value _ _ _ (by simp [valueOptions]) Options.nil, by decide, Options.nil⟩),
   (help_and_missing_filename noFileEnv).2.2.1 "png2stl" ["--positive", "--levels", "5"]
     (by simp)
     (Options.flag _ _ (by simp [flagOptions])
       (Options.value _ _ _ (by simp [valueOptions]) Options.nil))⟩

/-- C12 (refuted as stated): `png2stl --positive` has arguments, no `--help`
and no filename, and the process prints "No PNG filename given", not the usage
text; in `png2stl --levels --bogus image.png` the unknown flag `--bogus` is
read as the value of `--levels` and the process goes on to `pngtostl`. -/
theorem missing_filename_prints_no_usage :
    main emptyFileEnv ["png2stl", "--positive"] = some noFilenameProc ∧
    noFilenameProc.stdout ≠ showHelp ∧
    unknownFlag "--bogus" ∧
    main emptyFileEnv ["png2stl", "--levels", "--bogus", "image.png"] =
      pngtostl emptyFileEnv { defaultOpts with OptLevels := 2 } "image.png" := by
  refine ⟨rfl, by decide, ⟨rfl, by decide, by decide, by decide⟩, rfl⟩

/-- C12 (amended): reading the arguments from left to right, (1) after a
sequence of complete options an unknown flag, or a value-taking option that is
the last argument, ends the process with "Invalid options." on the standard
error, the usage text on the standard output and status 1; (2) so does, after
the filename, an unknown flag, a value-taking option that is the last argument
or a second filename; (3) a non-empty sequence of complete options without a
filename ends with the line "No PNG filename given", not the usage text, and
status 1; (4) without `--help` among the arguments the process ends in one of
these two ways or runs `pngtostl` on an argument that does not start with
`-`.  Neither ending writes a mesh. -/
theorem invalid_options (env : Env) :
    (∀ (prog : String) (pre : List String) (a : String) (rest : List String), Options pre →
      unknownFlag a ∨ (a ∈ valueOptions ∧ rest = []) →
      main env (prog :: (pre ++ a :: rest)) = some invalidProc) ∧
    (∀ (prog : String) (pre : List String) (a : String) (rest : List String),
      OptionsWithFile pre →
      unknownFlag a ∨ (a ∈ valueOptions ∧ rest = []) ∨ isFilename a →
      main env (prog :: (pre ++ a :: rest)) = some invalidProc) ∧
    (∀ (prog : String) (args : List String), args ≠ [] → Options args →
      main env (prog :: args) = some noFilenameProc) ∧
    (∀ (prog : String) (args : List String), args ≠ [] → "--help" ∉ args →
      main env (prog :: args) = some invalidProc ∨
      main env (prog :: args) = some noFilenameProc ∨
      ∃ o f, f ∈ args ∧ isFilename f ∧ main env (prog :: args) = pngtostl env o f) ∧
    (invalidProc.stdout = showHelp ∧ invalidProc.stderr = ["Invalid options."] ∧
      invalidProc.status = 1) ∧
    (noFilenameProc.stdout = [Out.text "No PNG filename given\n"] ∧
      noFilenameProc.stdout ≠ showHelp ∧ noFilenameProc.status = 1) ∧
    vertexLines showHelp = [] ∧ vertexLines noFilenameProc.stdout = [] := by
  refine ⟨?_, ?_, main_options_only env, ?_, ⟨rfl, rfl, rfl⟩, ⟨rfl, by decide, rfl⟩, rfl, rfl⟩
  · intro prog pre a rest hpre ha
    rw [main_cons env prog _ (by simp)]
    obtain ⟨o', e⟩ := parseArgs_options env pre hpre (a :: rest) defaultOpts none
    rw [e]
    rcases ha with h | ⟨h, rfl⟩
    · rw [parseArgs_unknownFlag env a rest o' none h]
    · rw [parseArgs_value_last env a o' none h]
  · intro prog pre a rest hpre ha
    rw [main_cons env prog _ (by simp)]
    obtain ⟨o', f, e⟩ := parseArgs_optionsWithFile env pre hpre (a :: rest) defaultOpts
    rw [e]
    rcases ha with h | ⟨h, rfl⟩ | h
    · rw [parseArgs_unknownFlag env a rest o' _ h]
    · rw [parseArgs_value_last env a o' _ h]
    · rw [parseArgs_second_filename env a f rest o' h]
  · intro prog args hne hno
    rw [main_cons env prog args hne]
    rcases parseArgs_no_help_aux env args.length args (le_refl _) hno defaultOpts none with
      h | ⟨o', f', h, hf⟩
    · left
      rw [h]
    · rw [h]
      rcases hf with rfl | ⟨f, rfl, hm, hfn⟩
      · exact Or.inr (Or.inl rfl)
      · exact Or.inr (Or.inr ⟨o', f, hm, hfn, rfl⟩)

/-- C12 (amended) at concrete inputs: `png2stl --positive --bogus`,
`png2stl --levels` and `png2stl image.png other.png`. -/
theorem invalid_options_witness :
    main noFileEnv ["png2stl", "--positive", "--bogus"] = some invalidProc ∧
    main noFileEnv ["png2stl", "--levels"] = some invalidProc ∧
    main noFileEnv ["png2stl", "image.png", "other.png"] = some invalidProc :=
  ⟨(invalid_options noFileEnv).1 "png2stl" ["--positive"] "--bogus" []
     (Options.flag _ _ (by simp [flagOptions]) Options.nil)
     (Or.inl ⟨rfl, by decide, by decide, by decide⟩),
   (invalid_options noFileEnv).1 "png2stl" [] "--levels" [] Options.nil
     (Or.inr ⟨by simp [valueOptions], rfl⟩),
   (invalid_options noFileEnv).2.1 "png2stl" ["image.png"] "other.png" []
     ⟨[], "image.png", [], rfl, Options.nil, by decide, Options.nil⟩
     (Or.inr (Or.inr (by decide)))⟩

/-! ## Concrete values -/

/-- The height of a level from the rounded values of its three operations. -/
theorem heightOfLevel_eq (o : Opts) (b r : ℚ) (l : Int) (fl fn p t v : ℚ)
    (hb : o.OptBaseHeight = F32.fin b) (hrel : o.OptReliefHeight = F32.fin r)
    (hl : F32.ofInt l = F32.fin fl) (hn : F32.ofInt o.OptLevels = F32.fin fn) (hn0 : fn ≠ 0)
    (hp : F32.round (r * fl) = F32.fin p) (ht : F32.round (p / fn) = F32.fin t)
    (hv : F32.round (b + t) = F32.fin v) : heightOfLevel o l = F32.fin v := by
  rw [heightOfLevel, hb, hrel, hl, hn, F32.fin_mul_fin, hp, F32.fin_div_fin _ _ hn0, ht,
    F32.fin_add_fin, hv]

theorem round_default_base : F32.round (13421773 / 67108864) = F32.fin (13421773 / 67108864) :=
  F32.round_val _ _ (fl32_val _ _ (-3) 13421773 (by norm_num) (by norm_num [abs_of_pos])
    (by norm_num [abs_of_pos]) (by norm_num [abs_lt]) (by norm_num)) (by norm_num [abs_lt])

theorem defaultOpts_base_valid : defaultOpts.OptBaseHeight.valid := round_default_base

theorem round_one : F32.round 1 = F32.fin 1 :=
  F32.round_val _ _ fl32_one (by norm_num)

theorem defaultOpts_relief_valid : defaultOpts.OptReliefHeight.valid := round_one

/-- The value of `fl32` at a number half-way between two numbers of the grid:
the one with the even significand. -/
theorem fl32_tie (q : ℚ) (e m : Int) (he : -126 ≤ e) (h1 : (2 : ℚ) ^ e ≤ |q|)
    (h2 : |q| < (2 : ℚ) ^ (e + 1)) (hm : q / 2 ^ (e - 23) = m + 1 / 2) (hev : m % 2 = 0) :
    fl32 q = m * 2 ^ (e - 23) := by
  rw [fl32, quantumExp_of_normal q e he h1 h2, hm]
  congr 1
  have hfl : ⌊(m : ℚ) + 1 / 2⌋ = m := by
    rw [Int.floor_eq_iff]
    constructor <;> linarith
  unfold roundEven
  rw [hfl]
  norm_num [hev]

/-- The value of `fl32` at a number half-way between two numbers of the grid,
the lower one with an odd significand: the upper one. -/
theorem fl32_tie_odd (q : ℚ) (e m : Int) (he : -126 ≤ e) (h1 : (2 : ℚ) ^ e ≤ |q|)
    (h2 : |q| < (2 : ℚ) ^ (e + 1)) (hm : q / 2 ^ (e - 23) = m + 1 / 2) (hodd : m % 2 = 1) :
    fl32 q = (m + 1) * 2 ^ (e - 23) := by
  rw [fl32, quantumExp_of_normal q e he h1 h2, hm]
  congr 1
  have hfl : ⌊(m : ℚ) + 1 / 2⌋ = m := by
    rw [Int.floor_eq_iff]
    constructor <;> linarith
  unfold roundEven
  rw [hfl]
  norm_num [hodd]

/-- In single precision `16777216 + 1` is `16777216`: the sum is half-way
between `16777216` and `16777218`. -/
theorem F32.add_one_absorbed : F32.fin 16777216 + 1 = F32.fin 16777216 := by
  rw [F32.one_def, F32.fin_add_fin]
  refine F32.round_val _ _ ?_ (by norm_num [abs_lt])
  have := fl32_tie (16777216 + 1) 24 8388608 (by norm_num) (by norm_num [abs_of_pos])
    (by norm_num [abs_of_pos]) (by norm_num) (by norm_num)
  rw [this]
  norm_num

/-- The level and the height of a pixel from the values of the channel sums,
of the quotient and of `round`. -/
theorem heightAt_of_values (o : Opts) (rgb : List Nat) (w h k : Nat) (c s smax : Nat) (q : ℚ)
    (raw : Int) (hb : ∀ b ∈ rgb, b ≤ 255) (hk : k < w * h) (hc : o.OptLevels - 1 = (c : Int))
    (hc2 : c ≤ 2 ^ 30) (hs : sumAt rgb (3 * k) = s) (hm : maxSum rgb (w * h) = smax)
    (hmax : 0 < smax) (hq : quotF32 c s smax = q) (hr : cRound q = raw) :
    rawLevel o (lumAt rgb (3 * k)) (maxLoop rgb (w * h) 0 0) = some raw ∧
    pixelLevel o (lumAt rgb (3 * k)) (maxLoop rgb (w * h) 0 0) =
      some (if o.OptNegative then o.OptLevels - raw - 1 else raw) ∧
    heightAt o rgb w h k =
      some (heightOfLevel o (if o.OptNegative then o.OptLevels - raw - 1 else raw)) := by
  have hms : 0 < maxSum rgb (w * h) := by rw [hm]; exact hmax
  have h1 := rawLevel_pixel o rgb w h k hb hk c hc hc2 hms
  have h2 := heightAt_pixel o rgb w h k hb hk c hc hc2 hms
  rw [hs, hm, hq, hr] at h1 h2
  exact ⟨h1, h2.1, h2.2⟩

/-- The quotient of the level from the rounded values of its operations. -/
theorem quotF32_eq (c s smax : Nat) (fc ls lm p q : ℚ) (hc : fl32 (c : ℚ) = fc)
    (hs : lumF32 s = ls) (hm : lumF32 smax = lm) (hp : fl32 (fc * ls) = p)
    (hq : fl32 (p / lm) = q) : quotF32 c s smax = q := by
  rw [quotF32, hc, hs, hm, hp, hq]

theorem lumF32_eq (s : Nat) (fs l : ℚ) (hs : fl32 (s : ℚ) = fs) (hl : fl32 (fs / 3) = l) :
    lumF32 s = l := by
  rw [lumF32, hs, hl]

/-! ## Values in single precision -/

theorem F32.ofInt_of (n : Int) (q : ℚ) (h : |n| ≤ 2 ^ 24) (hq : (n : ℚ) = q) :
    F32.ofInt n = F32.fin q := by
  rw [F32.ofInt_eq n h, hq]

theorem lumF32_255 :
    lumF32 255 = 85 :=
  lumF32_eq 255 255 85
    (fl32_val _ _ (7) (16711680) (by norm_num) (by norm_num [abs_of_pos])
      (by norm_num [abs_of_pos]) (by norm_num [abs_lt]) (by norm_num))
    (fl32_val _ _ (6) (11141120) (by norm_num) (by norm_num [abs_of_pos])
      (by norm_num [abs_of_pos]) (by norm_num [abs_lt]) (by norm_num))

theorem lumF32_510 :
    lumF32 510 = 170 :=
  lumF32_eq 510 510 170
    (fl32_val _ _ (8) (16711680) (by norm_num) (by norm_num [abs_of_pos])
      (by norm_num [abs_of_pos]) (by norm_num [abs_lt]) (by norm_num))
    (fl32_val _ _ (7) (11141120) (by norm_num) (by norm_num [abs_of_pos])
      (by norm_num [abs_of_pos]) (by norm_num [abs_lt]) (by norm_num))

theorem lumF32_7 :
    lumF32 7 = (9786709 / 4194304) :=
  lumF32_eq 7 7 (9786709 / 4194304)
    (fl32_val _ _ (2) (14680064) (by norm_num) (by norm_num [abs_of_pos])
      (by norm_num [abs_of_pos]) (by norm_num [abs_lt]) (by norm_num))
    (fl32_val _ _ (1) (9786709) (by norm_num) (by norm_num [abs_of_pos])
      (by norm_num [abs_of_pos]) (by norm_num [abs_lt]) (by norm_num))

theorem lumF32_38 :
    lumF32 38 = (13281963 / 1048576) :=
  lumF32_eq 38 38 (13281963 / 1048576)
    (fl32_val _ _ (5) (9961472) (by norm_num) (by norm_num [abs_of_pos])
      (by norm_num [abs_of_pos]) (by norm_num [abs_lt]) (by norm_num))
    (fl32_val _ _ (3) (13281963) (by norm_num) (by norm_num [abs_of_pos])
      (by norm_num [abs_of_pos]) (by norm_num [abs_lt]) (by norm_num))

theorem lumF32_17 :
    lumF32 17 = (11883861 / 2097152) :=
  lumF32_eq 17 17 (11883861 / 2097152)
    (fl32_val _ _ (4) (8912896) (by norm_num) (by norm_num [abs_of_pos])
      (by norm_num [abs_of_pos]) (by norm_num [abs_lt]) (by norm_num))
    (fl32_val _ _ (2) (11883861) (by norm_num) (by norm_num [abs_of_pos])
      (by norm_num [abs_of_pos]) (by norm_num [abs_lt]) (by norm_num))

theorem lumF32_752 :
    lumF32 752 = (16427691 / 65536) :=
  lumF32_eq 752 752 (16427691 / 65536)
    (fl32_val _ _ (9) (12320768) (by norm_num) (by norm_num [abs_of_pos])
      (by norm_num [abs_of_pos]) (by norm_num [abs_lt]) (by norm_num))
    (fl32_val _ _ (7) (16427691) (by norm_num) (by norm_num [abs_of_pos])
      (by norm_num [abs_of_pos]) (by norm_num [abs_lt]) (by norm_num))

theorem lumF32_757 :
    lumF32 757 = (16536917 / 65536) :=
  lumF32_eq 757 757 (16536917 / 65536)
    (fl32_val _ _ (9) (12402688) (by norm_num) (by norm_num [abs_of_pos])
      (by norm_num [abs_of_pos]) (by norm_num [abs_lt]) (by norm_num))
    (fl32_val _ _ (7) (16536917) (by norm_num) (by norm_num [abs_of_pos])
      (by norm_num [abs_of_pos]) (by norm_num [abs_lt]) (by norm_num))

theorem quotF32_half :
    quotF32 19 255 510 = (19 / 2) :=
  quotF32_eq 19 255 510 19 85 170 1615 (19 / 2)
    (fl32_val _ _ (4) (9961472) (by norm_num) (by norm_num [abs_of_pos])
      (by norm_num [abs_of_pos]) (by norm_num [abs_lt]) (by norm_num))
    lumF32_255 lumF32_510
    (fl32_val _ _ (10) (13230080) (by norm_num) (by norm_num [abs_of_pos])
      (by norm_num [abs_of_pos]) (by norm_num [abs_lt]) (by norm_num))
    (fl32_val _ _ (3) (9961472) (by norm_num) (by norm_num [abs_of_pos])
      (by norm_num [abs_of_pos]) (by norm_num [abs_lt]) (by norm_num))

theorem quotF32_tie :
    quotF32 19 7 38 = (14680063 / 4194304) :=
  quotF32_eq 19 7 38 19 (9786709 / 4194304) (13281963 / 1048576) (11621717 / 262144) (14680063 / 4194304)
    (fl32_val _ _ (4) (9961472) (by norm_num) (by norm_num [abs_of_pos])
      (by norm_num [abs_of_pos]) (by norm_num [abs_lt]) (by norm_num))
    lumF32_7 lumF32_38
    (fl32_val _ _ (5) (11621717) (by norm_num) (by norm_num [abs_of_pos])
      (by norm_num [abs_of_pos]) (by norm_num [abs_lt]) (by norm_num))
    (fl32_val _ _ (1) (14680063) (by norm_num) (by norm_num [abs_of_pos])
      (by norm_num [abs_of_pos]) (by norm_num [abs_lt]) (by norm_num))

theorem quotF32_many :
    quotF32 8388602 17 17 = (16777205 / 2) :=
  quotF32_eq 8388602 17 17 8388602 (11883861 / 2097152) (11883861 / 2097152) 47535412 (16777205 / 2)
    (fl32_val _ _ (22) (16777204) (by norm_num) (by norm_num [abs_of_pos])
      (by norm_num [abs_of_pos]) (by norm_num [abs_lt]) (by norm_num))
    lumF32_17 lumF32_17
    (fl32_val _ _ (25) (11883853) (by norm_num) (by norm_num [abs_of_pos])
      (by norm_num [abs_of_pos]) (by norm_num [abs_lt]) (by norm_num))
    (fl32_val _ _ (22) (16777205) (by norm_num) (by norm_num [abs_of_pos])
      (by norm_num [abs_of_pos]) (by norm_num [abs_lt]) (by norm_num))

theorem quotF32_off :
    quotF32 4315 752 757 = (8573 / 2) :=
  quotF32_eq 4315 752 757 4315 (16427691 / 65536) (16536917 / 65536) (4326507 / 4) (8573 / 2)
    (fl32_val _ _ (12) (8837120) (by norm_num) (by norm_num [abs_of_pos])
      (by norm_num [abs_of_pos]) (by norm_num [abs_lt]) (by norm_num))
    lumF32_752 lumF32_757
    (fl32_val _ _ (20) (8653014) (by norm_num) (by norm_num [abs_of_pos])
      (by norm_num [abs_of_pos]) (by norm_num [abs_lt]) (by norm_num))
    (fl32_val _ _ (12) (8778752) (by norm_num) (by norm_num [abs_of_pos])
      (by norm_num [abs_of_pos]) (by norm_num [abs_lt]) (by norm_num))

theorem quotF32_over :
    quotF32 4211008 765 765 = (8422017 / 2) :=
  quotF32_eq 4211008 765 765 4211008 255 255 1073807104 (8422017 / 2)
    (fl32_val _ _ (22) (8422016) (by norm_num) (by norm_num [abs_of_pos])
      (by norm_num [abs_of_pos]) (by norm_num [abs_lt]) (by norm_num))
    lumF32_765 lumF32_765
    ((fl32_tie_odd _ (30) (8389117) (by norm_num) (by norm_num [abs_of_pos])
      (by norm_num [abs_of_pos]) (by norm_num) (by norm_num)).trans (by norm_num))
    (fl32_val _ _ (22) (8422017) (by norm_num) (by norm_num [abs_of_pos])
      (by norm_num [abs_of_pos]) (by norm_num [abs_lt]) (by norm_num))

theorem heightOfLevel_default_9 :
    heightOfLevel defaultOpts 9 = F32.fin (5452595 / 8388608) :=
  heightOfLevel_eq defaultOpts (13421773 / 67108864) 1 9 9 20 9 (7549747 / 16777216) (5452595 / 8388608) rfl rfl
    (F32.ofInt_of 9 9 (by norm_num [abs_of_pos]) (by norm_num))
    (F32.ofInt_of 20 20 (by norm_num [abs_of_pos]) (by norm_num))
    (by norm_num)
    (F32.round_val _ _ (fl32_val _ _ (3) (9437184) (by norm_num) (by norm_num [abs_of_pos])
      (by norm_num [abs_of_pos]) (by norm_num [abs_lt]) (by norm_num))
      (by norm_num [abs_lt]))
    (F32.round_val _ _ (fl32_val _ _ (-2) (15099494) (by norm_num) (by norm_num [abs_of_pos])
      (by norm_num [abs_of_pos]) (by norm_num [abs_lt]) (by norm_num))
      (by norm_num [abs_lt]))
    (F32.round_val _ _ (fl32_val _ _ (-1) (10905190) (by norm_num) (by norm_num [abs_of_pos])
      (by norm_num [abs_of_pos]) (by norm_num [abs_lt]) (by norm_num))
      (by norm_num [abs_lt]))

theorem heightOfLevel_default_15 :
    heightOfLevel defaultOpts 15 = F32.fin (15938355 / 16777216) :=
  heightOfLevel_eq defaultOpts (13421773 / 67108864) 1 15 15 20 15 (3 / 4) (15938355 / 16777216) rfl rfl
    (F32.ofInt_of 15 15 (by norm_num [abs_of_pos]) (by norm_num))
    (F32.ofInt_of 20 20 (by norm_num [abs_of_pos]) (by norm_num))
    (by norm_num)
    (F32.round_val _ _ (fl32_val _ _ (3) (15728640) (by norm_num) (by norm_num [abs_of_pos])
      (by norm_num [abs_of_pos]) (by norm_num [abs_lt]) (by norm_num))
      (by norm_num [abs_lt]))
    (F32.round_val _ _ (fl32_val _ _ (-1) (12582912) (by norm_num) (by norm_num [abs_of_pos])
      (by norm_num [abs_of_pos]) (by norm_num [abs_lt]) (by norm_num))
      (by norm_num [abs_lt]))
    (F32.round_val _ _ (fl32_val _ _ (-1) (15938355) (by norm_num) (by norm_num [abs_of_pos])
      (by norm_num [abs_of_pos]) (by norm_num [abs_lt]) (by norm_num))
      (by norm_num [abs_lt]))

theorem heightOfLevel_default_16 :
    heightOfLevel defaultOpts 16 = F32.fin 1 :=
  heightOfLevel_eq defaultOpts (13421773 / 67108864) 1 16 16 20 16 (13421773 / 16777216) 1 rfl rfl
    (F32.ofInt_of 16 16 (by norm_num [abs_of_pos]) (by norm_num))
    (F32.ofInt_of 20 20 (by norm_num [abs_of_pos]) (by norm_num))
    (by norm_num)
    (F32.round_val _ _ (fl32_val _ _ (4) (8388608) (by norm_num) (by norm_num [abs_of_pos])
      (by norm_num [abs_of_pos]) (by norm_num [abs_lt]) (by norm_num))
      (by norm_num [abs_lt]))
    (F32.round_val _ _ (fl32_val _ _ (-1) (13421773) (by norm_num) (by norm_num [abs_of_pos])
      (by norm_num [abs_of_pos]) (by norm_num [abs_lt]) (by norm_num))
      (by norm_num [abs_lt]))
    (F32.round_val _ _ (fl32_val _ _ (0) (8388608) (by norm_num) (by norm_num [abs_of_pos])
      (by norm_num [abs_of_pos]) (by norm_num [abs_lt]) (by norm_num))
      (by norm_num [abs_lt]))

theorem heightOfLevel_two_1 :
    heightOfLevel twoLevelsOpts 1 = F32.fin (11744051 / 16777216) :=
  heightOfLevel_eq twoLevelsOpts (13421773 / 67108864) 1 1 1 2 1 (1 / 2) (11744051 / 16777216) rfl rfl
    (F32.ofInt_of 1 1 (by norm_num [abs_of_pos]) (by norm_num))
    (F32.ofInt_of 2 2 (by norm_num [abs_of_pos]) (by norm_num))
    (by norm_num)
    (F32.round_val _ _ (fl32_val _ _ (0) (8388608) (by norm_num) (by norm_num [abs_of_pos])
      (by norm_num [abs_of_pos]) (by norm_num [abs_lt]) (by norm_num))
      (by norm_num [abs_lt]))
    (F32.round_val _ _ (fl32_val _ _ (-1) (8388608) (by norm_num) (by norm_num [abs_of_pos])
      (by norm_num [abs_of_pos]) (by norm_num [abs_lt]) (by norm_num))
      (by norm_num [abs_lt]))
    (F32.round_val _ _ (fl32_val _ _ (-1) (11744051) (by norm_num) (by norm_num [abs_of_pos])
      (by norm_num [abs_of_pos]) (by norm_num [abs_lt]) (by norm_num))
      (by norm_num [abs_lt]))

theorem heightOfLevel_many_full :
    heightOfLevel (manyLevelsOpts false) 8388603 = F32.fin (5033165 / 4194304) :=
  heightOfLevel_eq (manyLevelsOpts false) (13421773 / 67108864) 1 8388603 8388603 8388603 8388603 1 (5033165 / 4194304) rfl rfl
    (F32.ofInt_of 8388603 8388603 (by norm_num [abs_of_pos]) (by norm_num))
    (F32.ofInt_of 8388603 8388603 (by norm_num [abs_of_pos]) (by norm_num))
    (by norm_num)
    (F32.round_val _ _ (fl32_val _ _ (22) (16777206) (by norm_num) (by norm_num [abs_of_pos])
      (by norm_num [abs_of_pos]) (by norm_num [abs_lt]) (by norm_num))
      (by norm_num [abs_lt]))
    (F32.round_val _ _ (fl32_val _ _ (0) (8388608) (by norm_num) (by norm_num [abs_of_pos])
      (by norm_num [abs_of_pos]) (by norm_num [abs_lt]) (by norm_num))
      (by norm_num [abs_lt]))
    (F32.round_val _ _ (fl32_val _ _ (0) (10066330) (by norm_num) (by norm_num [abs_of_pos])
      (by norm_num [abs_of_pos]) (by norm_num [abs_lt]) (by norm_num))
      (by norm_num [abs_lt]))

theorem heightOfLevel_many_top :
    heightOfLevel (manyLevelsOpts false) 8388602 = F32.fin (10066329 / 8388608) :=
  heightOfLevel_eq (manyLevelsOpts false) (13421773 / 67108864) 1 8388602 8388602 8388603 8388602 (8388607 / 8388608) (10066329 / 8388608) rfl rfl
    (F32.ofInt_of 8388602 8388602 (by norm_num [abs_of_pos]) (by norm_num))
    (F32.ofInt_of 8388603 8388603 (by norm_num [abs_of_pos]) (by norm_num))
    (by norm_num)
    (F32.round_val _ _ (fl32_val _ _ (22) (16777204) (by norm_num) (by norm_num [abs_of_pos])
      (by norm_num [abs_of_pos]) (by norm_num [abs_lt]) (by norm_num))
      (by norm_num [abs_lt]))
    (F32.round_val _ _ (fl32_val _ _ (-1) (16777214) (by norm_num) (by norm_num [abs_of_pos])
      (by norm_num [abs_of_pos]) (by norm_num [abs_lt]) (by norm_num))
      (by norm_num [abs_lt]))
    (F32.round_val _ _ (fl32_val _ _ (0) (10066329) (by norm_num) (by norm_num [abs_of_pos])
      (by norm_num [abs_of_pos]) (by norm_num [abs_lt]) (by norm_num))
      (by norm_num [abs_lt]))

theorem heightOfLevel_many_below :
    heightOfLevel (manyLevelsOpts true) (-1) = F32.fin (13421765 / 67108864) :=
  heightOfLevel_eq (manyLevelsOpts true) (13421773 / 67108864) 1 (-1) (-1) 8388603 (-1) (-8388613 / 70368744177664) (13421765 / 67108864) rfl rfl
    (F32.ofInt_of (-1) (-1) (by norm_num) (by norm_num))
    (F32.ofInt_of 8388603 8388603 (by norm_num [abs_of_pos]) (by norm_num))
    (by norm_num)
    (F32.round_val _ _ (fl32_val _ _ (0) (-8388608) (by norm_num) (by norm_num [abs_of_neg])
      (by norm_num [abs_of_neg]) (by norm_num [abs_lt]) (by norm_num))
      (by norm_num [abs_lt]))
    (F32.round_val _ _ (fl32_val _ _ (-23) (-8388613) (by norm_num) (by norm_num [abs_of_neg])
      (by norm_num [abs_of_neg]) (by norm_num [abs_lt]) (by norm_num))
      (by norm_num [abs_lt]))
    (F32.round_val _ _ (fl32_val _ _ (-3) (13421765) (by norm_num) (by norm_num [abs_of_pos])
      (by norm_num [abs_of_pos]) (by norm_num [abs_lt]) (by norm_num))
      (by norm_num [abs_lt]))

theorem heightOfLevel_sunk_19 :
    heightOfLevel sunkReliefOpts 19 = F32.fin (-3 / 4) :=
  heightOfLevel_eq sunkReliefOpts (13421773 / 67108864) (-1) 19 19 20 (-19) (-15938355 / 16777216) (-3 / 4) rfl rfl
    (F32.ofInt_of 19 19 (by norm_num [abs_of_pos]) (by norm_num))
    (F32.ofInt_of 20 20 (by norm_num [abs_of_pos]) (by norm_num))
    (by norm_num)
    (F32.round_val _ _ (fl32_val _ _ (4) (-9961472) (by norm_num) (by norm_num [abs_of_neg])
      (by norm_num [abs_of_neg]) (by norm_num [abs_lt]) (by norm_num))
      (by norm_num [abs_lt]))
    (F32.round_val _ _ (fl32_val _ _ (-1) (-15938355) (by norm_num) (by norm_num [abs_of_neg])
      (by norm_num [abs_of_neg]) (by norm_num [abs_lt]) (by norm_num))
      (by norm_num [abs_lt]))
    (F32.round_val _ _ (fl32_val _ _ (-1) (-12582912) (by norm_num) (by norm_num [abs_of_neg])
      (by norm_num [abs_of_neg]) (by norm_num [abs_lt]) (by norm_num))
      (by norm_num [abs_lt]))

theorem heightOfLevel_highBase_19 :
    heightOfLevel highBaseOpts 19 = F32.fin 16777216 :=
  heightOfLevel_eq highBaseOpts 16777216 1 19 19 20 19 (15938355 / 16777216) 16777216 rfl rfl
    (F32.ofInt_of 19 19 (by norm_num [abs_of_pos]) (by norm_num))
    (F32.ofInt_of 20 20 (by norm_num [abs_of_pos]) (by norm_num))
    (by norm_num)
    (F32.round_val _ _ (fl32_val _ _ (4) (9961472) (by norm_num) (by norm_num [abs_of_pos])
      (by norm_num [abs_of_pos]) (by norm_num [abs_lt]) (by norm_num))
      (by norm_num [abs_lt]))
    (F32.round_val _ _ (fl32_val _ _ (-1) (15938355) (by norm_num) (by norm_num [abs_of_pos])
      (by norm_num [abs_of_pos]) (by norm_num [abs_lt]) (by norm_num))
      (by norm_num [abs_lt]))
    (F32.round_val _ _ (fl32_val _ _ (24) (8388608) (by norm_num) (by norm_num [abs_of_pos])
      (by norm_num [abs_of_pos]) (by norm_num [abs_lt]) (by norm_num))
      (by norm_num [abs_lt]))

theorem base_add_relief :
    F32.fin (13421773 / 67108864) + F32.fin 1 = F32.fin (5033165 / 4194304) :=
  (F32.fin_add_fin _ _).trans
    (F32.round_val _ _ (fl32_val _ _ (0) (10066330) (by norm_num) (by norm_num [abs_of_pos])
      (by norm_num [abs_of_pos]) (by norm_num [abs_lt]) (by norm_num))
      (by norm_num [abs_lt]))

/-! ## The level and the height at concrete inputs -/

/-- C9 (code defect): for a 2x1 RGB image with 16 bits per channel `PngLoad`
does not return `NULL`: it returns a 2x1 buffer whose "pixels" are the bytes
`(0, 255, 0)` and `(255, 0, 255)` of the first 16-bit pixel alone (the rest of
the 12-byte block is left as `malloc` gave it), and the height computation
gets a height for both. -/
theorem PngLoad_accepts_16bit :
    rgb16Image.bit_depth = 16 ∧
    PngLoad rgb16Lib pngSignature =
      Loaded.ok [0, 255, 0, 255, 0, 255, 170, 170, 170, 170, 170, 170] 2 1 false ∧
    heightAt defaultOpts [0, 255, 0, 255, 0, 255, 170, 170, 170, 170, 170, 170] 2 1 0 =
      some (F32.fin (5452595 / 8388608)) ∧
    heightAt defaultOpts [0, 255, 0, 255, 0, 255, 170, 170, 170, 170, 170, 170] 2 1 1 =
      some (F32.fin (13421773 / 67108864)) := by
  have hb : ∀ b ∈ [0, 255, 0, 255, 0, 255, 170, 170, 170, 170, 170, 170], b ≤ 255 := by decide
  have h0 := (heightAt_of_values defaultOpts _ 2 1 0 19 255 510 (19 / 2) 10 hb (by decide) rfl
    (by norm_num) rfl rfl (by norm_num) quotF32_half (by norm_num [cRound])).2.2
  have h1 := (pixel_facts defaultOpts _ 2 1 1 ⟨by decide, hb⟩ (by decide) (by decide)
    (by norm_num [defaultOpts])
    (by norm_num [specLmax, specLuminance, List.range, List.range.loop]))
  refine ⟨rfl, rfl, ?_, ?_⟩
  · rw [h0]
    exact congrArg some heightOfLevel_default_9
  · obtain ⟨raw, -, -, -, hmaxr, -, -, hh⟩ := h1
    have hlum : lumAt [0, 255, 0, 255, 0, 255, 170, 170, 170, 170, 170, 170] (3 * 1) =
        maxLoop [0, 255, 0, 255, 0, 255, 170, 170, 170, 170, 170, 170] (2 * 1) 0 0 := by
      rw [lumAt_eq _ hb, maxLoop_eq_maxSum _ hb]
      rfl
    rw [hh, hmaxr hlum]
    exact congrArg some (heightOfLevel_zero defaultOpts 1 defaultOpts_base_valid rfl
      (by decide) (by norm_num [defaultOpts]))

theorem lumAt_max_of (rgb : List Nat) (w h k : Nat) (hb : ∀ b ∈ rgb, b ≤ 255)
    (hs : sumAt rgb (3 * k) = maxSum rgb (w * h)) :
    lumAt rgb (3 * k) = maxLoop rgb (w * h) 0 0 := by
  rw [lumAt_eq rgb hb, maxLoop_eq_maxSum rgb hb, hs]

theorem lumAt_zero_of (rgb : List Nat) (k : Nat) (hb : ∀ b ∈ rgb, b ≤ 255)
    (hs : sumAt rgb (3 * k) = 0) : lumAt rgb (3 * k) = 0 := by
  rw [lumAt_eq rgb hb, hs, lumF32_zero]
  rfl

/-! ## The extremes in the negative polarity -/

/-- C2 (refuted as stated): on the 1x2 image with left luminance 255 and right
luminance 0, with `levels = 2`, `negative = true` and the default base and
relief heights (the `float`s nearest to 0.2 and 1), the right pixel
(luminance 0) gets level 1 and the height `11744051/16777216`, the
single-precision value of `base + 1*1/2`, which is not the single-precision
sum `base + relief = 5033165/4194304`. -/
theorem negative_black_not_full_relief :
    pixelLevel twoLevelsOpts (lumAt [255, 255, 255, 0, 0, 0] (3 * 1))
      (maxLoop [255, 255, 255, 0, 0, 0] (2 * 1) 0 0) = some 1 ∧
    heightAt twoLevelsOpts [255, 255, 255, 0, 0, 0] 2 1 1 =
      some (F32.fin (11744051 / 16777216)) ∧
    twoLevelsOpts.OptBaseHeight + twoLevelsOpts.OptReliefHeight =
      F32.fin (5033165 / 4194304) ∧
    heightAt twoLevelsOpts [255, 255, 255, 0, 0, 0] 2 1 1 ≠
      some (twoLevelsOpts.OptBaseHeight + twoLevelsOpts.OptReliefHeight) := by
  have hb : ∀ b ∈ [255, 255, 255, 0, 0, 0], b ≤ 255 := by decide
  obtain ⟨raw, -, -, -, -, hz, hlev, hh⟩ := pixel_facts twoLevelsOpts [255, 255, 255, 0, 0, 0]
    2 1 1 ⟨by decide, hb⟩ (by decide) (by decide) (by norm_num [twoLevelsOpts])
    (by norm_num [specLmax, specLuminance, List.range, List.range.loop])
  have hraw := hz (lumAt_zero_of _ 1 hb rfl)
  rw [hraw] at hlev hh
  have hht : heightAt twoLevelsOpts [255, 255, 255, 0, 0, 0] 2 1 1 =
      some (F32.fin (11744051 / 16777216)) := by
    rw [hh]
    exact congrArg some heightOfLevel_two_1
  refine ⟨hlev, hht, base_add_relief, ?_⟩
  rw [hht]
  intro h
  have h2 := Option.some.inj h
  rw [show twoLevelsOpts.OptBaseHeight + twoLevelsOpts.OptReliefHeight =
    F32.fin (5033165 / 4194304) from base_add_relief] at h2
  have h3 := F32.fin.inj h2
  norm_num at h3

/-- C2 (amended) at a concrete input: the 1x2 image with luminances 255 and 0,
`levels = 2`, `negative = true` and the default heights gives left level 0 and
height `OptBaseHeight`, right level 1 and the height of level 1. -/
theorem negative_extremes_witness :
    (pixelLevel twoLevelsOpts (lumAt [255, 255, 255, 0, 0, 0] (3 * 0))
        (maxLoop [255, 255, 255, 0, 0, 0] (2 * 1) 0 0) = some 0 ∧
      heightAt twoLevelsOpts [255, 255, 255, 0, 0, 0] 2 1 0 =
        some twoLevelsOpts.OptBaseHeight) ∧
    (pixelLevel twoLevelsOpts (lumAt [255, 255, 255, 0, 0, 0] (3 * 1))
        (maxLoop [255, 255, 255, 0, 0, 0] (2 * 1) 0 0) = some (twoLevelsOpts.OptLevels - 1) ∧
      heightAt twoLevelsOpts [255, 255, 255, 0, 0, 0] 2 1 1 =
        some (twoLevelsOpts.OptBaseHeight + twoLevelsOpts.OptReliefHeight *
          F32.ofInt (twoLevelsOpts.OptLevels - 1) / F32.ofInt twoLevelsOpts.OptLevels)) :=
  ⟨(negative_extremes twoLevelsOpts [255, 255, 255, 0, 0, 0] 2 1 0 1 ⟨by decide, by decide⟩
      (by decide) rfl (by decide) (by norm_num [twoLevelsOpts])
      (by norm_num [specLmax, specLuminance, List.range, List.range.loop])
      defaultOpts_base_valid rfl).1 (lumAt_max_of _ 2 1 0 (by decide) rfl),
   (negative_extremes twoLevelsOpts [255, 255, 255, 0, 0, 0] 2 1 1 1 ⟨by decide, by decide⟩
      (by decide) rfl (by decide) (by norm_num [twoLevelsOpts])
      (by norm_num [specLmax, specLuminance, List.range, List.range.loop])
      defaultOpts_base_valid rfl).2 (lumAt_zero_of _ 1 (by decide) rfl)⟩

/-! ## Many levels -/

/-- The level and the height of the only pixel of the 1x1 image `(6, 6, 5)`
with `--levels 8388603`: the single-precision quotient is `8388602.5`, and
`round` gives `8388603`. -/
theorem manyLevels_pixel (neg : Bool) :
    rawLevel (manyLevelsOpts neg) (lumAt [6, 6, 5] (3 * 0)) (maxLoop [6, 6, 5] (1 * 1) 0 0) =
      some 8388603 ∧
    pixelLevel (manyLevelsOpts neg) (lumAt [6, 6, 5] (3 * 0)) (maxLoop [6, 6, 5] (1 * 1) 0 0) =
      some (if neg then -1 else 8388603) ∧
    heightAt (manyLevelsOpts neg) [6, 6, 5] 1 1 0 =
      some (heightOfLevel (manyLevelsOpts neg) (if neg then -1 else 8388603)) := by
  have h := heightAt_of_values (manyLevelsOpts neg) [6, 6, 5] 1 1 0 8388602 17 17 (16777205 / 2)
    8388603 (by decide) (by decide) rfl (by norm_num) rfl rfl (by norm_num) quotF32_many
    (by norm_num [cRound])
  cases neg
  · exact h
  · exact h

/-- C17 (refuted as stated): on the 1x1 image `(6, 6, 5)` with
`--levels 8388603` the level before the inversion is `8388603 = levels`, above
`levels-1`, and with `negative = true` the level after the inversion is `-1`,
below 0.  The same happens on the white 1x1 image with `--levels 4211009`,
where the single-precision quotient is `4211008.5`. -/
theorem level_out_of_range :
    2 ≤ (manyLevelsOpts true).OptLevels ∧ 0 < specLmax [6, 6, 5] (1 * 1) ∧
    rawLevel (manyLevelsOpts true) (lumAt [6, 6, 5] (3 * 0)) (maxLoop [6, 6, 5] (1 * 1) 0 0) =
      some 8388603 ∧
    ¬ (8388603 : Int) ≤ (manyLevelsOpts true).OptLevels - 1 ∧
    pixelLevel (manyLevelsOpts true) (lumAt [6, 6, 5] (3 * 0))
      (maxLoop [6, 6, 5] (1 * 1) 0 0) = some (-1) ∧
    ¬ (0 : Int) ≤ -1 ∧
    rawLevel overLevelsOpts (lumAt [255, 255, 255] (3 * 0))
      (maxLoop [255, 255, 255] (1 * 1) 0 0) = some 4211009 ∧
    ¬ (4211009 : Int) ≤ overLevelsOpts.OptLevels - 1 :=
  ⟨by decide, by norm_num [specLmax, specLuminance, List.range, List.range.loop],
    (manyLevels_pixel true).1, by decide, (manyLevels_pixel true).2.1, by decide,
    (heightAt_of_values overLevelsOpts [255, 255, 255] 1 1 0 4211008 765 765 (8422017 / 2)
      4211009 (by decide) (by decide) rfl (by norm_num) rfl rfl (by norm_num) quotF32_over
      (by norm_num [cRound])).1, by decide⟩

/-- C18 (refuted as stated): on the 1x1 image `(6, 6, 5)` with
`--levels 8388603 --positive` and the default heights, the height of the pixel
is `5033165/4194304`, the single-precision sum `base + relief` itself, and it
is above `10066329/8388608`, the single-precision value of
`base + relief*(levels-1)/levels`.  With `--base-height 16777216` and 20
levels the value of `base + relief*(levels-1)/levels` is equal to the sum
`base + relief`, not below it. -/
theorem height_reaches_full_relief :
    heightAt (manyLevelsOpts false) [6, 6, 5] 1 1 0 = some (F32.fin (5033165 / 4194304)) ∧
    (manyLevelsOpts false).OptBaseHeight + (manyLevelsOpts false).OptReliefHeight =
      F32.fin (5033165 / 4194304) ∧
    (manyLevelsOpts false).OptBaseHeight + (manyLevelsOpts false).OptReliefHeight *
      F32.ofInt ((manyLevelsOpts false).OptLevels - 1) /
        F32.ofInt (manyLevelsOpts false).OptLevels = F32.fin (10066329 / 8388608) ∧
    ¬ F32.fin (5033165 / 4194304) ≤ F32.fin (10066329 / 8388608) ∧
    highBaseOpts.OptBaseHeight + highBaseOpts.OptReliefHeight *
      F32.ofInt (highBaseOpts.OptLevels - 1) / F32.ofInt highBaseOpts.OptLevels =
        highBaseOpts.OptBaseHeight + highBaseOpts.OptReliefHeight := by
  refine ⟨?_, base_add_relief, heightOfLevel_many_top, ?_, ?_⟩
  · rw [(manyLevels_pixel false).2.2]
    exact congrArg some heightOfLevel_many_full
  · rw [F32.fin_le_fin]
    norm_num
  · exact heightOfLevel_highBase_19.trans F32.add_one_absorbed.symm

/-- C18 (amended) at a concrete input: the second pixel of the 2x1 image with
luminances 255 and 85, with the default options. -/
theorem height_below_full_relief_witness :
    ∃ height, heightAt defaultOpts [255, 255, 255, 85, 85, 85] 2 1 1 = some height ∧
      height ≤ defaultOpts.OptBaseHeight + defaultOpts.OptReliefHeight *
        F32.ofInt (defaultOpts.OptLevels - 1) / F32.ofInt defaultOpts.OptLevels ∧
      defaultOpts.OptBaseHeight + defaultOpts.OptReliefHeight *
        F32.ofInt (defaultOpts.OptLevels - 1) / F32.ofInt defaultOpts.OptLevels ≤
          defaultOpts.OptBaseHeight + defaultOpts.OptReliefHeight :=
  height_below_full_relief defaultOpts [255, 255, 255, 85, 85, 85] 2 1 1 (13421773 / 67108864) 1
    ⟨by decide, by decide⟩ (by decide) (by decide) (by norm_num [defaultOpts])
    (by norm_num [specLmax, specLuminance, List.range, List.range.loop]) rfl rfl
    defaultOpts_relief_valid (by norm_num) (by norm_num [defaultOpts])

/-- C19 (refuted as stated): (1) on the 1x1 image `(6, 6, 5)` with
`--levels 8388603` the only pixel is as bright as the maximum, its level
before the inversion is `8388603`, not `levels-1`, and with `negative = true`
its height is `13421765/67108864`, below `OptBaseHeight`; (2) with
`--positive --relief-height -1` on the 2x1 image with luminances 255 and 0 the
brightest pixel gets the height `-3/4`, below the height `OptBaseHeight` of
the black pixel. -/
theorem brightest_pixel_not_extreme :
    (lumAt [6, 6, 5] (3 * 0) = maxLoop [6, 6, 5] (1 * 1) 0 0 ∧
      rawLevel (manyLevelsOpts true) (lumAt [6, 6, 5] (3 * 0))
        (maxLoop [6, 6, 5] (1 * 1) 0 0) = some 8388603 ∧
      (8388603 : Int) ≠ (manyLevelsOpts true).OptLevels - 1 ∧
      heightAt (manyLevelsOpts true) [6, 6, 5] 1 1 0 = some (F32.fin (13421765 / 67108864)) ∧
      F32.fin (13421765 / 67108864) < (manyLevelsOpts true).OptBaseHeight) ∧
    (lumAt [255, 255, 255, 0, 0, 0] (3 * 0) = maxLoop [255, 255, 255, 0, 0, 0] (2 * 1) 0 0 ∧
      sunkReliefOpts.OptNegative = false ∧
      heightAt sunkReliefOpts [255, 255, 255, 0, 0, 0] 2 1 0 = some (F32.fin (-3 / 4)) ∧
      heightAt sunkReliefOpts [255, 255, 255, 0, 0, 0] 2 1 1 =
        some sunkReliefOpts.OptBaseHeight ∧
      F32.fin (-3 / 4) < sunkReliefOpts.OptBaseHeight) := by
  have hb : ∀ b ∈ [255, 255, 255, 0, 0, 0], b ≤ 255 := by decide
  have hg : isGrid [255, 255, 255, 0, 0, 0] 2 1 := ⟨by decide, hb⟩
  have hmax : 0 < specLmax [255, 255, 255, 0, 0, 0] (2 * 1) := by
    norm_num [specLmax, specLuminance, List.range, List.range.loop]
  have hl0 := lumAt_max_of [255, 255, 255, 0, 0, 0] 2 1 0 hb rfl
  obtain ⟨r0, -, -, -, hm0, -, -, hh0⟩ := pixel_facts sunkReliefOpts _ 2 1 0 hg (by decide)
    (by decide) (by norm_num [sunkReliefOpts, defaultOpts]) hmax
  obtain ⟨r1, -, -, -, -, hz1, -, hh1⟩ := pixel_facts sunkReliefOpts _ 2 1 1 hg (by decide)
    (by decide) (by norm_num [sunkReliefOpts, defaultOpts]) hmax
  rw [hm0 hl0] at hh0
  rw [hz1 (lumAt_zero_of _ 1 hb rfl)] at hh1
  refine ⟨⟨lumAt_max_of _ 1 1 0 (by decide) rfl, (manyLevels_pixel true).1, by decide, ?_, ?_⟩,
    ⟨hl0, rfl, ?_, ?_, ?_⟩⟩
  · rw [(manyLevels_pixel true).2.2]
    exact congrArg some heightOfLevel_many_below
  · show F32.fin (13421765 / 67108864) < F32.fin (13421773 / 67108864)
    rw [F32.fin_lt_fin]
    norm_num
  · rw [hh0]
    exact congrArg some heightOfLevel_sunk_19
  · rw [hh1]
    exact congrArg some (heightOfLevel_zero sunkReliefOpts (-1) defaultOpts_base_valid rfl
      (by decide) (by norm_num [sunkReliefOpts, defaultOpts]))
  · show F32.fin (-3 / 4) < F32.fin (13421773 / 67108864)
    rw [F32.fin_lt_fin]
    norm_num

/-- C19 (amended) at a concrete input: the 2x1 image with luminances 255 and
85 and the default options (`negative = true`): the first pixel is the
brightest, gets level 19 before the inversion and the height `OptBaseHeight`,
and no pixel is lower. -/
theorem brightest_pixel_witness :
    (∃ k, k < 2 * 1 ∧ lumAt [255, 255, 255, 85, 85, 85] (3 * k) =
      maxLoop [255, 255, 255, 85, 85, 85] (2 * 1) 0 0) ∧
    rawLevel defaultOpts (lumAt [255, 255, 255, 85, 85, 85] (3 * 0))
      (maxLoop [255, 255, 255, 85, 85, 85] (2 * 1) 0 0) = some (defaultOpts.OptLevels - 1) ∧
    heightAt defaultOpts [255, 255, 255, 85, 85, 85] 2 1 0 = some defaultOpts.OptBaseHeight ∧
    ∀ j, j < 2 * 1 → ∃ height, heightAt defaultOpts [255, 255, 255, 85, 85, 85] 2 1 j =
      some height ∧ defaultOpts.OptBaseHeight ≤ height :=
  ⟨(brightest_pixel defaultOpts [255, 255, 255, 85, 85, 85] 2 1 (13421773 / 67108864) 1
      ⟨by decide, by decide⟩ (by decide) (by norm_num [defaultOpts])
      (by norm_num [specLmax, specLuminance, List.range, List.range.loop]) rfl
      defaultOpts_base_valid rfl (by norm_num)).1,
   ((brightest_pixel defaultOpts [255, 255, 255, 85, 85, 85] 2 1 (13421773 / 67108864) 1
      ⟨by decide, by decide⟩ (by decide) (by norm_num [defaultOpts])
      (by norm_num [specLmax, specLuminance, List.range, List.range.loop]) rfl
      defaultOpts_base_valid rfl (by norm_num)).2 0 (by decide)
      (lumAt_max_of _ 2 1 0 (by decide) rfl)).1,
   (((brightest_pixel defaultOpts [255, 255, 255, 85, 85, 85] 2 1 (13421773 / 67108864) 1
      ⟨by decide, by decide⟩ (by decide) (by norm_num [defaultOpts])
      (by norm_num [specLmax, specLuminance, List.range, List.range.loop]) rfl
      defaultOpts_base_valid rfl (by norm_num)).2 0 (by decide)
      (lumAt_max_of _ 2 1 0 (by decide) rfl)).2.2 rfl).1,
   (((brightest_pixel defaultOpts [255, 255, 255, 85, 85, 85] 2 1 (13421773 / 67108864) 1
      ⟨by decide, by decide⟩ (by decide) (by norm_num [defaultOpts])
      (by norm_num [specLmax, specLuminance, List.range, List.range.loop]) rfl
      defaultOpts_base_valid rfl (by norm_num)).2 0 (by decide)
      (lumAt_max_of _ 2 1 0 (by decide) rfl)).2.2 rfl).2⟩

/-! ## The largest number of levels -/

/-- With `--levels 2147483647` the `float` nearest to `OptLevels-1` is `2^31`,
and so is the quotient for a pixel as bright as the maximum: the conversion of
its rounded value to `int` is undefined. -/
theorem rawLevel_maxLevels :
    rawLevel maxLevelsOpts (lumOfSum 765) (lumOfSum 765) = none := by
  have hlum : lumOfSum 765 = F32.fin 255 := by
    rw [lumOfSum_eq 765 (by norm_num), lumF32_765]
  have hc : int32 (maxLevelsOpts.OptLevels - 1) = some 2147483646 :=
    int32_of_range _ (by decide) (by decide)
  have hf : F32.ofInt 2147483646 = F32.fin 2147483648 := by
    show F32.round ((2147483646 : Int) : ℚ) = _
    exact F32.round_val _ _ (fl32_val _ _ 30 16777216 (by norm_num)
      (by norm_num [abs_of_pos]) (by norm_num [abs_of_pos]) (by norm_num [abs_lt])
      (by norm_num)) (by norm_num [abs_lt])
  have hp : F32.round (2147483648 * 255) = F32.fin 547608330240 :=
    F32.round_val _ _ (fl32_val _ _ 38 16711680 (by norm_num)
      (by norm_num [abs_of_pos]) (by norm_num [abs_of_pos]) (by norm_num [abs_lt])
      (by norm_num)) (by norm_num [abs_lt])
  have hq : F32.round (547608330240 / 255) = F32.fin 2147483648 :=
    F32.round_val _ _ (fl32_val _ _ 31 8388608 (by norm_num)
      (by norm_num [abs_of_pos]) (by norm_num [abs_of_pos]) (by norm_num [abs_lt])
      (by norm_num)) (by norm_num [abs_lt])
  rw [rawLevel, hc, hlum]
  simp only []
  rw [hf, F32.fin_mul_fin, hp, F32.fin_div_fin _ _ (by norm_num), hq]
  norm_num [roundToInt, cRound, int32, INT_MIN, INT_MAX]

theorem pixelHeight_of_rawLevel_none (o : Opts) (lum max : F32)
    (h : rawLevel o lum max = none) : pixelHeight o lum max = none := by
  simp only [pixelHeight, pixelLevel, h]

theorem pixelHeight_maxLevels :
    pixelHeight maxLevelsOpts (lumOfSum 765) (lumOfSum 765) = none :=
  pixelHeight_of_rawLevel_none _ _ _ rawLevel_maxLevels

/-- C4 (refuted as stated): with `levels = 2147483647` (and the default relief
height 1 and maximum 255) the luminance 255 has no defined height: the
quotient `(levels-1)*255/255` is `2^31` in single precision, outside the range
of `int`, so the heights of the luminances 0 and 255 cannot be compared. -/
theorem height_undefined_max_levels :
    2 ≤ maxLevelsOpts.OptLevels ∧ maxLevelsOpts.OptReliefHeight = F32.fin 1 ∧
    lumOfSum 765 = F32.fin 255 ∧
    pixelHeight maxLevelsOpts (lumOfSum 765) (lumOfSum 765) = none ∧
    ¬ ∃ height1 height2, pixelHeight maxLevelsOpts (lumOfSum 0) (lumOfSum 765) = some height1 ∧
      pixelHeight maxLevelsOpts (lumOfSum 765) (lumOfSum 765) = some height2 ∧
      height2 ≤ height1 := by
  refine ⟨by decide, rfl, ?_, pixelHeight_maxLevels, ?_⟩
  · rw [lumOfSum_eq 765 (by norm_num), lumF32_765]
  · rintro ⟨h1, h2, -, h, -⟩
    rw [pixelHeight_maxLevels] at h
    cases h

/-- C4 (amended) at a concrete input: the channel sums 255 and 510 with
maximum 765 and the default options. -/
theorem height_monotone_witness :
    ∃ height1 height2, pixelHeight defaultOpts (lumOfSum 255) (lumOfSum 765) = some height1 ∧
      pixelHeight defaultOpts (lumOfSum 510) (lumOfSum 765) = some height2 ∧
      (defaultOpts.OptNegative = true → height2 ≤ height1) ∧
      (defaultOpts.OptNegative = false → height1 ≤ height2) :=
  height_monotone defaultOpts (13421773 / 67108864) 1 255 510 765 rfl rfl (by norm_num)
    (by decide) (by norm_num [defaultOpts]) (by norm_num) (by norm_num) (by norm_num)
    (by norm_num)

/-! ## Undefined output -/

/-- C11 (refuted as stated): on the 2x1 image with the pixels `(3, 2, 2)` and
`(13, 13, 12)` (channel sums 7 and 38) and the default options (20 levels,
negative), the quotient `19 * (7/3) / (38/3)` is exactly 3.5 and the
reference level is `round(3.5) = 4`, inverted to 15.  In single precision the
luminances are `2.3333332538…` (rounded down) and `12.6666669845…` (rounded
up), the product is `44.3333320617…`, the quotient `3.4999997615…`, `round`
gives 3, inverted to 16, and the height passed to `boxToTriangles` is 1, the
single-precision value of `base + 1*16/20`, not `15938355/16777216`, the
single-precision value of the reference formula `base + 1*15/20`.  Off the
ties too the level can differ when there are many levels: with
`--levels 4316` on the pixels `(251, 251, 250)` and `(253, 252, 252)` (channel
sums 752 and 757) the quotient `4315 * 752 / 757` is `4286.49933…`, the
reference level is 4286 and the code, whose single-precision quotient is
`4286.5`, gets 4287. -/
theorem tie_rounds_down_in_single_precision :
    (defaultOpts.OptLevels - 1 : ℚ) * specLuminance [3, 2, 2, 13, 13, 12] 0 /
        specLmax [3, 2, 2, 13, 13, 12] (2 * 1) = 7 / 2 ∧
    specLevel defaultOpts (specLuminance [3, 2, 2, 13, 13, 12] 0)
        (specLmax [3, 2, 2, 13, 13, 12] (2 * 1)) = 15 ∧
    rawLevel defaultOpts (lumAt [3, 2, 2, 13, 13, 12] (3 * 0))
        (maxLoop [3, 2, 2, 13, 13, 12] (2 * 1) 0 0) = some 3 ∧
    pixelLevel defaultOpts (lumAt [3, 2, 2, 13, 13, 12] (3 * 0))
        (maxLoop [3, 2, 2, 13, 13, 12] (2 * 1) 0 0) = some 16 ∧
    heightAt defaultOpts [3, 2, 2, 13, 13, 12] 2 1 0 = some (F32.fin 1) ∧
    defaultOpts.OptBaseHeight + defaultOpts.OptReliefHeight * F32.ofInt 15 /
        F32.ofInt defaultOpts.OptLevels = F32.fin (15938355 / 16777216) ∧
    heightAt defaultOpts [3, 2, 2, 13, 13, 12] 2 1 0 ≠
      some (defaultOpts.OptBaseHeight + defaultOpts.OptReliefHeight *
        F32.ofInt (specLevel defaultOpts (specLuminance [3, 2, 2, 13, 13, 12] 0)
          (specLmax [3, 2, 2, 13, 13, 12] (2 * 1))) / F32.ofInt defaultOpts.OptLevels) ∧
    rawLevel offTieLevelsOpts (lumAt [251, 251, 250, 253, 252, 252] (3 * 0))
        (maxLoop [251, 251, 250, 253, 252, 252] (2 * 1) 0 0) = some 4287 ∧
    specRawLevel offTieLevelsOpts (specLuminance [251, 251, 250, 253, 252, 252] 0)
        (specLmax [251, 251, 250, 253, 252, 252] (2 * 1)) = 4286 := by
  have h := heightAt_of_values defaultOpts [3, 2, 2, 13, 13, 12] 2 1 0 19 7 38
    (14680063 / 4194304) 3 (by decide) (by decide) rfl (by norm_num) rfl rfl (by norm_num)
    quotF32_tie (by norm_num [cRound])
  have hspec : specLevel defaultOpts (specLuminance [3, 2, 2, 13, 13, 12] 0)
      (specLmax [3, 2, 2, 13, 13, 12] (2 * 1)) = 15 := by
    norm_num [specLevel, specRawLevel, specRound, specLuminance, specLmax, defaultOpts,
      List.range, List.range.loop]
  have hht : heightAt defaultOpts [3, 2, 2, 13, 13, 12] 2 1 0 = some (F32.fin 1) := by
    rw [h.2.2]
    exact congrArg some heightOfLevel_default_16
  have hoff := heightAt_of_values offTieLevelsOpts [251, 251, 250, 253, 252, 252] 2 1 0
    4315 752 757 (8573 / 2) 4287 (by decide) (by decide) rfl (by norm_num) rfl rfl
    (by norm_num) quotF32_off (by norm_num [cRound])
  refine ⟨?_, hspec, h.1, h.2.1, hht, heightOfLevel_default_15, ?_, hoff.1, ?_⟩
  · norm_num [specLuminance, specLmax, defaultOpts, List.range, List.range.loop]
  · rw [hht, hspec]
    intro e
    have e2 := (Option.some.inj e).trans heightOfLevel_default_15
    have e3 := F32.fin.inj e2
    norm_num at e3
  · norm_num [specRawLevel, specRound, specLuminance, specLmax, offTieLevelsOpts,
      defaultOpts, List.range, List.range.loop]

/-- C11 (amended) at a concrete input: the second pixel of the 2x1 image with
luminances 255 and 85 and the default options, where the quotient
`19 * 85 / 255` is not half-way between two integers. -/
theorem height_vs_reference_witness :
    ∃ raw : Int, rawLevel defaultOpts (lumAt [255, 255, 255, 85, 85, 85] (3 * 1))
        (maxLoop [255, 255, 255, 85, 85, 85] (2 * 1) 0 0) = some raw ∧
      raw = specRawLevel defaultOpts (specLuminance [255, 255, 255, 85, 85, 85] 1)
        (specLmax [255, 255, 255, 85, 85, 85] (2 * 1)) ∧
      heightAt defaultOpts [255, 255, 255, 85, 85, 85] 2 1 1 =
        some (defaultOpts.OptBaseHeight + defaultOpts.OptReliefHeight *
          F32.ofInt (specLevel defaultOpts (specLuminance [255, 255, 255, 85, 85, 85] 1)
            (specLmax [255, 255, 255, 85, 85, 85] (2 * 1))) /
              F32.ofInt defaultOpts.OptLevels) := by
  have hnt : ¬ isTie ((defaultOpts.OptLevels - 1) * specLuminance [255, 255, 255, 85, 85, 85] 1 /
      specLmax [255, 255, 255, 85, 85, 85] (2 * 1)) := by
    rintro ⟨n, hn⟩
    have e : ((defaultOpts.OptLevels : ℚ) - 1) * specLuminance [255, 255, 255, 85, 85, 85] 1 /
        specLmax [255, 255, 255, 85, 85, 85] (2 * 1) = 19 / 3 := by
      norm_num [specLuminance, specLmax, defaultOpts, List.range, List.range.loop]
    rw [e] at hn
    have h6 : (38 : ℚ) = 6 * n + 3 := by linarith
    have h6i : (38 : Int) = 6 * n + 3 := by exact_mod_cast h6
    omega
  obtain ⟨raw, h1, -, h3, -, h5⟩ := height_vs_reference defaultOpts
    [255, 255, 255, 85, 85, 85] 2 1 1 ⟨by decide, by decide⟩ (by decide) (by decide)
    (by norm_num [defaultOpts])
    (by norm_num [specLmax, specLuminance, List.range, List.range.loop])
  exact ⟨raw, h1, h3 hnt, h5 hnt⟩

/-! ## Boxes at concrete coordinates -/

theorem F32.three_add_one : F32.fin 3 + 1 = F32.fin 4 :=
  (F32.fin_add_fin _ _).trans
    (F32.round_val _ _ (fl32_val _ _ 2 8388608 (by norm_num) (by norm_num [abs_of_pos])
      (by norm_num [abs_of_pos]) (by norm_num [abs_lt]) (by norm_num)) (by norm_num [abs_lt]))

theorem F32.four_add_one : F32.fin 4 + 1 = F32.fin 5 :=
  (F32.fin_add_fin _ _).trans
    (F32.round_val _ _ (fl32_val _ _ 2 10485760 (by norm_num) (by norm_num [abs_of_pos])
      (by norm_num [abs_of_pos]) (by norm_num [abs_lt]) (by norm_num)) (by norm_num [abs_lt]))

/-- C5 (amended) at a concrete input: the box of pixel (3, 4) with the default
base height. -/
theorem boxToTriangles_winding_witness :
    (facets (boxToTriangles (F32.fin 3) (F32.fin 4) (F32.fin 1) (F32.fin 1)
      (F32.fin (13421773 / 67108864)))).length = 12 ∧
    ∀ k, k < 12 → ∃ t, (facets (boxToTriangles (F32.fin 3) (F32.fin 4) (F32.fin 1)
        (F32.fin 1) (F32.fin (13421773 / 67108864))))[k]? = some t ∧
      (∀ v ∈ t.vertices, onFace (F32.fin 3) (F32.fin 4) (F32.fin 1) (F32.fin 1)
        (F32.fin (13421773 / 67108864)) (k / 2) v ∧ v.finite) ∧
      ∃ c : ℚ, 0 < c ∧ windingNormal t = RVec.scale c (outwardNormal (k / 2)) :=
  boxToTriangles_winding 3 4 1 1 (13421773 / 67108864) 4 5 F32.three_add_one F32.four_add_one
    (by norm_num) (by norm_num) (by norm_num)

/-- C5 (refuted as stated): for `x = 16777216`, `y = 0` and
`xsize = ysize = zheight = 1` the single-precision sum `x+xsize` is `x`
itself, so the first triangle of the bottom face has the vertices
`(x, 0, 0)`, `(x, 1, 0)` and `(x, 0, 0)`: the vector `(v2 - v1) × (v3 - v1)`
is zero, not a strictly positive multiple of `-Z`. -/
theorem boxToTriangles_degenerate :
    F32.fin 16777216 + 1 = F32.fin 16777216 ∧
    ∃ t, (facets (boxToTriangles (F32.fin 16777216) 0 1 1 1))[0]? = some t ∧
      t = ⟨⟨F32.fin 16777216, 0, 0⟩, ⟨F32.fin 16777216, 1, 0⟩, ⟨F32.fin 16777216, 0, 0⟩⟩ ∧
      windingNormal t = ⟨0, 0, 0⟩ ∧
      ¬ ∃ c : ℚ, 0 < c ∧ windingNormal t = RVec.scale c (outwardNormal (0 / 2)) := by
  have hw : windingNormal ⟨⟨F32.fin 16777216, 0, 0⟩, ⟨F32.fin 16777216, 1, 0⟩,
      ⟨F32.fin 16777216, 0, 0⟩⟩ = ⟨0, 0, 0⟩ := by
    simp [windingNormal, RVec.cross, RVec.sub, Vec3.toRVec, F32.toRat, F32.zero_def,
      F32.one_def]
  refine ⟨F32.add_one_absorbed, _, ?_, rfl, hw, ?_⟩
  · rw [facets_boxToTriangles_eq, F32.add_one_absorbed, F32.zero_add_one]
    rfl
  · rintro ⟨c, hc, h⟩
    rw [hw] at h
    simp only [RVec.scale, outwardNormal, RVec.mk.injEq] at h
    have h3 := h.2.2
    linarith

/-- C6 (amended) at a concrete input: the box of pixel (3, 4) with the default
base height. -/
theorem boxToTriangles_closed_witness :
    (facets (boxToTriangles (F32.fin 3) (F32.fin 4) 1 1
      (F32.fin (13421773 / 67108864)))).length = 12 ∧
    (∀ t ∈ facets (boxToTriangles (F32.fin 3) (F32.fin 4) 1 1 (F32.fin (13421773 / 67108864))),
      ∀ v ∈ t.vertices, v ∈ corners (F32.fin 3) (F32.fin 4) 1 1 (F32.fin (13421773 / 67108864))) ∧
    (corners (F32.fin 3) (F32.fin 4) 1 1 (F32.fin (13421773 / 67108864))).length = 8 ∧
    (corners (F32.fin 3) (F32.fin 4) 1 1 (F32.fin (13421773 / 67108864))).Nodup ∧
    (∀ c ∈ corners (F32.fin 3) (F32.fin 4) 1 1 (F32.fin (13421773 / 67108864)),
      ∃ t ∈ facets (boxToTriangles (F32.fin 3) (F32.fin 4) 1 1
        (F32.fin (13421773 / 67108864))), c ∈ t.vertices) ∧
    closedSurface (facets (boxToTriangles (F32.fin 3) (F32.fin 4) 1 1
      (F32.fin (13421773 / 67108864)))) :=
  boxToTriangles_closed (F32.fin 3) (F32.fin 4) 1 1 (F32.fin (13421773 / 67108864))
    (by rw [F32.three_add_one]; intro h; have := F32.fin.inj h; norm_num at this)
    (by rw [F32.four_add_one]; intro h; have := F32.fin.inj h; norm_num at this)
    (by intro h; have := F32.fin.inj h; norm_num at this)

/-- C6 (refuted as stated): for `x = 16777216`, `y = 0` and
`xsize = ysize = zheight = 1` the single-precision sum `x+xsize` is `x`
itself: the box has four distinct corners only, and the directed edge from
`(x, 0, 0)` to `(x, 1, 0)` occurs in the two triangles of the bottom face, so
the twelve triangles are not a closed surface. -/
theorem boxToTriangles_not_closed :
    F32.fin 16777216 + 1 = F32.fin 16777216 ∧
    ¬ (corners (F32.fin 16777216) 0 1 1 1).Nodup ∧
    ¬ closedSurface (facets (boxToTriangles (F32.fin 16777216) 0 1 1 1)) := by
  have h10 : (1 : F32) ≠ 0 := by
    intro h
    have := F32.fin.inj h
    norm_num at this
  refine ⟨F32.add_one_absorbed, ?_, ?_⟩
  · simp only [corners, corner, List.map, F32.add_one_absorbed]
    intro h
    rw [List.nodup_cons] at h
    exact h.1 (by simp)
  · intro hT
    rw [facets_boxToTriangles_eq, F32.add_one_absorbed, F32.zero_add_one] at hT
    have h1 := (hT ⟨⟨F32.fin 16777216, 0, 0⟩, ⟨F32.fin 16777216, 1, 0⟩,
      ⟨F32.fin 16777216, 0, 0⟩⟩ (List.mem_cons_self _ _)
      (⟨F32.fin 16777216, 0, 0⟩, ⟨F32.fin 16777216, 1, 0⟩) (by simp [Tri.edges])).1
    have h2 : (⟨⟨F32.fin 16777216, 0, 0⟩, ⟨F32.fin 16777216, 1, 0⟩,
        ⟨F32.fin 16777216, 1, 0⟩⟩ : Tri Vec3) ∈
        [(⟨⟨F32.fin 16777216, 0, 0⟩, ⟨F32.fin 16777216, 1, 0⟩,
          ⟨F32.fin 16777216, 0, 0⟩⟩ : Tri Vec3)] := by
      rw [← h1, List.mem_filter]
      exact ⟨List.mem_cons_of_mem _ (List.mem_cons_self _ _), by simp [Tri.edges]⟩
    rw [List.mem_singleton] at h2
    have h3 := (Tri.mk.inj h2).2.2
    have h4 := (Vec3.mk.inj h3).2.1
    exact h10 h4

/-! ## `--help` as a value -/

/-- C15 (refuted as stated): in `png2stl --levels --help` the argument before
`--help` is the valid option `--levels`, and `--help` is read as its value:
the process prints "No PNG filename given" and exits with status 1, without
the usage text. -/
theorem help_read_as_value :
    main noFileEnv ["png2stl", "--levels", "--help"] = some noFilenameProc ∧
    noFilenameProc.status = 1 ∧ noFilenameProc.stdout ≠ showHelp ∧
    noFilenameProc ≠ helpProc :=
  ⟨main_options_only noFileEnv "png2stl" ["--levels", "--help"] (by simp)
    (Options.value _ _ _ (by simp [valueOptions]) Options.nil), rfl, by decide, by decide⟩

/-! ## Size of the buffer of `PngLoad` -/

end PngToStl
